import Mathlib

/-!
CitcomtFile::load: header parser and grid streamer.

A shallow embedding of `Visualization::Concrete::CitcomtFile::load`
(`src/Concrete/CitcomtFile.cpp`).

Conventions of the embedding.

* A C string is the `List Char` of its characters before the terminating NUL;
  the test `*p != 0` is `p ≠ []`, `p + k` is `p.drop k`, `p[k]` is
  `p.getD k (Char.ofNat 0)`.  Bytes of the line buffer behind the terminator
  are not modelled: reading there yields NUL.
* `int` values are `Int`; among the values modelled the only one that can
  leave the range of `int` is the result of `atoi`, which is narrowed
  explicitly.
* The file is the list of the lines that successive `gets(line,256)` calls
  deliver, each with its newline; at the end of the file `gets` leaves the
  buffer as it is.
* The `do ... while` loops of the header directives run on fuel; the length of
  the line is always enough (`headerLineFuel_isSome`).
* Floating-point arithmetic, `strtod` and the `Math::` functions are taken as
  parameters (`FloatOps`).
* The vertex loop carries its progress output: `vertexCounter`, `nextTick` and
  `totalNumNodes` are `unsigned int`, reduced modulo 2^32 after every
  operation; an update that divides by a `totalNumNodes` of zero ends the run,
  so `load` has no result then.
-/

namespace CitcomtFile

/-! ## C library primitives used by the loader -/

/-- The NUL character. -/
def NUL : Char := Char.ofNat 0

/-- Read `p[k]` of a C string. -/
def charAt (p : List Char) (k : Nat) : Char := p.getD k NUL

/-- `isspace` of the C locale: space, `\t`, `\n`, `\v`, `\f`, `\r`. -/
def isspace (c : Char) : Bool :=
  c.toNat == 32 || (9 ≤ c.toNat && c.toNat ≤ 13)

/-- `toupper` of the C locale. -/
def toupper (c : Char) : Char :=
  if 97 ≤ c.toNat ∧ c.toNat ≤ 122 then Char.ofNat (c.toNat - 32) else c

/-- `tolower` of the C locale. -/
def tolower (c : Char) : Char :=
  if 65 ≤ c.toNat ∧ c.toNat ≤ 90 then Char.ofNat (c.toNat + 32) else c

/-- The test `strncasecmp(s1,s2,n)==0`: the first `n` characters agree up to
letter case, the comparison stopping at a common terminator. -/
def strncasecmp0 : List Char → List Char → Nat → Bool
  | _, _, 0 => true
  | [], [], _ + 1 => true
  | [], _ :: _, _ + 1 => false
  | _ :: _, [], _ + 1 => false
  | a :: s1, b :: s2, n + 1 => tolower a == tolower b && strncasecmp0 s1 s2 n

/-- C `isdigit`. -/
def isdigit (c : Char) : Bool := 48 ≤ c.toNat && c.toNat ≤ 57

/-- Value of the leading run of decimal digits, accumulated left to right. -/
def digitsValue : Nat → List Char → Nat
  | acc, [] => acc
  | acc, c :: cs => if isdigit c then digitsValue (10 * acc + (c.toNat - 48)) cs else acc

/-- Narrowing of a mathematical integer to a 32-bit `int` (two's complement). -/
def toInt32 (v : Int) : Int := (v + 2 ^ 31) % 2 ^ 32 - 2 ^ 31

/-- Saturation to the range of a 64-bit `long`, as `strtol` does. -/
def clampLong (v : Int) : Int := max (-(2 ^ 63)) (min (2 ^ 63 - 1) v)

/-- `atoi`, as `(int) strtol(s, NULL, 10)`: skip white space, take an optional
sign, read the leading decimal digits; no digits give 0. -/
def atoi (s : List Char) : Int :=
  match s.dropWhile isspace with
  | [] => 0
  | c :: cs =>
    if c = '-' then toInt32 (clampLong (-(digitsValue 0 cs : Int)))
    else if c = '+' then toInt32 (clampLong (digitsValue 0 cs))
    else toInt32 (clampLong (digitsValue 0 (c :: cs)))

/-! ## Parse state -/

/-- An `int[3]` array. -/
structure Int3 where
  i0 : Int
  i1 : Int
  i2 : Int
  deriving DecidableEq, Repr

/-- Array read `a[k]`. -/
def Int3.get (a : Int3) (k : Nat) : Int :=
  match k with
  | 0 => a.i0
  | 1 => a.i1
  | _ => a.i2

/-- Array write `a[k]=v`, for `k` in 0..2 (other indices are never used). -/
def Int3.set (a : Int3) (k : Int) (v : Int) : Int3 :=
  if k = 0 then { a with i0 := v }
  else if k = 1 then { a with i1 := v }
  else if k = 2 then { a with i2 := v }
  else a

/-- The local variables of `load` that the header loop updates. -/
structure HeaderState where
  numNodes : Int3
  coordColumn : Int3
  dataColumn : Int
  dataName : Option (List Char)
  sphericalOrder : Int3
  deriving DecidableEq, Repr

/-- The values the locals are initialised with (lines 91-101). -/
def HeaderState.init : HeaderState :=
  { numNodes := ⟨-1, -1, -1⟩
    coordColumn := ⟨-1, -1, -1⟩
    dataColumn := -1
    dataName := none
    sphericalOrder := ⟨-1, -1, -1⟩ }

/-- The variable request derived from `args[1]` (lines 59-84): `varStart` is
`none` for the null pointer, otherwise the searched name, whose length is
`varLen`. -/
structure Request where
  logScale : Bool
  varStart : Option (List Char)
  deriving DecidableEq, Repr

/-- The `varLen` local. -/
def Request.varLen (r : Request) : Nat :=
  match r.varStart with
  | none => 0
  | some v => v.length

/-- Lines 59-84: `args1` is `args[1]` when `args.size()>1`. -/
def parseRequest (args1 : Option (List Char)) : Request :=
  match args1 with
  | none => { logScale := false, varStart := none }
  | some t =>
    if charAt t 0 ≠ '-' then
      if strncasecmp0 t "log(".toList 4 then
        { logScale := true, varStart := some ((t.drop 4).takeWhile (fun c => c != ')')) }
      else
        { logScale := false, varStart := some t }
    else { logScale := false, varStart := none }

/-! ## Header directives (lines 108-229) -/

/-- One pass of the `NODES` do-while body (lines 121-133): the updated
`numNodes` and the advanced `cPtr`. -/
def nodesBody (cPtr : List Char) (st : HeaderState) : HeaderState × List Char :=
  let st1 :=
    if toupper (charAt cPtr 5) = 'Y' then
      { st with numNodes := st.numNodes.set 0 (atoi (cPtr.drop 7)) }
    else if toupper (charAt cPtr 5) = 'X' then
      { st with numNodes := st.numNodes.set 1 (atoi (cPtr.drop 7)) }
    else st
  let st2 :=
    if toupper (charAt cPtr 5) = 'Z' then
      { st1 with numNodes := st1.numNodes.set 2 (atoi (cPtr.drop 7)) }
    else st1
  (st2, (cPtr.dropWhile (fun c => !isspace c)).dropWhile isspace)

/-- The `NODES` do-while loop (lines 119-135); `none` only when the fuel runs
out. -/
def nodesLoop : Nat → List Char → HeaderState → Option HeaderState
  | 0, _, _ => none
  | fuel + 1, cPtr, st =>
    let r := nodesBody cPtr st
    if strncasecmp0 r.2 "NODES".toList 5 then nodesLoop fuel r.2 r.1 else some r.1

/-- The loop condition of the spherical directive (lines 137 and 165). -/
def isAxisDash (cPtr : List Char) : Bool :=
  (toupper (charAt cPtr 0) == 'X' || toupper (charAt cPtr 0) == 'Y'
    || toupper (charAt cPtr 0) == 'Z') && charAt cPtr 1 == '-'

/-- One pass of the spherical do-while body (lines 142-163). -/
def sphericalBody (cPtr : List Char) (st : HeaderState) : HeaderState × List Char :=
  let coordIndex : Int := ((toupper (charAt cPtr 0)).toNat : Int) - ('X'.toNat : Int)
  let endPtr := cPtr.dropWhile (fun c => c != ',' && !isspace c)
  let len := cPtr.length - endPtr.length
  let st1 :=
    if len = 5 ∧ strncasecmp0 (cPtr.drop 2) "LAT".toList 3 then
      { st with sphericalOrder := st.sphericalOrder.set 0 coordIndex }
    else if len = 5 ∧ strncasecmp0 (cPtr.drop 2) "LON".toList 3 then
      { st with sphericalOrder := st.sphericalOrder.set 1 coordIndex }
    else st
  let st2 :=
    if len = 8 ∧ strncasecmp0 (cPtr.drop 2) "RADIUS".toList 3 then
      { st1 with sphericalOrder := st1.sphericalOrder.set 2 coordIndex }
    else st1
  let c1 := if charAt endPtr 0 = ',' then endPtr.drop 1 else endPtr
  (st2, c1.dropWhile isspace)

/-- The spherical do-while loop (lines 140-165). -/
def sphericalLoop : Nat → List Char → HeaderState → Option HeaderState
  | 0, _, _ => none
  | fuel + 1, cPtr, st =>
    let r := sphericalBody cPtr st
    if isAxisDash r.2 then sphericalLoop fuel r.2 r.1 else some r.1

/-- One pass of the column do-while body (lines 173-222), for the column
numbered `columnIndex`. -/
def columnBody (req : Request) (columnIndex : Int) (cPtr0 : List Char) (st : HeaderState) :
    HeaderState × List Char :=
  let cPtr := cPtr0.dropWhile (fun c => c == '|' || isspace c)
  let endPtr := cPtr.dropWhile (fun c => !isspace c)
  let len := cPtr.length - endPtr.length
  let st1 :=
    if len = 1 ∧ strncasecmp0 cPtr "X".toList 1 then
      { st with coordColumn := st.coordColumn.set 0 columnIndex }
    else if len = 1 ∧ strncasecmp0 cPtr "Y".toList 1 then
      { st with coordColumn := st.coordColumn.set 1 columnIndex }
    else if len = 1 ∧ strncasecmp0 cPtr "Z".toList 1 then
      { st with coordColumn := st.coordColumn.set 2 columnIndex }
    else if len = 4 ∧ strncasecmp0 cPtr "NODE".toList 4 then
      st
    else if st.dataColumn < 0 then
      if req.varStart = none ∨
          (len = req.varLen ∧ strncasecmp0 (req.varStart.getD []) cPtr req.varLen) then
        { st with
          dataColumn := columnIndex
          dataName :=
            if req.logScale then some ("Log(".toList ++ cPtr.take req.varLen ++ [')'])
            else some (cPtr.take req.varLen) }
      else st
    else st
  (st1, endPtr.dropWhile isspace)

/-- The column do-while loop (lines 170-224), started at `columnIndex`. -/
def columnLoop (req : Request) : Nat → Int → List Char → HeaderState → Option HeaderState
  | 0, _, _, _ => none
  | fuel + 1, columnIndex, cPtr, st =>
    let r := columnBody req columnIndex cPtr st
    if charAt r.2 0 = '|' then columnLoop req fuel (columnIndex + 1) r.2 r.1 else some r.1

/-- Lines 110-113: skip hash marks and white space. -/
def skipHash (line : List Char) : List Char :=
  line.dropWhile (fun c => c == '#' || isspace c)

/-- The directive dispatch of one header line (lines 110-225), with the fuel
of the inner loop given; `none` only when that fuel runs out. -/
def headerLineFuel (req : Request) (fuel : Nat) (st : HeaderState) (line : List Char) :
    Option HeaderState :=
  let cPtr := skipHash line
  if strncasecmp0 cPtr "NODES".toList 5 then nodesLoop fuel cPtr st
  else if isAxisDash cPtr then sphericalLoop fuel cPtr st
  else if charAt cPtr 0 = '|' then columnLoop req fuel 0 cPtr st
  else some st

/-- The body of the header loop for one line.  Every pass of an inner loop
consumes at least one character, so the length of the line is enough fuel
(`headerLineFuel_isSome`) and the fallback branch is never taken. -/
def headerLine (req : Request) (st : HeaderState) (line : List Char) : HeaderState :=
  match headerLineFuel req (line.length + 1) st line with
  | some s => s
  | none => st

/-- The header loop `while(line[0]=='#')` (lines 105-229) over the lines that
`gets` delivers: `line` is the buffer, `rest` the lines not yet read.  `gets`
at the end of the file leaves the buffer unchanged, so a file that ends inside
its header keeps the loop running for ever: no result (`none`). -/
def headerLoop (req : Request) : List (List Char) → List Char → HeaderState →
    Option (HeaderState × List Char × List (List Char))
  | [], line, st => if charAt line 0 = '#' then none else some (st, line, [])
  | l :: rest, line, st =>
    if charAt line 0 = '#' then headerLoop req rest l (headerLine req st line)
    else some (st, line, l :: rest)

/-- The two errors `load` throws. -/
inductive LoadError where
  | variableNotFound (varName fileName : List Char)
  | invalidHeader (fileName : List Char)
  deriving DecidableEq, Repr

/-- The `headerValid` flag after lines 232-238. -/
def dimsAndCoordsRead (st : HeaderState) : Bool :=
  decide (0 ≤ st.numNodes.i0) && decide (0 ≤ st.numNodes.i1) && decide (0 ≤ st.numNodes.i2)
    && decide (0 ≤ st.coordColumn.i0) && decide (0 ≤ st.coordColumn.i1)
    && decide (0 ≤ st.coordColumn.i2)

/-- Header validation (lines 231-246): `args0` is the file name, `args1` the
second argument when there is one. -/
def validate (args0 : List Char) (args1 : Option (List Char)) (req : Request)
    (st : HeaderState) : Except LoadError Unit :=
  if st.dataColumn < 0 then
    if req.varStart ≠ none then .error (.variableNotFound (args1.getD []) args0)
    else .error (.invalidHeader args0)
  else if dimsAndCoordsRead st then .ok ()
  else .error (.invalidHeader args0)

/-- The header half of `load` (lines 56-246): request parsing, header loop and
validation.  The outer `Option` is `none` when the code delivers no outcome
(empty file, or a file that ends inside its header). -/
def loadHeader (args0 : List Char) (args1 : Option (List Char)) (file : List (List Char)) :
    Option (Except LoadError (HeaderState × List Char × List (List Char))) :=
  match file with
  | [] => none
  | line :: rest =>
    match headerLoop (parseRequest args1) rest line HeaderState.init with
    | none => none
    | some (st, l, r) =>
      match validate args0 args1 (parseRequest args1) st with
      | .error e => some (.error e)
      | .ok _ => some (.ok (st, l, r))

/-! ## Grid streamer (lines 248-337) -/

/-- The floating-point facilities `load` takes from outside this file: `strtod`
of the C library, the `Math::` functions, `double` arithmetic, `double`
literals and the narrowing `float(...)`.  `D` stands for `double`, `F` for
`float`. -/
structure FloatOps (D F : Type) where
  strtod : List Char → D × List Char
  lit : ℚ → D
  sin : D → D
  cos : D → D
  sqr : D → D
  log10 : D → D
  mul : D → D → D
  sub : D → D → D
  div : D → D → D
  toFloat : D → F

/-- A vertex of the grid: position and scalar value.  A component is `none`
when the code computes it from a `columns` slot it never wrote. -/
structure Vertex (F : Type) where
  pos0 : Option F
  pos1 : Option F
  pos2 : Option F
  value : Option F
  deriving DecidableEq, Repr

/-- The result data set, as far as `load` fills it. -/
structure Grid (F : Type) where
  numNodes : Int3
  variableName : Option (List Char)
  vertices : List (Vertex F)
  deriving DecidableEq, Repr

/-- Lines 256-259: the `sphericalCoordinates` flag. -/
def sphericalCoordinates (st : HeaderState) : Bool :=
  !(decide (st.sphericalOrder.i0 < 0) || decide (st.sphericalOrder.i1 < 0)
    || decide (st.sphericalOrder.i2 < 0))

/-- Lines 267-271: the number of significant columns. -/
def numColumns (st : HeaderState) : Int :=
  let n0 := st.dataColumn
  let n1 := if n0 < st.coordColumn.i0 then st.coordColumn.i0 else n0
  let n2 := if n1 < st.coordColumn.i1 then st.coordColumn.i1 else n1
  let n3 := if n2 < st.coordColumn.i2 then st.coordColumn.i2 else n2
  n3 + 1

/-- Lines 274-279: the mapping from column indices to `columns` slots. -/
def columnMapping (st : HeaderState) : List Int :=
  ((((List.replicate (numColumns st).toNat (-1 : Int)).set st.coordColumn.i0.toNat 0).set
    st.coordColumn.i1.toNat 1).set st.coordColumn.i2.toNat 2).set st.dataColumn.toNat 3

/-- The `double columns[4]` local: `none` marks a slot not written yet. -/
def columnsInit (D : Type) : List (Option D) := [none, none, none, none]

/-- Lines 291-298: the row loop, over the entries `columnMapping[i]` for
`i = 0 .. numColumns-1`. -/
def parseRow {D F : Type} (ops : FloatOps D F) :
    List Int → List Char → List (Option D) → List (Option D)
  | [], _, columns => columns
  | m :: ms, cPtr, columns =>
    let r := ops.strtod cPtr
    parseRow ops ms r.2 (if 0 ≤ m then columns.set m.toNat (some r.1) else columns)

/-- Read of `columns[k]`. -/
def slot {D : Type} (columns : List (Option D)) (k : Int) : Option D :=
  (columns.getD k.toNat none)

/-- Lines 323-327: the value of a vertex from the `columns` of its row. -/
def vertexValue {D F : Type} (ops : FloatOps D F) (logScale : Bool)
    (columns : List (Option D)) : Option F :=
  if logScale then (slot columns 3).map (fun v => ops.toFloat (ops.log10 v))
  else (slot columns 3).map ops.toFloat

/-- Lines 302-314: the vertex in spherical mode. -/
def sphericalVertex {D F : Type} (ops : FloatOps D F) (logScale : Bool) (st : HeaderState)
    (columns : List (Option D)) : Vertex F :=
  let a := ops.lit 6378.14e3
  let f := ops.div (ops.lit 1.0) (ops.lit 298.247)
  let scaleFactor := ops.lit 1.0e-3
  let latitude := slot columns st.sphericalOrder.i0
  let longitude := slot columns st.sphericalOrder.i1
  let radius := slot columns st.sphericalOrder.i2
  let s0 := latitude.map ops.sin
  let c0 := latitude.map ops.cos
  let r := s0.bind (fun s => radius.map (fun rad =>
    ops.mul (ops.mul (ops.mul a (ops.sub (ops.lit 1.0) (ops.mul f (ops.sqr s)))) rad)
      scaleFactor))
  let xy := r.bind (fun rv => c0.map (fun c => ops.mul rv c))
  let s1 := longitude.map ops.sin
  let c1 := longitude.map ops.cos
  { pos0 := xy.bind (fun v => c1.map (fun c => ops.toFloat (ops.mul v c)))
    pos1 := xy.bind (fun v => s1.map (fun s => ops.toFloat (ops.mul v s)))
    pos2 := r.bind (fun rv => s0.map (fun s => ops.toFloat (ops.mul rv s)))
    value := vertexValue ops logScale columns }

/-- Lines 318-320: the vertex in Cartesian mode. -/
def cartesianVertex {D F : Type} (ops : FloatOps D F) (logScale : Bool)
    (columns : List (Option D)) : Vertex F :=
  { pos0 := (slot columns 0).map ops.toFloat
    pos1 := (slot columns 1).map ops.toFloat
    pos2 := (slot columns 2).map ops.toFloat
    value := vertexValue ops logScale columns }

/-- Lines 300-327: position and value of one vertex from the `columns` of its
row. -/
def makeVertex {D F : Type} (ops : FloatOps D F) (logScale : Bool) (st : HeaderState)
    (columns : List (Option D)) : Vertex F :=
  if sphericalCoordinates st then sphericalVertex ops logScale st columns
  else cartesianVertex ops logScale columns

/-- `gets` on the remaining lines: the next line, or the unchanged buffer at
the end of the file. -/
def gets (line : List Char) (rest : List (List Char)) : List Char × List (List Char) :=
  match rest with
  | [] => (line, [])
  | l :: r => (l, r)

/-- Modelled from the spec: the vertex container that `setData(numNodes)`
allocates (the grid data structure is not in this file) holds exactly
`dimensions[0]*dimensions[1]*dimensions[2]` vertices. -/
def gridSize (numNodes : Int3) : Nat := (numNodes.i0 * numNodes.i1 * numNodes.i2).toNat

/-- Conversion of an `int` value to `unsigned int`; a product of `int`s that
leaves the range of `int` is taken to wrap. -/
def toUInt32 (v : Int) : Nat := (v % 2 ^ 32).toNat

/-- The value `numNodes[1]*numNodes[2]` that initialises and advances
`nextTick` (lines 285 and 335). -/
def tickSize (numNodes : Int3) : Nat := toUInt32 (numNodes.i1 * numNodes.i2)

/-- The local `totalNumNodes` (line 286). -/
def totalNumNodes (numNodes : Int3) : Nat :=
  toUInt32 (numNodes.i0 * numNodes.i1 * numNodes.i2)

/-- The vertex loop (lines 284-337) over `n` vertices still to fill, with the
`unsigned int` counters `vertexCounter` and `nextTick`: each pass stores the
vertex of the line in the buffer, reads the next line and, when
`vertexCounter` has reached `nextTick`, prints a percentage.  The result is
the vertices stored and, for each vertex, the percentage printed after it
(`none` when nothing is printed).  There is no result (`none`) when an update
divides by a `totalNumNodes` of zero: the run ends there. -/
def streamLoop {D F : Type} (ops : FloatOps D F) (logScale : Bool) (st : HeaderState) :
    Nat → List Char → List (List Char) → Nat → Nat →
      Option (List (Vertex F) × List (Option Nat))
  | 0, _, _, _, _ => some ([], [])
  | n + 1, line, rest, vertexCounter, nextTick =>
    if vertexCounter = nextTick then
      if totalNumNodes st.numNodes = 0 then none
      else
        (streamLoop ops logScale st n (gets line rest).1 (gets line rest).2
          ((vertexCounter + 1) % 2 ^ 32) ((nextTick + tickSize st.numNodes) % 2 ^ 32)).map
          (fun r =>
            (makeVertex ops logScale st (parseRow ops (columnMapping st) line (columnsInit D))
                :: r.1,
              some (vertexCounter * 100 % 2 ^ 32 / totalNumNodes st.numNodes) :: r.2))
    else
      (streamLoop ops logScale st n (gets line rest).1 (gets line rest).2
        ((vertexCounter + 1) % 2 ^ 32) nextTick).map
        (fun r =>
          (makeVertex ops logScale st (parseRow ops (columnMapping st) line (columnsInit D))
              :: r.1,
            none :: r.2))

/-- The function `CitcomtFile::load`: `args0` is `args[0]`, `args1` is `args[1]`
when present, `file` the lines of the data file.  The outer `Option` is `none`
when the code delivers no outcome: an empty file, a file that ends inside its
header, or a run that ends in the vertex loop. -/
def load {D F : Type} (ops : FloatOps D F) (args0 : List Char) (args1 : Option (List Char))
    (file : List (List Char)) : Option (Except LoadError (Grid F)) :=
  match loadHeader args0 args1 file with
  | none => none
  | some (.error e) => some (.error e)
  | some (.ok (st, line, rest)) =>
    match streamLoop ops (parseRequest args1).logScale st (gridSize st.numNodes) line rest 1
        (tickSize st.numNodes) with
    | none => none
    | some r => some (.ok { numNodes := st.numNodes, variableName := st.dataName, vertices := r.1 })

/-! ## The two halves of the vertex loop, taken apart

The vertices do not depend on the counters and the printed percentages do not
depend on the rows (`streamLoop_eq`). -/

/-- The vertices the vertex loop stores in `n` passes. -/
def streamVertices {D F : Type} (ops : FloatOps D F) (logScale : Bool) (st : HeaderState) :
    Nat → List Char → List (List Char) → List (Vertex F)
  | 0, _, _ => []
  | n + 1, line, rest =>
    makeVertex ops logScale st (parseRow ops (columnMapping st) line (columnsInit D))
      :: streamVertices ops logScale st n (gets line rest).1 (gets line rest).2

/-- The progress output of the vertex loop (lines 284-286 and 332-336) over `n`
vertices still to fill, `vertexCounter` and `nextTick` being `unsigned int`:
for each vertex the percentage printed after it, or `none` when nothing is
printed.  The result is `none` when an update divides by a `totalNumNodes` of
zero. -/
def progressLoop (tick total : Nat) : Nat → Nat → Nat → Option (List (Option Nat))
  | 0, _, _ => some []
  | n + 1, vertexCounter, nextTick =>
    if vertexCounter = nextTick then
      if total = 0 then none
      else
        (progressLoop tick total n ((vertexCounter + 1) % 2 ^ 32)
          ((nextTick + tick) % 2 ^ 32)).map
          (fun out => some (vertexCounter * 100 % 2 ^ 32 / total) :: out)
    else
      (progressLoop tick total n ((vertexCounter + 1) % 2 ^ 32) nextTick).map
        (fun out => none :: out)

/-- The progress output of `load` for a grid of the given dimensions: one entry
per vertex of the container. -/
def progressOutput (numNodes : Int3) : Option (List (Option Nat)) :=
  progressLoop (tickSize numNodes) (totalNumNodes numNodes) (gridSize numNodes) 1
    (tickSize numNodes)

/-! ## A symbolic instance of the floating-point facilities

Used to run the loader on concrete files: every operation builds the term that
names it, so no numeric behaviour is assumed. -/

/-- Terms over the floating-point operations. -/
inductive Sym where
  | num (text : List Char)
  | lit (q : ℚ)
  | sin (x : Sym)
  | cos (x : Sym)
  | sqr (x : Sym)
  | log10 (x : Sym)
  | mul (x y : Sym)
  | sub (x y : Sym)
  | div (x y : Sym)
  | toFloat (x : Sym)
  deriving DecidableEq, Repr

/-- Symbolic `strtod`: skip white space and take the characters up to the next
white space as the number read. -/
def symStrtod (s : List Char) : Sym × List Char :=
  let t := s.dropWhile isspace
  (Sym.num (t.takeWhile (fun c => !isspace c)), t.dropWhile (fun c => !isspace c))

/-- The symbolic instance. -/
def symOps : FloatOps Sym Sym :=
  { strtod := symStrtod
    lit := Sym.lit
    sin := Sym.sin
    cos := Sym.cos
    sqr := Sym.sqr
    log10 := Sym.log10
    mul := Sym.mul
    sub := Sym.sub
    div := Sym.div
    toFloat := Sym.toFloat }

/-! ## Shapes of header lines that the statements below quantify over -/

/-- The character of a decimal digit `d`. -/
def digitChar (d : Nat) : Char := Char.ofNat (48 + d)

/-- A `NODES<A>=<n>` field as written in a header line: the keyword (any
letter case), the axis letter, and the decimal digits of `n`, most significant
first. -/
structure NodesField where
  keyword : List Char
  axis : Char
  digits : List Nat
  deriving DecidableEq, Repr

/-- The characters of the field. -/
def NodesField.text (e : NodesField) : List Char :=
  e.keyword ++ e.axis :: '=' :: e.digits.map digitChar

/-- The number the field declares. -/
def NodesField.value (e : NodesField) : Nat := Nat.ofDigits 10 e.digits.reverse

/-- The field is well formed: keyword `NODES` in any letter case, at least one
decimal digit, value in the range of `int`. -/
def NodesField.wf (e : NodesField) : Prop :=
  e.keyword.length = 5 ∧ strncasecmp0 e.keyword "NODES".toList 5 = true ∧
    e.digits ≠ [] ∧ (∀ d ∈ e.digits, d < 10) ∧ e.value < 2 ^ 31

/-- A list of characters that `load` skips at the start of a header line:
hash marks and white space. -/
def isLead (l : List Char) : Prop := ∀ c ∈ l, (c == '#' || isspace c) = true

/-- A run of white space. -/
def isGap (l : List Char) : Prop := ∀ c ∈ l, isspace c = true

instance (l : List Char) : Decidable (isLead l) := by unfold isLead; infer_instance

instance (l : List Char) : Decidable (isGap l) := by unfold isGap; infer_instance

instance (e : NodesField) : Decidable e.wf := by unfold NodesField.wf; infer_instance

/-- The header line `# NODES<A1>=<n1> NODES<A2>=<n2> NODES<A3>=<n3>`: `lead` is
what follows the first hash mark, `g1`, `g2`, `g3` the white space after the
fields. -/
def nodesLine (lead : List Char) (p1 p2 p3 : NodesField) (g1 g2 g3 : List Char) : List Char :=
  '#' :: (lead ++ (p1.text ++ (g1 ++ (p2.text ++ (g2 ++ (p3.text ++ g3))))))

/-- The assignment one well-formed `NODES` field stands for: Y goes to
`numNodes[0]`, X to `numNodes[1]`, Z to `numNodes[2]`. -/
def nodesAssign (st : HeaderState) (e : NodesField) : HeaderState :=
  let k : Int := if toupper e.axis = 'Y' then 0 else if toupper e.axis = 'X' then 1 else 2
  { st with numNodes := st.numNodes.set k e.value }

/-- The axis letter is X, Y or Z in either letter case. -/
def isAxisLetter (c : Char) : Prop := toupper c = 'X' ∨ toupper c = 'Y' ∨ toupper c = 'Z'

/-- A field of a `|`-delimited column header line: the white space after the
bar, the text of the field, the white space after the text. -/
structure ColumnField where
  pre : List Char
  text : List Char
  post : List Char
  deriving DecidableEq, Repr

/-- A field text: not empty, no white space in it, not starting with a bar. -/
def isWord (t : List Char) : Prop :=
  t ≠ [] ∧ (∀ c ∈ t, isspace c = false) ∧ t.head? ≠ some '|'

instance (t : List Char) : Decidable (isWord t) := by unfold isWord; infer_instance

/-- The field is well formed: white space (possibly none) after the bar, a
field text, white space after it. -/
def ColumnField.wf (f : ColumnField) : Prop :=
  isGap f.pre ∧ isWord f.text ∧ isGap f.post ∧ f.post ≠ []

instance (f : ColumnField) : Decidable f.wf := by unfold ColumnField.wf; infer_instance

/-- The characters of the fields, each introduced by its bar. -/
def cells : List ColumnField → List Char
  | [] => []
  | f :: fs => '|' :: (f.pre ++ (f.text ++ (f.post ++ cells fs)))

/-- What may follow the last field: nothing, or a closing bar and white
space. -/
def isClosing (tail : List Char) : Prop :=
  tail = [] ∨ (tail.head? = some '|' ∧ isGap (tail.drop 1))

instance (tail : List Char) : Decidable (isClosing tail) := by unfold isClosing; infer_instance

/-- The column header line `# | f0 | f1 | ...`: `lead` is what follows the
first hash mark, `tail` what follows the last field. -/
def columnLine (lead : List Char) (fs : List ColumnField) (tail : List Char) : List Char :=
  '#' :: (lead ++ (cells fs ++ tail))

/-- The text `t` is exactly `name`, up to letter case. -/
def namesIgnoreCase (name t : List Char) : Prop := t.map tolower = name.map tolower

instance (name t : List Char) : Decidable (namesIgnoreCase name t) := by
  unfold namesIgnoreCase; infer_instance

/-- The request admits the field text: no variable is requested, or the text
is the requested name up to letter case. -/
def requestAdmits (req : Request) (t : List Char) : Prop :=
  match req.varStart with
  | none => True
  | some v => namesIgnoreCase v t

instance (req : Request) (t : List Char) : Decidable (requestAdmits req t) := by
  unfold requestAdmits; split <;> infer_instance

/-- The field text can be chosen as data column under the request: it is not
X, Y, Z or NODE and, when a variable is requested, it is that name up to
letter case. -/
def isCandidate (req : Request) (t : List Char) : Prop :=
  ¬ namesIgnoreCase "X".toList t ∧ ¬ namesIgnoreCase "Y".toList t ∧
  ¬ namesIgnoreCase "Z".toList t ∧ ¬ namesIgnoreCase "NODE".toList t ∧
  requestAdmits req t

instance (req : Request) (t : List Char) : Decidable (isCandidate req t) := by
  unfold isCandidate; infer_instance

/-- What lines 183-216 do for the field numbered `columnIndex` whose text is
`text`, stated on the text alone. -/
def fieldEffect (req : Request) (columnIndex : Int) (text : List Char) (st : HeaderState) :
    HeaderState :=
  if text.length = 1 ∧ strncasecmp0 text "X".toList 1 then
    { st with coordColumn := st.coordColumn.set 0 columnIndex }
  else if text.length = 1 ∧ strncasecmp0 text "Y".toList 1 then
    { st with coordColumn := st.coordColumn.set 1 columnIndex }
  else if text.length = 1 ∧ strncasecmp0 text "Z".toList 1 then
    { st with coordColumn := st.coordColumn.set 2 columnIndex }
  else if text.length = 4 ∧ strncasecmp0 text "NODE".toList 4 then
    st
  else if st.dataColumn < 0 then
    if req.varStart = none ∨
        (text.length = req.varLen ∧ strncasecmp0 (req.varStart.getD []) text req.varLen) then
      { st with
        dataColumn := columnIndex
        dataName :=
          if req.logScale then some ("Log(".toList ++ text.take req.varLen ++ [')'])
          else some (text.take req.varLen) }
    else st
  else st

/-- The effects of the fields with the given texts, numbered from
`columnIndex` on. -/
def applyFields (req : Request) : Int → List (List Char) → HeaderState → HeaderState
  | _, [], st => st
  | columnIndex, t :: ts, st =>
    applyFields req (columnIndex + 1) ts (fieldEffect req columnIndex t st)

/-- The field texts the column loop sees in a column line: those of the
fields and, behind a closing bar, one empty text. -/
def seenTexts (fs : List ColumnField) (tail : List Char) : List (List Char) :=
  fs.map ColumnField.text ++ (if tail = [] then [] else [[]])

/-- The name of coordinate axis `a` in a column header: X, Y, Z for 0, 1, 2. -/
def axisName (a : Nat) : List Char :=
  match a with
  | 0 => "X".toList
  | 1 => "Y".toList
  | _ => "Z".toList

/-- The display name lines 201-214 build from the text of the chosen field. -/
def displayName (req : Request) (text : List Char) : List Char :=
  if req.logScale then "Log(".toList ++ text.take req.varLen ++ [')'] else text.take req.varLen

/-- The line is a column directive: after the hash marks and white space it is
neither a `NODES` nor an `<AXIS>-` directive and starts with a bar. -/
def isColumnDirective (line : List Char) : Prop :=
  strncasecmp0 (skipHash line) "NODES".toList 5 = false ∧ isAxisDash (skipHash line) = false ∧
    charAt (skipHash line) 0 = '|'

instance (line : List Char) : Decidable (isColumnDirective line) := by
  unfold isColumnDirective; infer_instance

/-- The line buffers the vertex loop works on, one per vertex: `gets` after
each vertex, the buffer staying as it is at the end of the file. -/
def linesRead : Nat → List Char → List (List Char) → List (List Char)
  | 0, _, _ => []
  | n + 1, line, rest => line :: linesRead n (gets line rest).1 (gets line rest).2

/-- The values successive `strtod` calls read from a row: the first `n`. -/
def rowValues {D F : Type} (ops : FloatOps D F) : Nat → List Char → List D
  | 0, _ => []
  | n + 1, cPtr => (ops.strtod cPtr).1 :: rowValues ops n (ops.strtod cPtr).2

/-- The value `strtod` reads for column `i` of a row. -/
def rowValue {D F : Type} (ops : FloatOps D F) : Nat → List Char → D
  | 0, cPtr => (ops.strtod cPtr).1
  | i + 1, cPtr => rowValue ops i (ops.strtod cPtr).2

/-- All four columns are assigned. -/
def columnsAssigned (st : HeaderState) : Prop :=
  0 ≤ st.coordColumn.i0 ∧ 0 ≤ st.coordColumn.i1 ∧ 0 ≤ st.coordColumn.i2 ∧ 0 ≤ st.dataColumn

/-- The four columns are four different columns. -/
def columnsDistinct (st : HeaderState) : Prop :=
  st.coordColumn.i0 ≠ st.coordColumn.i1 ∧ st.coordColumn.i0 ≠ st.coordColumn.i2 ∧
  st.coordColumn.i0 ≠ st.dataColumn ∧ st.coordColumn.i1 ≠ st.coordColumn.i2 ∧
  st.coordColumn.i1 ≠ st.dataColumn ∧ st.coordColumn.i2 ≠ st.dataColumn

/-- The header loop body folded over a list of header lines. -/
def headerFold (req : Request) (st : HeaderState) (ls : List (List Char)) : HeaderState :=
  ls.foldl (headerLine req) st

/-- Every column index held by the state is below `k`. -/
def columnsBelow (k : Int) (st : HeaderState) : Prop :=
  st.coordColumn.i0 < k ∧ st.coordColumn.i1 < k ∧ st.coordColumn.i2 < k ∧ st.dataColumn < k

/-- No two of the four column roles hold the same assigned column. -/
def columnsSeparate (st : HeaderState) : Prop :=
  (st.coordColumn.i0 = st.coordColumn.i1 → st.coordColumn.i0 < 0) ∧
  (st.coordColumn.i0 = st.coordColumn.i2 → st.coordColumn.i0 < 0) ∧
  (st.coordColumn.i0 = st.dataColumn → st.coordColumn.i0 < 0) ∧
  (st.coordColumn.i1 = st.coordColumn.i2 → st.coordColumn.i1 < 0) ∧
  (st.coordColumn.i1 = st.dataColumn → st.coordColumn.i1 < 0) ∧
  (st.coordColumn.i2 = st.dataColumn → st.coordColumn.i2 < 0)

/-- The index of a column after one more column was put in at `k0`. -/
def shiftIndex (k0 j : Int) : Int := if k0 ≤ j then j + 1 else j

/-- The second state is the first with every column index shifted for a
column put in at `k0`, all else equal. -/
def columnsShifted (k0 : Int) (st st2 : HeaderState) : Prop :=
  st2.numNodes = st.numNodes ∧ st2.sphericalOrder = st.sphericalOrder ∧
  st2.dataName = st.dataName ∧
  st2.coordColumn.i0 = shiftIndex k0 st.coordColumn.i0 ∧
  st2.coordColumn.i1 = shiftIndex k0 st.coordColumn.i1 ∧
  st2.coordColumn.i2 = shiftIndex k0 st.coordColumn.i2 ∧
  st2.dataColumn = shiftIndex k0 st.dataColumn

/-- The line carries no directive: after the hash marks and white space it does
not begin with `NODES` (any letter case), nor with an axis letter and a dash,
nor with a bar. -/
def isCommentLine (line : List Char) : Prop :=
  strncasecmp0 (skipHash line) "NODES".toList 5 = false ∧ isAxisDash (skipHash line) = false ∧
    charAt (skipHash line) 0 ≠ '|'

instance (line : List Char) : Decidable (isCommentLine line) := by
  unfold isCommentLine; infer_instance

/-- A token of an `<AXIS>-<ROLE>` line with what separates it from the next
token: the text, and the separator behind it. -/
structure RoleToken where
  text : List Char
  sep : List Char
  deriving DecidableEq, Repr

/-- A separator between tokens: an optional comma, then white space. -/
def isSeparator (s : List Char) : Prop :=
  isGap (if s.head? = some ',' then s.drop 1 else s)

instance (s : List Char) : Decidable (isSeparator s) := by unfold isSeparator; infer_instance

/-- The token is well formed: it starts with an axis letter and a dash, holds
neither a comma nor white space, and is followed by a separator. -/
def RoleToken.wf (t : RoleToken) : Prop :=
  isAxisDash t.text = true ∧ (∀ c ∈ t.text, (c != ',' && !isspace c) = true) ∧ isSeparator t.sep

instance (t : RoleToken) : Decidable t.wf := by unfold RoleToken.wf; infer_instance

/-- The axis slot a token names: its letter minus `X`. -/
def roleSlot (text : List Char) : Int :=
  ((toupper (charAt text 0)).toNat : Int) - ('X'.toNat : Int)

/-- The assignment a token stands for, by its length and its characters 2..4:
`LAT` in a token of 5 sets the latitude role, `LON` in a token of 5 the
longitude role, `RAD` in a token of 8 the radius role; any other token sets
nothing. -/
def roleAssign (st : HeaderState) (text : List Char) : HeaderState :=
  if text.length = 5 ∧ namesIgnoreCase "LAT".toList ((text.drop 2).take 3) then
    { st with sphericalOrder := st.sphericalOrder.set 0 (roleSlot text) }
  else if text.length = 5 ∧ namesIgnoreCase "LON".toList ((text.drop 2).take 3) then
    { st with sphericalOrder := st.sphericalOrder.set 1 (roleSlot text) }
  else if text.length = 8 ∧ namesIgnoreCase "RAD".toList ((text.drop 2).take 3) then
    { st with sphericalOrder := st.sphericalOrder.set 2 (roleSlot text) }
  else st

/-- The characters of the tokens, each followed by its separator. -/
def roleTokens : List RoleToken → List Char
  | [] => []
  | t :: ts => t.text ++ (t.sep ++ roleTokens ts)

/-- The tokens are well formed and every token but the last has a separator
that is not empty. -/
def tokensWf : List RoleToken → Prop
  | [] => True
  | t :: ts => t.wf ∧ (t.sep ≠ [] ∨ ts = []) ∧ tokensWf ts

instance tokensWfDecidable : (ts : List RoleToken) → Decidable (tokensWf ts)
  | [] => isTrue trivial
  | t :: ts =>
    have := tokensWfDecidable ts
    by unfold tokensWf; infer_instance

/-- The header line `# <A>-<ROLE>, <A>-<ROLE>, ...`: `lead` is what follows the
first hash mark. -/
def roleLine (lead : List Char) (ts : List RoleToken) : List Char :=
  '#' :: (lead ++ roleTokens ts)

/-- The assignments of the tokens with the given texts, left to right. -/
def applyRoles (st : HeaderState) (texts : List (List Char)) : HeaderState :=
  texts.foldl roleAssign st

/-- What is printed after vertex `v` (1-based) when updates come every `tick`
vertices. -/
def updateAt (tick total v : Nat) : Option Nat :=
  if tick ∣ v then some (v % 2 ^ 32 * 100 % 2 ^ 32 / total) else none

/-- A header whose two column lines give column 0 to both X and Y. -/
def collidingHeader : List (List Char) :=
  ["# NODESX=1 NODESY=1 NODESZ=1\n".toList, "# | X\n".toList, "# | Y | Z | T\n".toList]

instance (st : HeaderState) : Decidable (columnsDistinct st) := by
  unfold columnsDistinct; infer_instance

/-- The line is a `NODES` directive: after the hash marks and white space it
begins with `NODES` in any letter case. -/
def isNodesDirective (line : List Char) : Prop :=
  strncasecmp0 (skipHash line) "NODES".toList 5 = true

/-- The line is an `<AXIS>-<ROLE>` directive: after the hash marks and white
space it is not a `NODES` directive and begins with an axis letter and a
dash. -/
def isRoleDirective (line : List Char) : Prop :=
  strncasecmp0 (skipHash line) "NODES".toList 5 = false ∧ isAxisDash (skipHash line) = true

instance (line : List Char) : Decidable (isNodesDirective line) := by
  unfold isNodesDirective; infer_instance

instance (line : List Char) : Decidable (isRoleDirective line) := by
  unfold isRoleDirective; infer_instance

instance (c : Char) : Decidable (isAxisLetter c) := by unfold isAxisLetter; infer_instance

/-- The characters of `NODES` fields, each followed by its white space. -/
def nodesCells : List (NodesField × List Char) → List Char
  | [] => []
  | p :: es => p.1.text ++ (p.2 ++ nodesCells es)

/-- The fields are well formed, each with an axis letter and followed by white
space, which is not empty for every field but the last. -/
def nodesCellsWf : List (NodesField × List Char) → Prop
  | [] => True
  | p :: es => p.1.wf ∧ isAxisLetter p.1.axis ∧ isGap p.2 ∧ (p.2 ≠ [] ∨ es = []) ∧ nodesCellsWf es

instance nodesCellsWfDecidable : (es : List (NodesField × List Char)) → Decidable (nodesCellsWf es)
  | [] => isTrue trivial
  | p :: es =>
    have := nodesCellsWfDecidable es
    by unfold nodesCellsWf; infer_instance

/-- A header line of `NODES` fields: `lead` is what follows the first hash
mark. -/
def nodesFieldsLine (lead : List Char) (es : List (NodesField × List Char)) : List Char :=
  '#' :: (lead ++ nodesCells es)

/-- The assignments of the given `NODES` fields, left to right. -/
def applyNodes (st : HeaderState) (fields : List NodesField) : HeaderState :=
  fields.foldl nodesAssign st

/-- A letter of either case, by character code. -/
def isLetterCode (c : Char) : Prop :=
  (65 ≤ c.toNat ∧ c.toNat ≤ 90) ∨ (97 ≤ c.toNat ∧ c.toNat ≤ 122)

/-! ## Characters -/

theorem Int3.ext_get {a : Int3} {x y z : Int} (h0 : a.get 0 = x) (h1 : a.get 1 = y)
    (h2 : a.get 2 = z) : a = ⟨x, y, z⟩ := by
  cases a; simp only [Int3.get] at h0 h1 h2; simp [h0, h1, h2]


theorem toNat_ofNat_small (n : Nat) (h : n < 55296) : (Char.ofNat n).toNat = n := by
  unfold Char.ofNat
  have hv : n.isValidChar := Or.inl h
  simp only [hv, Char.ofNatAux, Char.toNat, dite_true]
  rfl

theorem char_eq_iff (a b : Char) : a = b ↔ a.toNat = b.toNat := by
  constructor
  · intro h; rw [h]
  · intro h
    have := congrArg Char.ofNat h
    simpa using this

theorem tolower_toNat (c : Char) :
    (tolower c).toNat = if 65 ≤ c.toNat ∧ c.toNat ≤ 90 then c.toNat + 32 else c.toNat := by
  unfold tolower
  split
  · next h => exact toNat_ofNat_small _ (by omega)
  · rfl

theorem toupper_toNat (c : Char) :
    (toupper c).toNat = if 97 ≤ c.toNat ∧ c.toNat ≤ 122 then c.toNat - 32 else c.toNat := by
  unfold toupper
  split
  · next h => exact toNat_ofNat_small _ (by omega)
  · rfl

theorem isspace_iff (c : Char) : isspace c = true ↔ (c.toNat = 32 ∨ (9 ≤ c.toNat ∧ c.toNat ≤ 13)) := by
  simp [isspace]

theorem isspace_false_iff (c : Char) :
    isspace c = false ↔ ¬ (c.toNat = 32 ∨ (9 ≤ c.toNat ∧ c.toNat ≤ 13)) := by
  rw [← isspace_iff]; simp

theorem charAt_cons_zero (c : Char) (cs : List Char) : charAt (c :: cs) 0 = c := rfl

theorem charAt_nil (k : Nat) : charAt [] k = NUL := rfl

theorem NUL_toNat : NUL.toNat = 0 := rfl

/-! ## The inner loops terminate: the length of the line is enough fuel -/

theorem length_dropWhile_le {α : Type} (p : α → Bool) (l : List α) :
    (l.dropWhile p).length ≤ l.length :=
  (List.dropWhile_sublist p).length_le

theorem strncasecmp0_head {c : Char} {cs : List Char} {d : Char} {ds : List Char} {n : Nat}
    (h : strncasecmp0 (c :: cs) (d :: ds) (n + 1) = true) :
    tolower c = tolower d ∧ strncasecmp0 cs ds n = true := by
  simpa [strncasecmp0] using h

theorem nodes_head {cPtr : List Char} (h : strncasecmp0 cPtr "NODES".toList 5 = true) :
    ∃ c cs, cPtr = c :: cs ∧ (c.toNat = 78 ∨ c.toNat = 110) := by
  cases cPtr with
  | nil => simp [strncasecmp0] at h
  | cons c cs =>
    refine ⟨c, cs, rfl, ?_⟩
    have h1 := (strncasecmp0_head h).1
    have h2 := congrArg Char.toNat h1
    rw [tolower_toNat] at h2
    have h3 : (tolower 'N').toNat = 110 := by decide
    rw [h3] at h2
    split at h2 <;> omega

theorem nodesBody_length {cPtr : List Char} (st : HeaderState)
    (h : strncasecmp0 cPtr "NODES".toList 5 = true) :
    (nodesBody cPtr st).2.length < cPtr.length := by
  obtain ⟨c, cs, rfl, hc⟩ := nodes_head h
  have hs : isspace c = false := by rw [isspace_false_iff]; omega
  simp only [nodesBody, List.dropWhile_cons, hs, Bool.not_false, if_true, List.length_cons]
  have h1 := length_dropWhile_le isspace (cs.dropWhile (fun c => !isspace c))
  have h2 := length_dropWhile_le (fun c => !isspace c) cs
  omega

theorem nodesLoop_isSome (fuel : Nat) : ∀ (cPtr : List Char) (st : HeaderState),
    strncasecmp0 cPtr "NODES".toList 5 = true → cPtr.length < fuel →
    (nodesLoop fuel cPtr st).isSome = true := by
  induction fuel with
  | zero => intro cPtr st _ hl; omega
  | succ n ih =>
    intro cPtr st h hl
    simp only [nodesLoop]
    split
    · next hc =>
      apply ih _ _ hc
      have := nodesBody_length st h
      omega
    · rfl

theorem isAxisDash_head {cPtr : List Char} (h : isAxisDash cPtr = true) :
    ∃ c cs, cPtr = c :: cs ∧ (c.toNat = 88 ∨ c.toNat = 89 ∨ c.toNat = 90 ∨ c.toNat = 120
      ∨ c.toNat = 121 ∨ c.toNat = 122) := by
  cases cPtr with
  | nil => simp [isAxisDash, charAt_nil, char_eq_iff, toupper_toNat, NUL_toNat] at h
  | cons c cs =>
    refine ⟨c, cs, rfl, ?_⟩
    simp only [isAxisDash, charAt_cons_zero, Bool.and_eq_true, Bool.or_eq_true, beq_iff_eq,
      char_eq_iff, toupper_toNat] at h
    have hX : 'X'.toNat = 88 := rfl
    have hY : 'Y'.toNat = 89 := rfl
    have hZ : 'Z'.toNat = 90 := rfl
    rw [hX, hY, hZ] at h
    obtain ⟨h, _⟩ := h
    split at h <;> omega

theorem sphericalBody_length {cPtr : List Char} (st : HeaderState)
    (h : isAxisDash cPtr = true) : (sphericalBody cPtr st).2.length < cPtr.length := by
  obtain ⟨c, cs, rfl, hc⟩ := isAxisDash_head h
  have hs : isspace c = false := by rw [isspace_false_iff]; omega
  have hcomma : (c != ',') = true := by
    simp only [bne_iff_ne, ne_eq, char_eq_iff]
    have : ','.toNat = 44 := rfl
    omega
  simp only [sphericalBody, List.dropWhile_cons, hs, hcomma, Bool.not_false, Bool.and_self,
    if_true, List.length_cons]
  have h1 := length_dropWhile_le (fun c => c != ',' && !isspace c) cs
  have h2 := length_dropWhile_le isspace
    (if charAt (cs.dropWhile (fun c => c != ',' && !isspace c)) 0 = ','
      then (cs.dropWhile (fun c => c != ',' && !isspace c)).drop 1
      else cs.dropWhile (fun c => c != ',' && !isspace c))
  have h3 : (if charAt (cs.dropWhile (fun c => c != ',' && !isspace c)) 0 = ','
      then (cs.dropWhile (fun c => c != ',' && !isspace c)).drop 1
      else cs.dropWhile (fun c => c != ',' && !isspace c)).length
      ≤ (cs.dropWhile (fun c => c != ',' && !isspace c)).length := by
    split
    · simp
    · exact Nat.le_refl _
  omega

theorem sphericalLoop_isSome (fuel : Nat) : ∀ (cPtr : List Char) (st : HeaderState),
    isAxisDash cPtr = true → cPtr.length < fuel →
    (sphericalLoop fuel cPtr st).isSome = true := by
  induction fuel with
  | zero => intro cPtr st _ hl; omega
  | succ n ih =>
    intro cPtr st h hl
    simp only [sphericalLoop]
    split
    · next hc =>
      apply ih _ _ hc
      have := sphericalBody_length st h
      omega
    · rfl

theorem bar_head {cPtr : List Char} (h : charAt cPtr 0 = '|') : ∃ cs, cPtr = '|' :: cs := by
  cases cPtr with
  | nil => exact absurd h (by decide)
  | cons c cs => exact ⟨cs, by rw [charAt_cons_zero] at h; rw [h]⟩

theorem columnBody_length {cPtr : List Char} (req : Request) (k : Int) (st : HeaderState)
    (h : charAt cPtr 0 = '|') : (columnBody req k cPtr st).2.length < cPtr.length := by
  obtain ⟨cs, rfl⟩ := bar_head h
  simp only [columnBody, List.dropWhile_cons, beq_self_eq_true, Bool.true_or, if_true,
    List.length_cons]
  have h1 := length_dropWhile_le (fun c => c == '|' || isspace c) cs
  have h2 := length_dropWhile_le (fun c => !isspace c)
    (cs.dropWhile (fun c => c == '|' || isspace c))
  have h3 := length_dropWhile_le isspace
    ((cs.dropWhile (fun c => c == '|' || isspace c)).dropWhile (fun c => !isspace c))
  omega

theorem columnLoop_isSome (req : Request) (fuel : Nat) :
    ∀ (k : Int) (cPtr : List Char) (st : HeaderState),
    charAt cPtr 0 = '|' → cPtr.length < fuel →
    (columnLoop req fuel k cPtr st).isSome = true := by
  induction fuel with
  | zero => intro k cPtr st _ hl; omega
  | succ n ih =>
    intro k cPtr st h hl
    simp only [columnLoop]
    split
    · next hc =>
      apply ih _ _ _ hc
      have := columnBody_length req k st h
      omega
    · rfl

/-- Every header line is processed completely with the fuel `headerLine`
supplies: the inner loops never run out. -/
theorem headerLineFuel_isSome (req : Request) (st : HeaderState) (line : List Char) :
    (headerLineFuel req (line.length + 1) st line).isSome = true := by
  have hl : (skipHash line).length < line.length + 1 := by
    have := length_dropWhile_le (fun c => c == '#' || isspace c) line
    simp only [skipHash]; omega
  simp only [headerLineFuel]
  split
  · next h => exact nodesLoop_isSome _ _ _ h hl
  · split
    · next h => exact sphericalLoop_isSome _ _ _ h hl
    · split
      · next h => exact columnLoop_isSome req _ _ _ _ h hl
      · rfl

/-! ## More fuel never changes a result -/

theorem nodesLoop_mono (f : Nat) : ∀ (g : Nat) (cPtr : List Char) (st r : HeaderState),
    f ≤ g → nodesLoop f cPtr st = some r → nodesLoop g cPtr st = some r := by
  induction f with
  | zero => intro g cPtr st r _ h; simp [nodesLoop] at h
  | succ n ih =>
    intro g cPtr st r hg h
    obtain ⟨m, rfl⟩ : ∃ m, g = m + 1 := ⟨g - 1, by omega⟩
    simp only [nodesLoop] at h ⊢
    split
    · next hc => rw [if_pos hc] at h; exact ih m _ _ _ (by omega) h
    · next hc => rw [if_neg hc] at h; exact h

theorem sphericalLoop_mono (f : Nat) : ∀ (g : Nat) (cPtr : List Char) (st r : HeaderState),
    f ≤ g → sphericalLoop f cPtr st = some r → sphericalLoop g cPtr st = some r := by
  induction f with
  | zero => intro g cPtr st r _ h; simp [sphericalLoop] at h
  | succ n ih =>
    intro g cPtr st r hg h
    obtain ⟨m, rfl⟩ : ∃ m, g = m + 1 := ⟨g - 1, by omega⟩
    simp only [sphericalLoop] at h ⊢
    split
    · next hc => rw [if_pos hc] at h; exact ih m _ _ _ (by omega) h
    · next hc => rw [if_neg hc] at h; exact h

theorem columnLoop_mono (req : Request) (f : Nat) :
    ∀ (g : Nat) (k : Int) (cPtr : List Char) (st r : HeaderState),
    f ≤ g → columnLoop req f k cPtr st = some r → columnLoop req g k cPtr st = some r := by
  induction f with
  | zero => intro g k cPtr st r _ h; simp [columnLoop] at h
  | succ n ih =>
    intro g k cPtr st r hg h
    obtain ⟨m, rfl⟩ : ∃ m, g = m + 1 := ⟨g - 1, by omega⟩
    simp only [columnLoop] at h ⊢
    split
    · next hc => rw [if_pos hc] at h; exact ih m _ _ _ _ (by omega) h
    · next hc => rw [if_neg hc] at h; exact h

theorem headerLine_of_fuel {req : Request} {f : Nat} {st s : HeaderState} {line : List Char}
    (h : headerLineFuel req f st line = some s) : headerLine req st line = s := by
  have hs := headerLineFuel_isSome req st line
  rcases Nat.le_total f (line.length + 1) with hf | hf
  · have : headerLineFuel req (line.length + 1) st line = some s := by
      simp only [headerLineFuel] at h ⊢
      split
      · next hc => rw [if_pos hc] at h; exact nodesLoop_mono _ _ _ _ _ hf h
      · next hc =>
        rw [if_neg hc] at h
        split
        · next hd => rw [if_pos hd] at h; exact sphericalLoop_mono _ _ _ _ _ hf h
        · next hd =>
          rw [if_neg hd] at h
          split
          · next he => rw [if_pos he] at h; exact columnLoop_mono req _ _ _ _ _ _ hf h
          · next he => rw [if_neg he] at h; exact h
    simp only [headerLine, this]
  · obtain ⟨s2, hs2⟩ := Option.isSome_iff_exists.mp hs
    have : headerLineFuel req f st line = some s2 := by
      simp only [headerLineFuel] at hs2 ⊢
      split
      · next hc => rw [if_pos hc] at hs2; exact nodesLoop_mono _ _ _ _ _ hf hs2
      · next hc =>
        rw [if_neg hc] at hs2
        split
        · next hd => rw [if_pos hd] at hs2; exact sphericalLoop_mono _ _ _ _ _ hf hs2
        · next hd =>
          rw [if_neg hd] at hs2
          split
          · next he => rw [if_pos he] at hs2; exact columnLoop_mono req _ _ _ _ _ _ hf hs2
          · next he => rw [if_neg he] at hs2; exact hs2
    rw [h] at this
    cases this
    simp only [headerLine, hs2]

/-! ## The `NODES` directive -/

theorem digitChar_toNat {d : Nat} (h : d < 10) : (digitChar d).toNat = 48 + d :=
  toNat_ofNat_small _ (by omega)

theorem isdigit_iff (c : Char) : isdigit c = true ↔ (48 ≤ c.toNat ∧ c.toNat ≤ 57) := by
  simp [isdigit]

theorem digitsValue_digits (ds : List Nat) : ∀ (acc : Nat) (tail : List Char),
    (∀ d ∈ ds, d < 10) → (∀ c, tail.head? = some c → isdigit c = false) →
    digitsValue acc (ds.map digitChar ++ tail) = acc * 10 ^ ds.length + Nat.ofDigits 10 ds.reverse := by
  induction ds with
  | nil =>
    intro acc tail _ ht
    cases tail with
    | nil => simp [digitsValue]
    | cons c cs => simp [digitsValue, ht c rfl]
  | cons d ds ih =>
    intro acc tail hd ht
    have hd0 : d < 10 := hd d (List.mem_cons_self _ _)
    have hdig : isdigit (digitChar d) = true := by
      rw [isdigit_iff, digitChar_toNat hd0]; omega
    simp only [List.map_cons, List.cons_append, digitsValue, hdig, if_true]
    have ih2 := ih (10 * acc + ((digitChar d).toNat - 48)) tail
      (fun x hx => hd x (List.mem_cons_of_mem _ hx)) ht
    refine Eq.trans ih2 ?_
    rw [digitChar_toNat hd0]
    simp only [List.reverse_cons, Nat.ofDigits_append, List.length_reverse, List.length_cons,
      Nat.ofDigits_singleton]
    have : 48 + d - 48 = d := by omega
    rw [this]
    ring

theorem toInt32_small {v : Int} (h0 : 0 ≤ v) (h1 : v < 2 ^ 31) : toInt32 (clampLong v) = v := by
  unfold toInt32 clampLong
  have e1 : min (2 ^ 63 - 1 : Int) v = v := min_eq_right (by omega)
  have e2 : max (-(2 ^ 63) : Int) v = v := max_eq_right (by omega)
  rw [e1, e2]
  omega

theorem atoi_digits (ds : List Nat) (tail : List Char) (hne : ds ≠ [])
    (hd : ∀ d ∈ ds, d < 10) (ht : ∀ c, tail.head? = some c → isdigit c = false)
    (hv : Nat.ofDigits 10 ds.reverse < 2 ^ 31) :
    atoi (ds.map digitChar ++ tail) = (Nat.ofDigits 10 ds.reverse : Nat) := by
  have hall := digitsValue_digits ds 0 tail hd ht
  cases ds with
  | nil => exact absurd rfl hne
  | cons d ds =>
    have hd0 : d < 10 := hd d (List.mem_cons_self _ _)
    have hn := digitChar_toNat hd0
    have hs : isspace (digitChar d) = false := by rw [isspace_false_iff]; omega
    have hm : digitChar d ≠ '-' := by
      rw [Ne, char_eq_iff, hn]; have : '-'.toNat = 45 := rfl
      omega
    have hp : digitChar d ≠ '+' := by
      rw [Ne, char_eq_iff, hn]; have : '+'.toNat = 43 := rfl
      omega
    simp only [List.map_cons, List.cons_append] at hall ⊢
    simp only [atoi, List.dropWhile_cons, hs]
    simp only [Bool.false_eq_true, if_false]
    rw [if_neg hm, if_neg hp, hall]
    simp only [Nat.zero_mul, Nat.zero_add]
    apply toInt32_small
    · exact Int.natCast_nonneg _
    · exact_mod_cast hv

theorem letter_of_tolower {c d : Char} (h : tolower c = tolower d)
    (hd : 65 ≤ d.toNat ∧ d.toNat ≤ 90) : isLetterCode c := by
  have h2 := congrArg Char.toNat h
  rw [tolower_toNat, tolower_toNat, if_pos hd] at h2
  unfold isLetterCode
  split at h2 <;> omega

theorem letter_of_toupper {c d : Char} (h : toupper c = d)
    (hd : 65 ≤ d.toNat ∧ d.toNat ≤ 90) : isLetterCode c := by
  have h2 := congrArg Char.toNat h
  rw [toupper_toNat] at h2
  unfold isLetterCode
  split at h2 <;> omega

theorem letter_of_axis {c : Char} (h : isAxisLetter c) : isLetterCode c := by
  rcases h with h | h | h
  · exact letter_of_toupper h (by decide)
  · exact letter_of_toupper h (by decide)
  · exact letter_of_toupper h (by decide)

theorem letter_not_space {c : Char} (h : isLetterCode c) : isspace c = false := by
  rw [isspace_false_iff]; unfold isLetterCode at h; omega

theorem letter_not_lead {c : Char} (h : isLetterCode c) : (c == '#' || isspace c) = false := by
  rw [letter_not_space h, Bool.or_false]
  simp only [beq_eq_false_iff_ne, ne_eq, char_eq_iff]
  have : '#'.toNat = 35 := rfl
  unfold isLetterCode at h; omega

theorem keyword_shape {kw : List Char} (h5 : kw.length = 5)
    (h : strncasecmp0 kw "NODES".toList 5 = true) :
    ∃ a b c d e, kw = [a, b, c, d, e] ∧ isLetterCode a ∧ isLetterCode b ∧ isLetterCode c
      ∧ isLetterCode d ∧ isLetterCode e := by
  match kw, h5 with
  | [a, b, c, d, e], _ =>
    refine ⟨a, b, c, d, e, rfl, ?_⟩
    have h1 := strncasecmp0_head h
    have h2 := strncasecmp0_head h1.2
    have h3 := strncasecmp0_head h2.2
    have h4 := strncasecmp0_head h3.2
    have h5 := strncasecmp0_head h4.2
    exact ⟨letter_of_tolower h1.1 (by decide), letter_of_tolower h2.1 (by decide),
      letter_of_tolower h3.1 (by decide), letter_of_tolower h4.1 (by decide),
      letter_of_tolower h5.1 (by decide)⟩

theorem keyword_matches {kw : List Char} (h5 : kw.length = 5)
    (h : strncasecmp0 kw "NODES".toList 5 = true) (tail : List Char) :
    strncasecmp0 (kw ++ tail) "NODES".toList 5 = true := by
  match kw, h5 with
  | [a, b, c, d, e], _ =>
    have h1 := strncasecmp0_head h
    have h2 := strncasecmp0_head h1.2
    have h3 := strncasecmp0_head h2.2
    have h4 := strncasecmp0_head h3.2
    have h5 := strncasecmp0_head h4.2
    show strncasecmp0 (a :: b :: c :: d :: e :: tail) ('N' :: 'O' :: 'D' :: 'E' :: 'S' :: []) 5 = true
    simp only [strncasecmp0, h1.1, h2.1, h3.1, h4.1, h5.1, beq_self_eq_true, Bool.and_self]

theorem dropWhile_gap {g rest : List Char} (hg : isGap g)
    (hrest : ∀ c, rest.head? = some c → isspace c = false) :
    (g ++ rest).dropWhile isspace = rest := by
  rw [List.dropWhile_append_of_pos hg]
  cases rest with
  | nil => rfl
  | cons c cs => simp [hrest c rfl]

theorem dropWhile_nonspace_gap {g rest : List Char} (hg : isGap g) (hgr : g ≠ [] ∨ rest = []) :
    (g ++ rest).dropWhile (fun c => !isspace c) = g ++ rest := by
  cases g with
  | nil =>
    rcases hgr with h | h
    · exact absurd rfl h
    · subst h; rfl
  | cons c cs => simp [hg c (List.mem_cons_self _ _)]

theorem gap_head_not_digit {g rest : List Char} (hg : isGap g) (hgr : g ≠ [] ∨ rest = []) :
    ∀ c, (g ++ rest).head? = some c → isdigit c = false := by
  intro c hc
  cases g with
  | nil =>
    rcases hgr with h | h
    · exact absurd rfl h
    · subst h; simp at hc
  | cons x xs =>
    simp only [List.cons_append, List.head?_cons, Option.some.injEq] at hc
    subst hc
    have := (isspace_iff x).mp (hg x (List.mem_cons_self _ _))
    have hd : ¬ (isdigit x = true) := by rw [isdigit_iff]; omega
    simpa using hd

theorem digits_not_space {ds : List Nat} (hd : ∀ d ∈ ds, d < 10) :
    ∀ c ∈ ds.map digitChar, (!isspace c) = true := by
  intro c hc
  obtain ⟨d, hdm, rfl⟩ := List.mem_map.mp hc
  have hn := digitChar_toNat (hd d hdm)
  have : isspace (digitChar d) = false := by rw [isspace_false_iff]; omega
  simp [this]

/-- One pass of the `NODES` loop over a well-formed field followed by white
space performs the assignment of the field and stops behind the white space. -/
theorem nodesBody_field (e : NodesField) (g rest : List Char) (st : HeaderState)
    (hwf : e.wf) (hax : isAxisLetter e.axis) (hg : isGap g) (hgr : g ≠ [] ∨ rest = [])
    (hrest : ∀ c, rest.head? = some c → isspace c = false) :
    nodesBody (e.text ++ (g ++ rest)) st = (nodesAssign st e, rest) := by
  obtain ⟨h5, hk, hne, hd, hv⟩ := hwf
  obtain ⟨a, b, c, d, x, hkw, la, lb, lc, ld, lx⟩ := keyword_shape h5 hk
  have hat := atoi_digits e.digits (g ++ rest) hne hd (gap_head_not_digit hg hgr) hv
  have sa := letter_not_space la
  have sb := letter_not_space lb
  have sc := letter_not_space lc
  have sd := letter_not_space ld
  have sx := letter_not_space lx
  have sax := letter_not_space (letter_of_axis hax)
  have seq : isspace '=' = false := by decide
  have hdrop : (e.text ++ (g ++ rest)).drop 7 = e.digits.map digitChar ++ (g ++ rest) := by
    simp [NodesField.text, hkw]
  have hat5 : charAt (e.text ++ (g ++ rest)) 5 = e.axis := by
    simp [NodesField.text, hkw, charAt]
  have hskip : ((e.text ++ (g ++ rest)).dropWhile (fun c => !isspace c)).dropWhile isspace
      = rest := by
    have : (e.text ++ (g ++ rest)).dropWhile (fun c => !isspace c) = g ++ rest := by
      simp only [NodesField.text, hkw, List.cons_append, List.nil_append, List.dropWhile_cons,
        sa, sb, sc, sd, sx, sax, seq, Bool.not_false, if_true]
      rw [List.dropWhile_append_of_pos (digits_not_space hd)]
      exact dropWhile_nonspace_gap hg hgr
    rw [this]
    exact dropWhile_gap hg hrest
  simp only [nodesBody, hdrop, hat5, hat, hskip, nodesAssign, NodesField.value]
  have hXY : ('X' : Char) ≠ 'Y' := by decide
  have hXZ : ('X' : Char) ≠ 'Z' := by decide
  have hYZ : ('Y' : Char) ≠ 'Z' := by decide
  rcases hax with h | h | h <;> simp [h, hXY, hXZ, hYZ, hXY.symm, hXZ.symm, hYZ.symm]

theorem text_append (e : NodesField) (tail : List Char) :
    e.text ++ tail = e.keyword ++ (e.axis :: '=' :: (e.digits.map digitChar ++ tail)) := by
  simp [NodesField.text]

theorem text_head {e : NodesField} (hwf : e.wf) (tail : List Char) :
    ∃ c cs, e.text ++ tail = c :: cs ∧ isLetterCode c := by
  obtain ⟨a, b, c, d, x, hkw, la, _⟩ := keyword_shape hwf.1 hwf.2.1
  exact ⟨a, _, by rw [text_append, hkw]; rfl, la⟩

theorem text_nodes {e : NodesField} (hwf : e.wf) (tail : List Char) :
    strncasecmp0 (e.text ++ tail) "NODES".toList 5 = true := by
  rw [text_append]; exact keyword_matches hwf.1 hwf.2.1 _

theorem skipHash_lead {lead body : List Char} (hl : isLead lead)
    (hb : ∀ c, body.head? = some c → (c == '#' || isspace c) = false) :
    skipHash ('#' :: (lead ++ body)) = body := by
  have h0 : (('#' : Char) == '#' || isspace '#') = true := by decide
  simp only [skipHash, List.dropWhile_cons, h0, if_true]
  rw [List.dropWhile_append_of_pos hl]
  cases body with
  | nil => rfl
  | cons c cs => simp only [List.dropWhile_cons, hb c rfl]; rfl

/-- The parse of a header line of three well-formed `NODES` fields: the three
assignments, left to right. -/
theorem headerLine_nodesLine (req : Request) (st : HeaderState) (lead : List Char)
    (p1 p2 p3 : NodesField) (g1 g2 g3 : List Char)
    (w1 : p1.wf) (w2 : p2.wf) (w3 : p3.wf)
    (a1 : isAxisLetter p1.axis) (a2 : isAxisLetter p2.axis) (a3 : isAxisLetter p3.axis)
    (hl : isLead lead) (hg1 : isGap g1) (hg2 : isGap g2) (hg3 : isGap g3)
    (n1 : g1 ≠ []) (n2 : g2 ≠ []) :
    headerLine req st (nodesLine lead p1 p2 p3 g1 g2 g3)
      = nodesAssign (nodesAssign (nodesAssign st p1) p2) p3 := by
  apply headerLine_of_fuel (f := 3)
  have hhead : ∀ (e : NodesField), e.wf → ∀ (tail : List Char) (c : Char),
      (e.text ++ tail).head? = some c → isLetterCode c := by
    intro e we tail c hc
    obtain ⟨x, xs, hx, lx⟩ := text_head we tail
    rw [hx] at hc
    simp only [List.head?_cons, Option.some.injEq] at hc
    exact hc ▸ lx
  have hskip : skipHash (nodesLine lead p1 p2 p3 g1 g2 g3)
      = p1.text ++ (g1 ++ (p2.text ++ (g2 ++ (p3.text ++ g3)))) :=
    skipHash_lead hl (fun c hc => letter_not_lead (hhead p1 w1 _ c hc))
  have b1 := nodesBody_field p1 g1 (p2.text ++ (g2 ++ (p3.text ++ g3))) st w1 a1 hg1 (Or.inl n1)
    (fun c hc => letter_not_space (hhead p2 w2 _ c hc))
  have b2 := nodesBody_field p2 g2 (p3.text ++ g3) (nodesAssign st p1) w2 a2 hg2 (Or.inl n2)
    (fun c hc => letter_not_space (hhead p3 w3 _ c hc))
  have b3 := nodesBody_field p3 g3 [] (nodesAssign (nodesAssign st p1) p2) w3 a3 hg3 (Or.inr rfl)
    (fun c hc => by simp at hc)
  rw [List.append_nil] at b3
  have e0 : strncasecmp0 ([] : List Char) "NODES".toList 5 = false := by decide
  simp only [headerLineFuel, hskip, text_nodes w1, if_true, nodesLoop, b1, text_nodes w2, b2,
    text_nodes w3, b3, e0, Bool.false_eq_true, if_false]

/-- C1: a header line `# NODES<A1>=<n1> NODES<A2>=<n2> NODES<A3>=<n3>` whose
three fields are, in any order, a field for X, one for Y and one for Z (keyword
and axis letter in any letter case, white space between the fields, values in
the range of `int`) sets `numNodes[0]` to the value given for Y, `numNodes[1]`
to the value given for X and `numNodes[2]` to the value given for Z, whatever
the order, and changes nothing else. -/
theorem nodes_any_order (req : Request) (st : HeaderState) (lead : List Char)
    (p1 p2 p3 eX eY eZ : NodesField) (g1 g2 g3 : List Char)
    (hperm : [p1, p2, p3].Perm [eX, eY, eZ])
    (hX : toupper eX.axis = 'X') (hY : toupper eY.axis = 'Y') (hZ : toupper eZ.axis = 'Z')
    (wX : eX.wf) (wY : eY.wf) (wZ : eZ.wf)
    (hl : isLead lead) (hg1 : isGap g1) (hg2 : isGap g2) (hg3 : isGap g3)
    (n1 : g1 ≠ []) (n2 : g2 ≠ []) :
    headerLine req st (nodesLine lead p1 p2 p3 g1 g2 g3)
      = { st with numNodes := ⟨eY.value, eX.value, eZ.value⟩ } := by
  have hwf : ∀ e ∈ [eX, eY, eZ], e.wf ∧ isAxisLetter e.axis := by
    intro e he
    simp only [List.mem_cons, List.mem_singleton, List.not_mem_nil, or_false] at he
    rcases he with rfl | rfl | rfl
    · exact ⟨wX, Or.inl hX⟩
    · exact ⟨wY, Or.inr (Or.inl hY)⟩
    · exact ⟨wZ, Or.inr (Or.inr hZ)⟩
  have m1 : p1 ∈ [eX, eY, eZ] := hperm.subset (by simp)
  have m2 : p2 ∈ [eX, eY, eZ] := hperm.subset (by simp)
  have m3 : p3 ∈ [eX, eY, eZ] := hperm.subset (by simp)
  rw [headerLine_nodesLine req st lead p1 p2 p3 g1 g2 g3 (hwf p1 m1).1 (hwf p2 m2).1
    (hwf p3 m3).1 (hwf p1 m1).2 (hwf p2 m2).2 (hwf p3 m3).2 hl hg1 hg2 hg3 n1 n2]
  have mX : eX ∈ [p1, p2, p3] := hperm.symm.subset (by simp)
  have mY : eY ∈ [p1, p2, p3] := hperm.symm.subset (by simp)
  have mZ : eZ ∈ [p1, p2, p3] := hperm.symm.subset (by simp)
  have cXY : ('X' : Char) ≠ 'Y' := by decide
  have cXZ : ('X' : Char) ≠ 'Z' := by decide
  have cYZ : ('Y' : Char) ≠ 'Z' := by decide
  have dXY : eX ≠ eY := fun h => by rw [h, hY] at hX; exact cXY hX.symm
  have dXZ : eX ≠ eZ := fun h => by rw [h, hZ] at hX; exact cXZ hX.symm
  have dYZ : eY ≠ eZ := fun h => by rw [h, hZ] at hY; exact cYZ hY.symm
  simp only [List.mem_cons, List.mem_singleton, List.not_mem_nil, or_false] at m1 m2 m3 mX mY mZ
  rcases m1 with h1 | h1 | h1 <;> rcases m2 with h2 | h2 | h2 <;>
    rcases m3 with h3 | h3 | h3 <;>
    first
      | (exfalso
         simp only [h1, h2, h3, dXY, dXZ, dYZ, dXY.symm, dXZ.symm, dYZ.symm, or_self] at mX mY mZ
         done)
      | (simp only [h1, h2, h3, nodesAssign, Int3.set, hX, hY, hZ, cXY, cXZ, cYZ, cXY.symm,
           cXZ.symm, cYZ.symm, if_true, if_false]
         simp)

/-- C1 at the line `# NODESZ=4 nodesx=2 NoDeSY=13`: the dimensions are
(13, 2, 4). -/
theorem nodes_any_order_witness :
    headerLine (parseRequest none) HeaderState.init "# NODESZ=4 nodesx=2 NoDeSY=13\n".toList
      = { HeaderState.init with numNodes := ⟨13, 2, 4⟩ } :=
  nodes_any_order (parseRequest none) HeaderState.init [' ']
    ⟨"NODES".toList, 'Z', [4]⟩ ⟨"nodes".toList, 'x', [2]⟩ ⟨"NoDeSY".toList.take 5, 'Y', [1, 3]⟩
    ⟨"nodes".toList, 'x', [2]⟩ ⟨"NoDeSY".toList.take 5, 'Y', [1, 3]⟩ ⟨"NODES".toList, 'Z', [4]⟩
    [' '] [' '] ['\n']
    (by decide) (by decide) (by decide) (by decide)
    (by decide) (by decide) (by decide)
    (by decide) (by decide) (by decide) (by decide) (by decide) (by decide)

/-! ## The variable request -/

theorem parseRequest_dash {t : List Char} (h : charAt t 0 = '-') :
    parseRequest (some t) = { logScale := false, varStart := none } := by
  show (if charAt t 0 ≠ '-' then _ else _) = _
  rw [if_neg (not_not.mpr h)]

theorem parseRequest_log {t : List Char} (h1 : charAt t 0 ≠ '-')
    (h2 : strncasecmp0 t "log(".toList 4 = true) :
    parseRequest (some t)
      = { logScale := true, varStart := some ((t.drop 4).takeWhile (fun c => c != ')')) } := by
  show (if charAt t 0 ≠ '-' then (if strncasecmp0 t "log(".toList 4 = true then _ else _)
    else _) = _
  rw [if_pos h1, if_pos h2]

theorem parseRequest_bare {t : List Char} (h1 : charAt t 0 ≠ '-')
    (h2 : ¬ strncasecmp0 t "log(".toList 4 = true) :
    parseRequest (some t) = { logScale := false, varStart := some t } := by
  show (if charAt t 0 ≠ '-' then (if strncasecmp0 t "log(".toList 4 = true then _ else _)
    else _) = _
  rw [if_pos h1, if_neg h2]

/-! ## Header validation -/

/-- C2, as the code has it: validation accepts the parsed state exactly when
all three dimensions are at least 0, all three coordinate columns are assigned
and the data column is assigned. -/
theorem validate_ok_iff (args0 : List Char) (args1 : Option (List Char)) (req : Request)
    (st : HeaderState) :
    validate args0 args1 req st = .ok () ↔
      (0 ≤ st.numNodes.i0 ∧ 0 ≤ st.numNodes.i1 ∧ 0 ≤ st.numNodes.i2) ∧
      (0 ≤ st.coordColumn.i0 ∧ 0 ≤ st.coordColumn.i1 ∧ 0 ≤ st.coordColumn.i2) ∧
      0 ≤ st.dataColumn := by
  unfold validate dimsAndCoordsRead
  by_cases hd : st.dataColumn < 0
  · rw [if_pos hd]
    constructor
    · intro h; split at h <;> cases h
    · intro h; omega
  · rw [if_neg hd]
    simp only [Bool.and_eq_true, decide_eq_true_eq]
    constructor
    · intro h
      split at h
      · next hc => exact ⟨⟨hc.1.1.1.1.1, hc.1.1.1.1.2, hc.1.1.1.2⟩, ⟨hc.1.1.2, hc.1.2, hc.2⟩, by omega⟩
      · cases h
    · intro h
      rw [if_pos ⟨⟨⟨⟨⟨h.1.1, h.1.2.1⟩, h.1.2.2⟩, h.2.1.1⟩, h.2.1.2.1⟩, h.2.1.2.2⟩]

/-- C2 fails as stated: the header `# NODESX=0 NODESY=2 NODESZ=2` with the
columns `| X | Y | Z | TEMP |` declares a dimension of 0 and is accepted. -/
theorem zero_dimension_accepted :
    loadHeader "grid.dat".toList none
      ["# NODESX=0 NODESY=2 NODESZ=2\n".toList, "# | X | Y | Z | TEMP |\n".toList,
        "0 0 0 1\n".toList]
      = some (.ok
          ({ numNodes := ⟨2, 0, 2⟩, coordColumn := ⟨0, 1, 2⟩, dataColumn := 3,
             dataName := some [], sphericalOrder := ⟨-1, -1, -1⟩ },
           "0 0 0 1\n".toList, [])) := by
  rfl

/-! ## The column directive -/

theorem strncasecmp0_append_left (s : List Char) : ∀ (t tail : List Char) (n : Nat),
    n ≤ s.length → strncasecmp0 (s ++ tail) t n = strncasecmp0 s t n := by
  induction s with
  | nil =>
    intro t tail n hn
    have : n = 0 := by simpa using hn
    subst this
    simp [strncasecmp0]
  | cons a s ih =>
    intro t tail n hn
    cases n with
    | zero => simp [strncasecmp0]
    | succ m =>
      cases t with
      | nil => simp [strncasecmp0]
      | cons b t =>
        simp only [List.cons_append, strncasecmp0]
        exact congrArg (fun r => (tolower a == tolower b && r)) (ih t tail m (by simpa using hn))

theorem strncasecmp0_append_right (s : List Char) : ∀ (t tail : List Char) (n : Nat),
    n ≤ t.length → strncasecmp0 s (t ++ tail) n = strncasecmp0 s t n := by
  induction s with
  | nil =>
    intro t tail n hn
    cases n with
    | zero => simp [strncasecmp0]
    | succ m =>
      cases t with
      | nil => simp at hn
      | cons b t => simp [strncasecmp0]
  | cons a s ih =>
    intro t tail n hn
    cases n with
    | zero => simp [strncasecmp0]
    | succ m =>
      cases t with
      | nil => simp at hn
      | cons b t =>
        simp only [List.cons_append, strncasecmp0]
        exact congrArg (fun r => (tolower a == tolower b && r)) (ih t tail m (by simpa using hn))

theorem word_head_not_bar {t : List Char} (hw : isWord t) (tail : List Char) :
    (t ++ tail).dropWhile (fun c => c == '|' || isspace c) = t ++ tail := by
  obtain ⟨hne, hs, hb⟩ := hw
  cases t with
  | nil => exact absurd rfl hne
  | cons c cs =>
    have h1 : isspace c = false := hs c (List.mem_cons_self _ _)
    have h2 : (c == '|') = false := by
      simp only [beq_eq_false_iff_ne, ne_eq]
      intro h; apply hb; simp [h]
    simp [h1, h2]

theorem word_not_space {t : List Char} (hw : isWord t) : ∀ c ∈ t, (!isspace c) = true := by
  intro c hc; simp [hw.2.1 c hc]

theorem gap_bar_or_space {g : List Char} (hg : isGap g) :
    ∀ c ∈ g, (c == '|' || isspace c) = true := by
  intro c hc; simp [hg c hc]

/-- One pass of the column loop over a well-formed field performs the effect
of its text and stops behind the white space after it. -/
theorem columnBody_field (req : Request) (k : Int) (f : ColumnField) (rest : List Char)
    (st : HeaderState) (hwf : f.wf) (hrest : ∀ c, rest.head? = some c → isspace c = false) :
    columnBody req k ('|' :: (f.pre ++ (f.text ++ (f.post ++ rest)))) st
      = (fieldEffect req k f.text st, rest) := by
  obtain ⟨hpre, hw, hpost, hne⟩ := hwf
  have h0 : (('|' : Char) == '|' || isspace '|') = true := by decide
  have hc : ('|' :: (f.pre ++ (f.text ++ (f.post ++ rest)))).dropWhile
      (fun c => c == '|' || isspace c) = f.text ++ (f.post ++ rest) := by
    simp only [List.dropWhile_cons, h0, if_true]
    rw [List.dropWhile_append_of_pos (gap_bar_or_space hpre)]
    exact word_head_not_bar hw _
  have he : (f.text ++ (f.post ++ rest)).dropWhile (fun c => !isspace c) = f.post ++ rest := by
    rw [List.dropWhile_append_of_pos (word_not_space hw)]
    exact dropWhile_nonspace_gap hpost (Or.inl hne)
  have hlen : (f.text ++ (f.post ++ rest)).length - (f.post ++ rest).length = f.text.length := by
    simp
  have hr : (f.post ++ rest).dropWhile isspace = rest := dropWhile_gap hpost hrest
  have ht : (f.text ++ (f.post ++ rest)).take req.varLen
      = if req.varLen ≤ f.text.length then f.text.take req.varLen
        else (f.text ++ (f.post ++ rest)).take req.varLen := by
    split
    · next h => rw [List.take_append_of_le_length h]
    · rfl
  simp only [columnBody, hc, he, hlen, hr, fieldEffect]
  by_cases c1 : f.text.length = 1
  · simp only [c1, true_and, strncasecmp0_append_left f.text _ _ 1 (by omega)]
    have c4 : ¬ ((1 : Nat) = 4) := by omega
    simp only [c4, false_and, if_false]
    by_cases hX : strncasecmp0 f.text "X".toList 1 = true
    · simp only [hX, if_true]
    · simp only [hX, if_false]
      by_cases hY : strncasecmp0 f.text "Y".toList 1 = true
      · simp only [hY, if_true]
      · simp only [hY, if_false]
        by_cases hZ : strncasecmp0 f.text "Z".toList 1 = true
        · simp only [hZ, if_true]
        · simp only [hZ, if_false]
          by_cases hd : st.dataColumn < 0
          · simp only [hd, if_true]
            by_cases hv : req.varStart = none
            · have : req.varLen = 0 := by simp [Request.varLen, hv]
              simp [hv, this]
            · by_cases hl : 1 = req.varLen
              · rw [strncasecmp0_append_right _ f.text _ _ (by omega)]
                rw [List.take_append_of_le_length (by omega)]
              · simp [hv, hl]
          · simp only [hd, if_false]
  · simp only [c1, false_and, if_false]
    by_cases c4 : f.text.length = 4
    · simp only [c4, true_and, strncasecmp0_append_left f.text _ _ 4 (by omega)]
      by_cases hN : strncasecmp0 f.text "NODE".toList 4 = true
      · simp only [hN, if_true]
      · simp only [hN, if_false]
        by_cases hd : st.dataColumn < 0
        · simp only [hd, if_true]
          by_cases hv : req.varStart = none
          · have : req.varLen = 0 := by simp [Request.varLen, hv]
            simp [hv, this]
          · by_cases hl : 4 = req.varLen
            · rw [strncasecmp0_append_right _ f.text _ _ (by omega)]
              rw [List.take_append_of_le_length (by omega)]
            · simp [hv, hl]
        · simp only [hd, if_false]
    · simp only [c4, false_and, if_false]
      by_cases hd : st.dataColumn < 0
      · simp only [hd, if_true]
        by_cases hv : req.varStart = none
        · have : req.varLen = 0 := by simp [Request.varLen, hv]
          simp [hv, this]
        · by_cases hl : f.text.length = req.varLen
          · rw [strncasecmp0_append_right _ f.text _ _ (by omega)]
            rw [List.take_append_of_le_length (by omega)]
          · simp [hv, hl]
      · simp only [hd, if_false]

theorem columnBody_closing (req : Request) (k : Int) (gap : List Char) (st : HeaderState)
    (hg : isGap gap) : columnBody req k ('|' :: gap) st = (fieldEffect req k [] st, []) := by
  have h0 : (('|' : Char) == '|' || isspace '|') = true := by decide
  have hc : ('|' :: gap).dropWhile (fun c => c == '|' || isspace c) = [] := by
    simp only [List.dropWhile_cons, h0, if_true]
    exact List.dropWhile_eq_nil_iff.mpr (gap_bar_or_space hg)
  simp only [columnBody, hc, fieldEffect, List.dropWhile_nil, List.length_nil, Nat.sub_self,
    List.take_nil]

theorem closing_shape {tail : List Char} (hc : isClosing tail) (hne : tail ≠ []) :
    ∃ gap, tail = '|' :: gap ∧ isGap gap := by
  rcases hc with h | ⟨h1, h2⟩
  · exact absurd h hne
  · cases tail with
    | nil => exact absurd rfl hne
    | cons c cs =>
      simp only [List.head?_cons, Option.some.injEq] at h1
      exact ⟨cs, by rw [h1], by simpa using h2⟩

theorem cells_head (fs : List ColumnField) {tail : List Char} (hc : isClosing tail) :
    cells fs ++ tail = [] ∨ ∃ r, cells fs ++ tail = '|' :: r := by
  cases fs with
  | nil =>
    by_cases hne : tail = []
    · left; simp [cells, hne]
    · obtain ⟨gap, hg, _⟩ := closing_shape hc hne
      right; exact ⟨gap, by simp [cells, hg]⟩
  | cons f fs => right; exact ⟨_, rfl⟩

theorem bar_not_space : isspace '|' = false := by decide

theorem columnLoop_cells (req : Request) (fs : List ColumnField) :
    ∀ (k : Int) (st : HeaderState) (tail : List Char) (fuel : Nat),
    (∀ f ∈ fs, f.wf) → isClosing tail → cells fs ++ tail ≠ [] → fs.length + 1 ≤ fuel →
    columnLoop req fuel k (cells fs ++ tail) st = some (applyFields req k (seenTexts fs tail) st) := by
  induction fs with
  | nil =>
    intro k st tail fuel _ hc hne hf
    have hne2 : tail ≠ [] := by simpa [cells] using hne
    obtain ⟨gap, hg, hgap⟩ := closing_shape hc hne2
    obtain ⟨m, rfl⟩ : ∃ m, fuel = m + 1 := ⟨fuel - 1, by omega⟩
    have hN : ¬ (charAt [] 0 = '|') := by decide
    simp only [cells, List.nil_append, hg, columnLoop, columnBody_closing req k gap st hgap,
      hN, if_false, seenTexts, List.map_nil, applyFields]
  | cons f fs ih =>
    intro k st tail fuel hwf hc _ hf
    obtain ⟨m, rfl⟩ : ∃ m, fuel = m + 1 := ⟨fuel - 1, by omega⟩
    have hfw : f.wf := hwf f (List.mem_cons_self _ _)
    have hrest : ∀ c, (cells fs ++ tail).head? = some c → isspace c = false := by
      intro c hh
      rcases cells_head fs hc with h | ⟨r, h⟩
      · rw [h] at hh; simp at hh
      · rw [h] at hh
        simp only [List.head?_cons, Option.some.injEq] at hh
        rw [← hh]; exact bar_not_space
    have hb := columnBody_field req k f (cells fs ++ tail) st hfw hrest
    have hassoc : cells (f :: fs) ++ tail
        = '|' :: (f.pre ++ (f.text ++ (f.post ++ (cells fs ++ tail)))) := by
      simp [cells]
    rw [hassoc]
    simp only [columnLoop, hb]
    rcases cells_head fs hc with h | ⟨r, h⟩
    · have hN : ¬ (charAt [] 0 = '|') := by decide
      have hfs : fs = [] := by
        cases fs with
        | nil => rfl
        | cons g gs => simp [cells] at h
      have ht : tail = [] := by
        subst hfs; simpa [cells] using h
      subst hfs; subst ht
      simp [h, hN, seenTexts, applyFields]
    · have hY : charAt (cells fs ++ tail) 0 = '|' := by rw [h]; rfl
      rw [if_pos hY]
      rw [ih (k + 1) (fieldEffect req k f.text st) tail m
        (fun g hg => hwf g (List.mem_cons_of_mem _ hg)) hc (by rw [h]; simp)
        (by simp only [List.length_cons] at hf; omega)]
      simp [seenTexts, applyFields]

/-- The parse of a column header line: the effects of the texts of its fields,
numbered from 0, left to right (a closing bar counting as one more, empty,
field). -/
theorem headerLine_columnLine (req : Request) (st : HeaderState) (lead : List Char)
    (fs : List ColumnField) (tail : List Char)
    (hl : isLead lead) (hwf : ∀ f ∈ fs, f.wf) (hc : isClosing tail) :
    headerLine req st (columnLine lead fs tail) = applyFields req 0 (seenTexts fs tail) st := by
  apply headerLine_of_fuel (f := fs.length + 1)
  have hbar : (('|' : Char) == '#' || isspace '|') = false := by decide
  have hskip : skipHash (columnLine lead fs tail) = cells fs ++ tail := by
    apply skipHash_lead hl
    intro c hh
    rcases cells_head fs hc with h | ⟨r, h⟩
    · rw [h] at hh; simp at hh
    · rw [h] at hh
      simp only [List.head?_cons, Option.some.injEq] at hh
      rw [← hh]; exact hbar
  simp only [headerLineFuel, hskip]
  rcases cells_head fs hc with h | ⟨r, h⟩
  · have hfs : fs = [] := by
      cases fs with
      | nil => rfl
      | cons g gs => simp [cells] at h
    have ht : tail = [] := by subst hfs; simpa [cells] using h
    subst hfs; subst ht
    rfl
  · have e1 : strncasecmp0 ('|' :: r) "NODES".toList 5 = false := by
      show strncasecmp0 ('|' :: r) ('N' :: 'O' :: 'D' :: 'E' :: 'S' :: []) 5 = false
      simp only [strncasecmp0]
      have : (tolower '|' == tolower 'N') = false := by decide
      rw [this]; rfl
    have e2 : isAxisDash ('|' :: r) = false := by
      simp only [isAxisDash, charAt_cons_zero]
      have : (toupper '|' == 'X' || toupper '|' == 'Y' || toupper '|' == 'Z') = false := by decide
      rw [this]; rfl
    have e3 : charAt ('|' :: r) 0 = '|' := rfl
    have hloop := columnLoop_cells req fs 0 st tail (fs.length + 1) hwf hc (by rw [h]; simp)
      (Nat.le_refl _)
    rw [h] at hloop ⊢
    simp only [e1, e2, e3, Bool.false_eq_true, if_false, if_true]
    exact hloop

theorem strncasecmp0_iff_map (s : List Char) : ∀ (t : List Char), s.length = t.length →
    (strncasecmp0 s t s.length = true ↔ s.map tolower = t.map tolower) := by
  induction s with
  | nil =>
    intro t h
    cases t with
    | nil => simp [strncasecmp0]
    | cons b t => simp at h
  | cons a s ih =>
    intro t h
    cases t with
    | nil => simp at h
    | cons b t =>
      have hl : s.length = t.length := by simpa using h
      simp only [List.length_cons, strncasecmp0, Bool.and_eq_true, beq_iff_eq, List.map_cons,
        List.cons.injEq, ih t hl]

theorem names_iff (name text : List Char) (n : Nat) (hn : name.length = n) :
    (text.length = n ∧ strncasecmp0 text name n = true) ↔ namesIgnoreCase name text := by
  unfold namesIgnoreCase
  constructor
  · rintro ⟨h1, h2⟩
    rw [← h1] at h2
    exact (strncasecmp0_iff_map text name (by omega)).mp h2
  · intro h
    have hl : text.length = name.length := by
      have := congrArg List.length h
      simpa using this
    refine ⟨by omega, ?_⟩
    rw [← hn, ← hl]
    exact (strncasecmp0_iff_map text name hl).mpr h

theorem request_iff (req : Request) (text : List Char) :
    (req.varStart = none ∨
      (text.length = req.varLen ∧ strncasecmp0 (req.varStart.getD []) text req.varLen = true)) ↔
    requestAdmits req text := by
  unfold requestAdmits
  cases hv : req.varStart with
  | none => simp
  | some v =>
    have hl : req.varLen = v.length := by simp [Request.varLen, hv]
    simp only [Option.getD_some, hl, false_or, reduceCtorEq]
    unfold namesIgnoreCase
    constructor
    · rintro ⟨h1, h2⟩
      exact ((strncasecmp0_iff_map v text h1.symm).mp h2).symm
    · intro h
      have hlen : text.length = v.length := by
        have := congrArg List.length h
        simpa using this
      exact ⟨hlen, (strncasecmp0_iff_map v text hlen.symm).mpr h.symm⟩

/-- The effect of a field by the kind of its text. -/
theorem fieldEffect_eq (req : Request) (k : Int) (text : List Char) (st : HeaderState) :
    fieldEffect req k text st =
      if namesIgnoreCase "X".toList text then
        { st with coordColumn := st.coordColumn.set 0 k }
      else if namesIgnoreCase "Y".toList text then
        { st with coordColumn := st.coordColumn.set 1 k }
      else if namesIgnoreCase "Z".toList text then
        { st with coordColumn := st.coordColumn.set 2 k }
      else if namesIgnoreCase "NODE".toList text then st
      else if st.dataColumn < 0 ∧ requestAdmits req text then
        { st with dataColumn := k, dataName := some (displayName req text) }
      else st := by
  have iX := names_iff "X".toList text 1 rfl
  have iY := names_iff "Y".toList text 1 rfl
  have iZ := names_iff "Z".toList text 1 rfl
  have iN := names_iff "NODE".toList text 4 rfl
  unfold fieldEffect
  by_cases hX : namesIgnoreCase "X".toList text
  · rw [if_pos (iX.mpr hX), if_pos hX]
  · rw [if_neg (mt iX.mp hX), if_neg hX]
    by_cases hY : namesIgnoreCase "Y".toList text
    · rw [if_pos (iY.mpr hY), if_pos hY]
    · rw [if_neg (mt iY.mp hY), if_neg hY]
      by_cases hZ : namesIgnoreCase "Z".toList text
      · rw [if_pos (iZ.mpr hZ), if_pos hZ]
      · rw [if_neg (mt iZ.mp hZ), if_neg hZ]
        by_cases hN : namesIgnoreCase "NODE".toList text
        · rw [if_pos (iN.mpr hN), if_pos hN]
        · rw [if_neg (mt iN.mp hN), if_neg hN]
          by_cases hd : st.dataColumn < 0
          · rw [if_pos hd]
            by_cases hr : requestAdmits req text
            · rw [if_pos ((request_iff req text).mpr hr), if_pos (And.intro hd hr)]
              unfold displayName
              cases req.logScale <;> rfl
            · rw [if_neg (mt (request_iff req text).mp hr), if_neg (fun h => hr h.2)]
          · rw [if_neg hd, if_neg (fun h => hd h.1)]

theorem names_excl {n1 n2 t : List Char} (h1 : namesIgnoreCase n1 t) (h2 : namesIgnoreCase n2 t) :
    n1.map tolower = n2.map tolower := by
  unfold namesIgnoreCase at h1 h2
  rw [← h1, ← h2]

theorem axisName_excl {a b : Nat} (ha : a < 3) (hb : b < 3) (hab : a ≠ b) {t : List Char}
    (h1 : namesIgnoreCase (axisName a) t) : ¬ namesIgnoreCase (axisName b) t := by
  intro h2
  have h := names_excl h1 h2
  interval_cases a <;> interval_cases b <;> first | exact absurd rfl hab | exact absurd h (by decide)

theorem axisName_not_node {a : Nat} {t : List Char}
    (h1 : namesIgnoreCase (axisName a) t) : ¬ namesIgnoreCase "NODE".toList t := by
  intro h2
  have h := congrArg List.length (names_excl h1 h2)
  rcases a with _ | _ | a <;> simp [axisName] at h

theorem fieldEffect_coord (req : Request) (k : Int) (t : List Char) (st : HeaderState)
    (a : Nat) (ha : a < 3) :
    (fieldEffect req k t st).coordColumn.get a
      = if namesIgnoreCase (axisName a) t then k else st.coordColumn.get a := by
  rw [fieldEffect_eq]
  by_cases hX : namesIgnoreCase "X".toList t
  · have e1 := axisName_excl (a := 0) (b := 1) (by omega) (by omega) (by omega) hX
    have e2 := axisName_excl (a := 0) (b := 2) (by omega) (by omega) (by omega) hX
    rw [if_pos hX]
    interval_cases a
    · rw [if_pos (show namesIgnoreCase (axisName 0) t from hX)]; simp [Int3.get, Int3.set]
    · rw [if_neg e1]; simp [Int3.get, Int3.set]
    · rw [if_neg e2]; simp [Int3.get, Int3.set]
  · rw [if_neg hX]
    by_cases hY : namesIgnoreCase "Y".toList t
    · have e2 := axisName_excl (a := 1) (b := 2) (by omega) (by omega) (by omega) hY
      rw [if_pos hY]
      interval_cases a
      · rw [if_neg (show ¬ namesIgnoreCase (axisName 0) t from hX)]; simp [Int3.get, Int3.set]
      · rw [if_pos (show namesIgnoreCase (axisName 1) t from hY)]; simp [Int3.get, Int3.set]
      · rw [if_neg e2]; simp [Int3.get, Int3.set]
    · rw [if_neg hY]
      by_cases hZ : namesIgnoreCase "Z".toList t
      · rw [if_pos hZ]
        interval_cases a
        · rw [if_neg (show ¬ namesIgnoreCase (axisName 0) t from hX)]; simp [Int3.get, Int3.set]
        · rw [if_neg (show ¬ namesIgnoreCase (axisName 1) t from hY)]; simp [Int3.get, Int3.set]
        · rw [if_pos (show namesIgnoreCase (axisName 2) t from hZ)]; simp [Int3.get, Int3.set]
      · rw [if_neg hZ]
        have hn : ¬ namesIgnoreCase (axisName a) t := by
          interval_cases a
          · exact hX
          · exact hY
          · exact hZ
        rw [if_neg hn]
        split
        · rfl
        · split <;> rfl

theorem fieldEffect_frame (req : Request) (k : Int) (t : List Char) (st : HeaderState) :
    (fieldEffect req k t st).numNodes = st.numNodes ∧
      (fieldEffect req k t st).sphericalOrder = st.sphericalOrder := by
  rw [fieldEffect_eq]
  split
  · exact ⟨rfl, rfl⟩
  · split
    · exact ⟨rfl, rfl⟩
    · split
      · exact ⟨rfl, rfl⟩
      · split
        · exact ⟨rfl, rfl⟩
        · split <;> exact ⟨rfl, rfl⟩

theorem fieldEffect_data_keep (req : Request) (k : Int) (t : List Char) (st : HeaderState)
    (h : 0 ≤ st.dataColumn ∨ ¬ isCandidate req t) :
    (fieldEffect req k t st).dataColumn = st.dataColumn ∧
      (fieldEffect req k t st).dataName = st.dataName := by
  rw [fieldEffect_eq]
  split
  · exact ⟨rfl, rfl⟩
  · next hX =>
    split
    · exact ⟨rfl, rfl⟩
    · next hY =>
      split
      · exact ⟨rfl, rfl⟩
      · next hZ =>
        split
        · exact ⟨rfl, rfl⟩
        · next hN =>
          split
          · next hc =>
            rcases h with h | h
            · omega
            · exact absurd ⟨hX, hY, hZ, hN, hc.2⟩ h
          · exact ⟨rfl, rfl⟩

theorem fieldEffect_data_pick (req : Request) (k : Int) (t : List Char) (st : HeaderState)
    (hd : st.dataColumn < 0) (hc : isCandidate req t) :
    (fieldEffect req k t st).dataColumn = k ∧
      (fieldEffect req k t st).dataName = some (displayName req t) := by
  obtain ⟨hX, hY, hZ, hN, hr⟩ := hc
  rw [fieldEffect_eq, if_neg hX, if_neg hY, if_neg hZ, if_neg hN, if_pos ⟨hd, hr⟩]
  exact ⟨rfl, rfl⟩

theorem applyFields_append (req : Request) (l1 : List (List Char)) :
    ∀ (k : Int) (l2 : List (List Char)) (st : HeaderState),
    applyFields req k (l1 ++ l2) st
      = applyFields req (k + l1.length) l2 (applyFields req k l1 st) := by
  induction l1 with
  | nil => intro k l2 st; simp [applyFields]
  | cons t ts ih =>
    intro k l2 st
    show applyFields req (k + 1) (ts ++ l2) (fieldEffect req k t st)
      = applyFields req (k + ((t :: ts).length : Nat)) l2
          (applyFields req (k + 1) ts (fieldEffect req k t st))
    rw [ih]
    have : k + 1 + (ts.length : Int) = k + ((t :: ts).length : Nat) := by
      simp only [List.length_cons]; push_cast; ring
    rw [this]

theorem applyFields_frame (req : Request) (ts : List (List Char)) :
    ∀ (k : Int) (st : HeaderState),
    (applyFields req k ts st).numNodes = st.numNodes ∧
      (applyFields req k ts st).sphericalOrder = st.sphericalOrder := by
  induction ts with
  | nil => intro k st; exact ⟨rfl, rfl⟩
  | cons t ts ih =>
    intro k st
    simp only [applyFields]
    rw [(ih _ _).1, (ih _ _).2]
    exact fieldEffect_frame req k t st

theorem applyFields_coord_keep (req : Request) (a : Nat) (ha : a < 3) (ts : List (List Char)) :
    ∀ (k : Int) (st : HeaderState), (∀ t ∈ ts, ¬ namesIgnoreCase (axisName a) t) →
    (applyFields req k ts st).coordColumn.get a = st.coordColumn.get a := by
  induction ts with
  | nil => intro k st _; rfl
  | cons t ts ih =>
    intro k st h
    simp only [applyFields]
    rw [ih _ _ (fun x hx => h x (List.mem_cons_of_mem _ hx)), fieldEffect_coord req k t st a ha,
      if_neg (h t (List.mem_cons_self _ _))]

theorem applyFields_coord_last (req : Request) (a : Nat) (ha : a < 3)
    (l1 : List (List Char)) (t : List Char) (l2 : List (List Char)) (k : Int) (st : HeaderState)
    (ht : namesIgnoreCase (axisName a) t) (h2 : ∀ x ∈ l2, ¬ namesIgnoreCase (axisName a) x) :
    (applyFields req k (l1 ++ t :: l2) st).coordColumn.get a = k + l1.length := by
  rw [applyFields_append]
  simp only [applyFields]
  rw [applyFields_coord_keep req a ha l2 _ _ h2, fieldEffect_coord _ _ _ _ a ha, if_pos ht]

theorem applyFields_data_keep (req : Request) (ts : List (List Char)) :
    ∀ (k : Int) (st : HeaderState), (0 ≤ st.dataColumn ∨ ∀ t ∈ ts, ¬ isCandidate req t) →
    (applyFields req k ts st).dataColumn = st.dataColumn ∧
      (applyFields req k ts st).dataName = st.dataName := by
  induction ts with
  | nil => intro k st _; exact ⟨rfl, rfl⟩
  | cons t ts ih =>
    intro k st h
    simp only [applyFields]
    have hf := fieldEffect_data_keep req k t st
      (h.imp id (fun h => h t (List.mem_cons_self _ _)))
    have := ih (k + 1) (fieldEffect req k t st)
      (h.imp (fun h => by rw [hf.1]; exact h) (fun h x hx => h x (List.mem_cons_of_mem _ hx)))
    rw [this.1, this.2]
    exact hf

theorem applyFields_data_first (req : Request)
    (l1 : List (List Char)) (t : List Char) (l2 : List (List Char)) (k : Int) (st : HeaderState)
    (hk : 0 ≤ k) (hd : st.dataColumn < 0) (h1 : ∀ x ∈ l1, ¬ isCandidate req x)
    (ht : isCandidate req t) :
    (applyFields req k (l1 ++ t :: l2) st).dataColumn = k + l1.length ∧
      (applyFields req k (l1 ++ t :: l2) st).dataName = some (displayName req t) := by
  rw [applyFields_append]
  simp only [applyFields]
  have hb := applyFields_data_keep req l1 k st (Or.inr h1)
  have hp := fieldEffect_data_pick req (k + l1.length) t (applyFields req k l1 st)
    (by rw [hb.1]; exact hd) ht
  have ha := applyFields_data_keep req l2 (k + l1.length + 1)
    (fieldEffect req (k + l1.length) t (applyFields req k l1 st))
    (Or.inl (by rw [hp.1]; omega))
  rw [ha.1, ha.2]
  exact hp

/-! ## What each directive leaves alone -/

theorem nodesBody_indep (cPtr : List Char) (st st0 : HeaderState)
    (h : st.numNodes = st0.numNodes) :
    nodesBody cPtr st
      = ({ st with numNodes := (nodesBody cPtr st0).1.numNodes }, (nodesBody cPtr st0).2) := by
  obtain ⟨n, c, d, nm, so⟩ := st
  obtain ⟨n0, c0, d0, nm0, so0⟩ := st0
  simp only at h
  subst h
  simp only [nodesBody]
  split <;> split <;> (try split) <;> rfl

theorem nodesLoop_indep (fuel : Nat) : ∀ (cPtr : List Char) (st st0 : HeaderState),
    st.numNodes = st0.numNodes →
    nodesLoop fuel cPtr st
      = (nodesLoop fuel cPtr st0).map (fun r => { st with numNodes := r.numNodes }) := by
  induction fuel with
  | zero => intro cPtr st st0 _; rfl
  | succ n ih =>
    intro cPtr st st0 h
    simp only [nodesLoop]
    rw [nodesBody_indep cPtr st st0 h]
    split
    · rw [ih _ { st with numNodes := (nodesBody cPtr st0).1.numNodes } (nodesBody cPtr st0).1 rfl]
    · rfl

theorem sphericalBody_indep (cPtr : List Char) (st st0 : HeaderState)
    (h : st.sphericalOrder = st0.sphericalOrder) :
    sphericalBody cPtr st
      = ({ st with sphericalOrder := (sphericalBody cPtr st0).1.sphericalOrder },
          (sphericalBody cPtr st0).2) := by
  obtain ⟨n, c, d, nm, so⟩ := st
  obtain ⟨n0, c0, d0, nm0, so0⟩ := st0
  simp only at h
  subst h
  simp only [sphericalBody]
  split <;> split <;> (try split) <;> rfl

theorem sphericalLoop_indep (fuel : Nat) : ∀ (cPtr : List Char) (st st0 : HeaderState),
    st.sphericalOrder = st0.sphericalOrder →
    sphericalLoop fuel cPtr st
      = (sphericalLoop fuel cPtr st0).map
          (fun r => { st with sphericalOrder := r.sphericalOrder }) := by
  induction fuel with
  | zero => intro cPtr st st0 _; rfl
  | succ n ih =>
    intro cPtr st st0 h
    simp only [sphericalLoop]
    rw [sphericalBody_indep cPtr st st0 h]
    split
    · rw [ih _ { st with sphericalOrder := (sphericalBody cPtr st0).1.sphericalOrder }
        (sphericalBody cPtr st0).1 rfl]
    · rfl

theorem columnBody_keep (req : Request) (k : Int) (cPtr : List Char) (st : HeaderState) :
    (columnBody req k cPtr st).1.numNodes = st.numNodes ∧
    (columnBody req k cPtr st).1.sphericalOrder = st.sphericalOrder ∧
    (0 ≤ st.dataColumn → (columnBody req k cPtr st).1.dataColumn = st.dataColumn ∧
      (columnBody req k cPtr st).1.dataName = st.dataName) := by
  simp only [columnBody]
  split
  · exact ⟨rfl, rfl, fun _ => ⟨rfl, rfl⟩⟩
  · split
    · exact ⟨rfl, rfl, fun _ => ⟨rfl, rfl⟩⟩
    · split
      · exact ⟨rfl, rfl, fun _ => ⟨rfl, rfl⟩⟩
      · split
        · exact ⟨rfl, rfl, fun _ => ⟨rfl, rfl⟩⟩
        · split
          · next hd =>
            split
            · exact ⟨rfl, rfl, fun h => by omega⟩
            · exact ⟨rfl, rfl, fun _ => ⟨rfl, rfl⟩⟩
          · exact ⟨rfl, rfl, fun _ => ⟨rfl, rfl⟩⟩

theorem columnLoop_keep (req : Request) (fuel : Nat) :
    ∀ (k : Int) (cPtr : List Char) (st r : HeaderState),
    columnLoop req fuel k cPtr st = some r →
    r.numNodes = st.numNodes ∧ r.sphericalOrder = st.sphericalOrder ∧
    (0 ≤ st.dataColumn → r.dataColumn = st.dataColumn ∧ r.dataName = st.dataName) := by
  induction fuel with
  | zero => intro k cPtr st r h; simp [columnLoop] at h
  | succ n ih =>
    intro k cPtr st r h
    simp only [columnLoop] at h
    have hb := columnBody_keep req k cPtr st
    split at h
    · have hr := ih _ _ _ _ h
      refine ⟨hr.1.trans hb.1, hr.2.1.trans hb.2.1, fun hd => ?_⟩
      have h1 := hb.2.2 hd
      have h2 := hr.2.2 (by rw [h1.1]; exact hd)
      exact ⟨h2.1.trans h1.1, h2.2.trans h1.2⟩
    · cases h
      exact hb

/-- A chosen data column survives every header line. -/
theorem headerLine_keep_data (req : Request) (st : HeaderState) (line : List Char)
    (hd : 0 ≤ st.dataColumn) :
    (headerLine req st line).dataColumn = st.dataColumn ∧
      (headerLine req st line).dataName = st.dataName := by
  obtain ⟨s, hs⟩ := Option.isSome_iff_exists.mp (headerLineFuel_isSome req st line)
  rw [headerLine_of_fuel hs]
  simp only [headerLineFuel] at hs
  split at hs
  · rw [nodesLoop_indep _ _ st st rfl] at hs
    obtain ⟨r, _, hr⟩ := Option.map_eq_some'.mp hs
    rw [← hr]; exact ⟨rfl, rfl⟩
  · split at hs
    · rw [sphericalLoop_indep _ _ st st rfl] at hs
      obtain ⟨r, _, hr⟩ := Option.map_eq_some'.mp hs
      rw [← hr]; exact ⟨rfl, rfl⟩
    · split at hs
      · exact (columnLoop_keep req _ _ _ _ _ hs).2.2 hd
      · cases hs; exact ⟨rfl, rfl⟩

/-- A header line that is not a column directive acts on `numNodes` and
`sphericalOrder` only, and what it does to them does not depend on the other
locals. -/
theorem headerLine_noncolumn (req : Request) (st st0 : HeaderState) (line : List Char)
    (hn : ¬ isColumnDirective line) (h1 : st.numNodes = st0.numNodes)
    (h2 : st.sphericalOrder = st0.sphericalOrder) :
    headerLine req st line
      = { st with numNodes := (headerLine req st0 line).numNodes
                  sphericalOrder := (headerLine req st0 line).sphericalOrder } := by
  obtain ⟨s, hs⟩ := Option.isSome_iff_exists.mp (headerLineFuel_isSome req st line)
  obtain ⟨s0, hs0⟩ := Option.isSome_iff_exists.mp (headerLineFuel_isSome req st0 line)
  rw [headerLine_of_fuel hs, headerLine_of_fuel hs0]
  simp only [headerLineFuel] at hs hs0
  split at hs
  · next hc =>
    rw [if_pos hc] at hs0
    rw [nodesLoop_indep _ _ st st0 h1, hs0] at hs
    rw [nodesLoop_indep _ _ st0 st0 rfl] at hs0
    obtain ⟨r, _, hr⟩ := Option.map_eq_some'.mp hs0
    cases hs
    rw [← hr, h2]
  · next hc =>
    rw [if_neg hc] at hs0
    split at hs
    · next hd =>
      rw [if_pos hd] at hs0
      rw [sphericalLoop_indep _ _ st st0 h2, hs0] at hs
      rw [sphericalLoop_indep _ _ st0 st0 rfl] at hs0
      obtain ⟨r, _, hr⟩ := Option.map_eq_some'.mp hs0
      cases hs
      rw [← hr, h1]
    · next hd =>
      rw [if_neg hd] at hs0
      split at hs
      · next he =>
        exact absurd ⟨by simpa using hc, by simpa using hd, he⟩ hn
      · next he =>
        rw [if_neg he] at hs0
        cases hs; cases hs0
        rw [← h1, ← h2]

/-! ## The column header line -/

/-- C4: in a column header line whose fields are set off by bars and white
space, the fields count 0, 1, 2, ... from the left; `coordColumn[a]` becomes
the index of the (last) field that is exactly X, Y or Z (`a` = 0, 1, 2; one
character, any case); with no data column chosen before, the data column
becomes the index of the first field that is not X, Y, Z or NODE and that the
request admits; and a data column once chosen, with its name, is left alone by
every header line. -/
theorem column_line_roles (req : Request) (st : HeaderState) (lead : List Char)
    (fs : List ColumnField) (tail : List Char)
    (hl : isLead lead) (hwf : ∀ f ∈ fs, f.wf) (hc : isClosing tail) :
    (∀ (a : Nat) (fa : List ColumnField) (f : ColumnField) (fb : List ColumnField),
      a < 3 → fs = fa ++ f :: fb → namesIgnoreCase (axisName a) f.text →
      (∀ g ∈ fb, ¬ namesIgnoreCase (axisName a) g.text) →
      (headerLine req st (columnLine lead fs tail)).coordColumn.get a = fa.length) ∧
    (st.dataColumn < 0 →
      ∀ (fa : List ColumnField) (f : ColumnField) (fb : List ColumnField),
      fs = fa ++ f :: fb → isCandidate req f.text → (∀ g ∈ fa, ¬ isCandidate req g.text) →
      (headerLine req st (columnLine lead fs tail)).dataColumn = fa.length) ∧
    (0 ≤ st.dataColumn → ∀ line : List Char,
      (headerLine req st line).dataColumn = st.dataColumn ∧
      (headerLine req st line).dataName = st.dataName) := by
  rw [headerLine_columnLine req st lead fs tail hl hwf hc]
  refine ⟨?_, ?_, fun hd line => headerLine_keep_data req st line hd⟩
  · intro a fa f fb ha hfs hname hlast
    have hsplit : seenTexts fs tail
        = fa.map ColumnField.text ++ f.text
          :: (fb.map ColumnField.text ++ (if tail = [] then [] else [[]])) := by
      simp [seenTexts, hfs]
    rw [hsplit, applyFields_coord_last req a ha _ _ _ 0 st hname]
    · simp
    · intro x hx
      rcases List.mem_append.mp hx with h | h
      · obtain ⟨g, hg, rfl⟩ := List.mem_map.mp h
        exact hlast g hg
      · split at h
        · simp at h
        · have : x = [] := by simpa using h
          subst this
          intro hn
          have := congrArg List.length hn
          rcases a with _ | _ | a <;> simp [axisName] at this
  · intro hd fa f fb hfs hcand hfirst
    have hsplit : seenTexts fs tail
        = fa.map ColumnField.text ++ f.text
          :: (fb.map ColumnField.text ++ (if tail = [] then [] else [[]])) := by
      simp [seenTexts, hfs]
    rw [hsplit]
    have := applyFields_data_first req (fa.map ColumnField.text) f.text
      (fb.map ColumnField.text ++ (if tail = [] then [] else [[]])) 0 st (le_refl _) hd
      (by
        intro x hx
        obtain ⟨g, hg, rfl⟩ := List.mem_map.mp hx
        exact hfirst g hg) hcand
    rw [this.1]
    simp

/-- C4 at the line `# | NODE | x | Y | Z | Visc | TEMP |` with the request
`temp`: X, Y, Z are columns 1, 2, 3 and the data column is 5. -/
theorem column_line_roles_witness :
    (headerLine (parseRequest (some "temp".toList)) HeaderState.init
        "# | NODE | x | Y | Z | Visc | TEMP |\n".toList).coordColumn = ⟨1, 2, 3⟩ ∧
    (headerLine (parseRequest (some "temp".toList)) HeaderState.init
        "# | NODE | x | Y | Z | Visc | TEMP |\n".toList).dataColumn = 5 :=
  have h := column_line_roles (parseRequest (some "temp".toList)) HeaderState.init [' ']
    [⟨[' '], "NODE".toList, [' ']⟩, ⟨[' '], "x".toList, [' ']⟩, ⟨[' '], "Y".toList, [' ']⟩,
      ⟨[' '], "Z".toList, [' ']⟩, ⟨[' '], "Visc".toList, [' ']⟩, ⟨[' '], "TEMP".toList, [' ']⟩]
    "|\n".toList (by decide) (by decide) (by decide)
  ⟨by
    have h0 := h.1 0 [⟨[' '], "NODE".toList, [' ']⟩] ⟨[' '], "x".toList, [' ']⟩
      [⟨[' '], "Y".toList, [' ']⟩, ⟨[' '], "Z".toList, [' ']⟩, ⟨[' '], "Visc".toList, [' ']⟩,
        ⟨[' '], "TEMP".toList, [' ']⟩] (by decide) rfl (by decide) (by decide)
    have h1 := h.1 1 [⟨[' '], "NODE".toList, [' ']⟩, ⟨[' '], "x".toList, [' ']⟩]
      ⟨[' '], "Y".toList, [' ']⟩
      [⟨[' '], "Z".toList, [' ']⟩, ⟨[' '], "Visc".toList, [' ']⟩, ⟨[' '], "TEMP".toList, [' ']⟩]
      (by decide) rfl (by decide) (by decide)
    have h2 := h.1 2 [⟨[' '], "NODE".toList, [' ']⟩, ⟨[' '], "x".toList, [' ']⟩,
      ⟨[' '], "Y".toList, [' ']⟩] ⟨[' '], "Z".toList, [' ']⟩
      [⟨[' '], "Visc".toList, [' ']⟩, ⟨[' '], "TEMP".toList, [' ']⟩]
      (by decide) rfl (by decide) (by decide)
    exact Int3.ext_get h0 h1 h2,
   h.2.1 (by decide) [⟨[' '], "NODE".toList, [' ']⟩, ⟨[' '], "x".toList, [' ']⟩,
      ⟨[' '], "Y".toList, [' ']⟩, ⟨[' '], "Z".toList, [' ']⟩, ⟨[' '], "Visc".toList, [' ']⟩]
      ⟨[' '], "TEMP".toList, [' ']⟩ [] rfl (by decide) (by decide)⟩

/-! ## The display name -/

theorem displayName_matched (req : Request) (v t : List Char) (hv : req.varStart = some v)
    (hn : namesIgnoreCase v t) :
    displayName req t = if req.logScale then "Log(".toList ++ t ++ [')'] else t := by
  have hl : req.varLen = t.length := by
    have := congrArg List.length hn
    simp only [List.length_map] at this
    simp [Request.varLen, hv, this]
  unfold displayName
  rw [hl, List.take_length]

theorem parseRequest_log_token (p T : List Char) (hp : p.length = 4)
    (hlog : strncasecmp0 p "log(".toList 4 = true) (hT : ∀ c ∈ T, c ≠ ')') :
    parseRequest (some (p ++ T ++ [')'])) = { logScale := true, varStart := some T } := by
  match p, hp with
  | [a, b, c, d], _ =>
    have h1 : charAt ([a, b, c, d] ++ T ++ [')']) 0 ≠ '-' := by
      have ha := (strncasecmp0_head hlog).1
      show a ≠ '-'
      intro h
      rw [h] at ha
      exact absurd ha (by decide)
    have h2 : strncasecmp0 ([a, b, c, d] ++ T ++ [')']) "log(".toList 4 = true := by
      rw [List.append_assoc, strncasecmp0_append_left _ _ _ 4 (by simp)]
      exact hlog
    rw [parseRequest_log h1 h2]
    have hd : ([a, b, c, d] ++ T ++ [')']).drop 4 = T ++ [')'] := by simp
    have ht : (T ++ [')']).takeWhile (fun c => c != ')') = T := by
      rw [List.takeWhile_append_of_pos (fun c hc => by simpa using hT c hc)]
      simp
    rw [hd, ht]

/-- C5: let the first field of a column header line whose text is the name `T`
up to letter case be `f`, not one of X, Y, Z, NODE, and let no data column be
chosen before.  Requesting `log(T)` (the prefix in any letter case) makes the
display name `Log(` followed by the text of `f` followed by `)`; requesting
the bare `T` makes it the text of `f`. -/
theorem display_name_of_request (st : HeaderState) (lead : List Char)
    (fs fa : List ColumnField) (f : ColumnField) (fb : List ColumnField) (tail T : List Char)
    (hl : isLead lead) (hwf : ∀ g ∈ fs, g.wf) (hc : isClosing tail)
    (hd : st.dataColumn < 0) (hfs : fs = fa ++ f :: fb)
    (hT : namesIgnoreCase T f.text)
    (hX : ¬ namesIgnoreCase "X".toList f.text) (hY : ¬ namesIgnoreCase "Y".toList f.text)
    (hZ : ¬ namesIgnoreCase "Z".toList f.text) (hN : ¬ namesIgnoreCase "NODE".toList f.text)
    (hfirst : ∀ g ∈ fa, ¬ namesIgnoreCase T g.text) :
    (∀ p : List Char, p.length = 4 → strncasecmp0 p "log(".toList 4 = true →
      (∀ c ∈ T, c ≠ ')') →
      (headerLine (parseRequest (some (p ++ T ++ [')']))) st (columnLine lead fs tail)).dataName
        = some ("Log(".toList ++ f.text ++ [')'])) ∧
    (charAt T 0 ≠ '-' → strncasecmp0 T "log(".toList 4 = false →
      (headerLine (parseRequest (some T)) st (columnLine lead fs tail)).dataName
        = some f.text) := by
  have hsplit : seenTexts fs tail
      = fa.map ColumnField.text ++ f.text
        :: (fb.map ColumnField.text ++ (if tail = [] then [] else [[]])) := by
    simp [seenTexts, hfs]
  have key : ∀ req : Request, req.varStart = some T →
      (headerLine req st (columnLine lead fs tail)).dataName
        = some (if req.logScale then "Log(".toList ++ f.text ++ [')'] else f.text) := by
    intro req hreq
    have hadm : ∀ t, requestAdmits req t ↔ namesIgnoreCase T t := by
      intro t; simp [requestAdmits, hreq]
    rw [headerLine_columnLine req st lead fs tail hl hwf hc, hsplit]
    have := applyFields_data_first req (fa.map ColumnField.text) f.text
      (fb.map ColumnField.text ++ (if tail = [] then [] else [[]])) 0 st (le_refl _) hd
      (by
        intro x hx
        obtain ⟨g, hg, rfl⟩ := List.mem_map.mp hx
        intro hcand
        exact hfirst g hg ((hadm _).mp hcand.2.2.2.2))
      ⟨hX, hY, hZ, hN, (hadm _).mpr hT⟩
    rw [this.2, displayName_matched req T f.text hreq hT]
  constructor
  · intro p hp hlog hparen
    rw [key _ (by rw [parseRequest_log_token p T hp hlog hparen]),
      parseRequest_log_token p T hp hlog hparen]
    rfl
  · intro h1 h2
    have hb := parseRequest_bare h1 (by rw [h2]; exact Bool.false_ne_true)
    rw [key _ (by rw [hb]), hb]
    rfl

/-- C5 at the line `# | X | Y | Z | Visc | Temp |`: the request `LOG(temp)`
gives the name `Log(Temp)`, the request `temp` gives `Temp`. -/
theorem display_name_of_request_witness :
    (headerLine (parseRequest (some "LOG(temp)".toList)) HeaderState.init
        "# | X | Y | Z | Visc | Temp |\n".toList).dataName = some "Log(Temp)".toList ∧
    (headerLine (parseRequest (some "temp".toList)) HeaderState.init
        "# | X | Y | Z | Visc | Temp |\n".toList).dataName = some "Temp".toList :=
  have h := display_name_of_request HeaderState.init [' ']
    [⟨[' '], "X".toList, [' ']⟩, ⟨[' '], "Y".toList, [' ']⟩, ⟨[' '], "Z".toList, [' ']⟩,
      ⟨[' '], "Visc".toList, [' ']⟩, ⟨[' '], "Temp".toList, [' ']⟩]
    [⟨[' '], "X".toList, [' ']⟩, ⟨[' '], "Y".toList, [' ']⟩, ⟨[' '], "Z".toList, [' ']⟩,
      ⟨[' '], "Visc".toList, [' ']⟩]
    ⟨[' '], "Temp".toList, [' ']⟩ [] "|\n".toList "temp".toList
    (by decide) (by decide) (by decide) (by decide) rfl (by decide) (by decide) (by decide)
    (by decide) (by decide) (by decide)
  ⟨h.1 "LOG(".toList rfl (by decide) (by decide), h.2 (by decide) (by decide)⟩

/-- C6 fails on the code: with no variable requested, the column header
`| X | Y | Z | TEMP |` makes TEMP the data column (index 3) but the captured
display name is the empty string, not `TEMP`. -/
theorem no_request_name_is_empty :
    (headerLine (parseRequest none) HeaderState.init
        "# | X | Y | Z | TEMP |\n".toList).dataColumn = 3 ∧
    (headerLine (parseRequest none) HeaderState.init
        "# | X | Y | Z | TEMP |\n".toList).dataName = some [] ∧
    (load symOps "grid.dat".toList none
        ["# NODESX=1 NODESY=1 NODESZ=1\n".toList, "# | X | Y | Z | TEMP |\n".toList,
          "0 0 0 1\n".toList]).map (fun r => r.map (fun g => g.variableName))
      = some (.ok (some [])) := by
  refine ⟨by rfl, by rfl, by rfl⟩

/-! ## Spherical roles -/

theorem streamVertices_eq_map {D F : Type} (ops : FloatOps D F) (logScale : Bool) (st : HeaderState)
    (n : Nat) : ∀ (line : List Char) (rest : List (List Char)),
    streamVertices ops logScale st n line rest
      = (linesRead n line rest).map
          (fun l => makeVertex ops logScale st (parseRow ops (columnMapping st) l (columnsInit D))) := by
  induction n with
  | zero => intro line rest; rfl
  | succ n ih =>
    intro line rest
    simp only [streamVertices, linesRead, List.map_cons, ih]

theorem loadHeader_ok_inv {args0 : List Char} {args1 : Option (List Char)}
    {file : List (List Char)} {st : HeaderState} {row : List Char} {rows : List (List Char)}
    (h : loadHeader args0 args1 file = some (.ok (st, row, rows))) :
    ∃ first rest, file = first :: rest ∧
      headerLoop (parseRequest args1) rest first HeaderState.init = some (st, row, rows) ∧
      validate args0 args1 (parseRequest args1) st = .ok () := by
  unfold loadHeader at h
  split at h
  · cases h
  · next first rest =>
    refine ⟨first, rest, rfl, ?_⟩
    split at h
    · cases h
    · next s l r hl =>
      split at h
      · cases h
      · next u hv =>
        simp only [Option.some.injEq, Except.ok.injEq, Prod.mk.injEq] at h
        obtain ⟨h1, h2, h3⟩ := h
        subst h1; subst h2; subst h3
        exact ⟨hl, hv⟩

theorem streamLoop_eq {D F : Type} (ops : FloatOps D F) (logScale : Bool) (st : HeaderState)
    (n : Nat) : ∀ (line : List Char) (rest : List (List Char)) (vc nt : Nat),
    streamLoop ops logScale st n line rest vc nt
      = (progressLoop (tickSize st.numNodes) (totalNumNodes st.numNodes) n vc nt).map
          (fun out => (streamVertices ops logScale st n line rest, out)) := by
  induction n with
  | zero => intro line rest vc nt; rfl
  | succ n ih =>
    intro line rest vc nt
    simp only [streamLoop, progressLoop, streamVertices]
    split
    · split
      · rfl
      · rw [ih, Option.map_map, Option.map_map]
        rfl
    · rw [ih, Option.map_map, Option.map_map]
      rfl

theorem load_of_header {D F : Type} (ops : FloatOps D F) {args0 : List Char}
    {args1 : Option (List Char)} {file : List (List Char)} {st : HeaderState} {row : List Char}
    {rows : List (List Char)}
    (h : loadHeader args0 args1 file = some (.ok (st, row, rows))) :
    load ops args0 args1 file
      = (progressOutput st.numNodes).map (fun _ =>
          Except.ok ⟨st.numNodes, st.dataName,
            streamVertices ops (parseRequest args1).logScale st (gridSize st.numNodes) row rows⟩) := by
  unfold load
  rw [h]
  simp only [streamLoop_eq, progressOutput]
  cases progressLoop (tickSize st.numNodes) (totalNumNodes st.numNodes) (gridSize st.numNodes) 1
    (tickSize st.numNodes) <;> rfl

theorem linesRead_take (n : Nat) : ∀ (line : List Char) (rest : List (List Char)),
    n ≤ rest.length + 1 → linesRead n line rest = (line :: rest).take n := by
  induction n with
  | zero => intro line rest _; rfl
  | succ n ih =>
    intro line rest h
    cases rest with
    | nil =>
      have : n = 0 := by simpa using h
      subst this
      rfl
    | cons l r =>
      simp only [linesRead, gets, List.take_succ_cons]
      rw [ih l r (by simpa using h)]

theorem headerLoop_stop (req : Request) (rest : List (List Char)) (line : List Char)
    (st : HeaderState) (h : charAt line 0 ≠ '#') :
    headerLoop req rest line st = some (st, line, rest) := by
  cases rest <;> simp [headerLoop, h]

theorem headerLoop_step (req : Request) (l : List Char) (rest : List (List Char))
    (line : List Char) (st : HeaderState) (h : charAt line 0 = '#') :
    headerLoop req (l :: rest) line st = headerLoop req rest l (headerLine req st line) := by
  simp [headerLoop, h]

/-- C10 fails as stated: with the header line `# NODES X=2 NODES Y=2 NODES Z=2`
the axis letter is not at offset 5 of the field, no dimension is set, and the
load ends with the invalid-header error. -/
theorem spaced_nodes_header_rejected :
    (headerLine (parseRequest none) HeaderState.init
        "# NODES X=2 NODES Y=2 NODES Z=2\n".toList).numNodes = ⟨-1, -1, -1⟩ ∧
    load symOps "grid.dat".toList none
        ["# NODES X=2 NODES Y=2 NODES Z=2\n".toList, "# X-LAT, Y-LON, Z-RADIUS\n".toList,
          "# | X | Y | Z | TEMP |\n".toList,
          "0 0 1 10\n".toList, "0 0 2 11\n".toList, "0 1 1 12\n".toList, "0 1 2 13\n".toList,
          "1 0 1 14\n".toList, "1 0 2 15\n".toList, "1 1 1 16\n".toList, "1 1 2 17\n".toList]
      = some (.error (.invalidHeader "grid.dat".toList)) := by
  refine ⟨by rfl, by rfl⟩

theorem parseRow_four {D F : Type} (ops : FloatOps D F) (l : List Char) :
    parseRow ops [0, 1, 2, 3] l (columnsInit D) = (rowValues ops 4 l).map some := by
  simp [parseRow, rowValues, columnsInit]

set_option maxRecDepth 8000 in
theorem roundtrip_header_lines :
    headerLine (parseRequest none)
      (headerLine (parseRequest none)
        (headerLine (parseRequest none) HeaderState.init "# NODESX=2 NODESY=2 NODESZ=2\n".toList)
        "# X-LAT, Y-LON, Z-RADIUS\n".toList)
      "# | X | Y | Z | TEMP |\n".toList
      = { numNodes := ⟨2, 2, 2⟩, coordColumn := ⟨0, 1, 2⟩, dataColumn := 3,
          dataName := some [], sphericalOrder := ⟨0, 1, 2⟩ } := by
  rfl

/-- C10, with the header line written `# NODESX=2 NODESY=2 NODESZ=2`: for
every eight data rows (the first not starting with a hash mark) the header
parses to dimensions (2,2,2), spherical roles LAT=X, LON=Y, RADIUS=Z,
coordinate columns 0,1,2 and data column 3; `load` succeeds with exactly 8
vertices, one per row in file order, each converted from its row in spherical
mode and carrying the fourth (TEMP) value of its row as scalar. -/
theorem roundtrip_2x2x2 {D F : Type} (ops : FloatOps D F) (path r0 : List Char)
    (rest : List (List Char)) (hlen : rest.length = 7) (h0 : charAt r0 0 ≠ '#') :
    loadHeader path none
        ("# NODESX=2 NODESY=2 NODESZ=2\n".toList :: "# X-LAT, Y-LON, Z-RADIUS\n".toList
          :: "# | X | Y | Z | TEMP |\n".toList :: r0 :: rest)
      = some (.ok ({ numNodes := ⟨2, 2, 2⟩, coordColumn := ⟨0, 1, 2⟩, dataColumn := 3,
                     dataName := some [], sphericalOrder := ⟨0, 1, 2⟩ }, r0, rest)) ∧
    ∃ g : Grid F,
      load ops path none
        ("# NODESX=2 NODESY=2 NODESZ=2\n".toList :: "# X-LAT, Y-LON, Z-RADIUS\n".toList
          :: "# | X | Y | Z | TEMP |\n".toList :: r0 :: rest) = some (.ok g) ∧
      g.numNodes = ⟨2, 2, 2⟩ ∧ g.vertices.length = 8 ∧
      g.vertices = (r0 :: rest).map (fun l =>
        sphericalVertex ops false
          { numNodes := ⟨2, 2, 2⟩, coordColumn := ⟨0, 1, 2⟩, dataColumn := 3,
            dataName := some [], sphericalOrder := ⟨0, 1, 2⟩ }
          ((rowValues ops 4 l).map some)) ∧
      g.vertices.map (fun v => v.value)
        = (r0 :: rest).map (fun l => ((rowValues ops 4 l)[3]?).map ops.toFloat) := by
  have c1 : charAt "# NODESX=2 NODESY=2 NODESZ=2\n".toList 0 = '#' := by rfl
  have c2 : charAt "# X-LAT, Y-LON, Z-RADIUS\n".toList 0 = '#' := by rfl
  have c3 : charAt "# | X | Y | Z | TEMP |\n".toList 0 = '#' := by rfl
  have hloop : headerLoop (parseRequest none)
      ("# X-LAT, Y-LON, Z-RADIUS\n".toList :: "# | X | Y | Z | TEMP |\n".toList :: r0 :: rest)
      "# NODESX=2 NODESY=2 NODESZ=2\n".toList HeaderState.init
      = some ({ numNodes := ⟨2, 2, 2⟩, coordColumn := ⟨0, 1, 2⟩, dataColumn := 3,
                dataName := some [], sphericalOrder := ⟨0, 1, 2⟩ }, r0, rest) := by
    rw [headerLoop_step _ _ _ _ _ c1, headerLoop_step _ _ _ _ _ c2,
      headerLoop_step _ _ _ _ _ c3, headerLoop_stop _ _ _ _ h0, roundtrip_header_lines]
  have hhead : loadHeader path none
        ("# NODESX=2 NODESY=2 NODESZ=2\n".toList :: "# X-LAT, Y-LON, Z-RADIUS\n".toList
          :: "# | X | Y | Z | TEMP |\n".toList :: r0 :: rest)
      = some (.ok ({ numNodes := ⟨2, 2, 2⟩, coordColumn := ⟨0, 1, 2⟩, dataColumn := 3,
                     dataName := some [], sphericalOrder := ⟨0, 1, 2⟩ }, r0, rest)) := by
    simp only [loadHeader, hloop]
    rfl
  have hm : columnMapping
      { numNodes := ⟨2, 2, 2⟩, coordColumn := ⟨0, 1, 2⟩, dataColumn := 3,
        dataName := some [], sphericalOrder := ⟨0, 1, 2⟩ } = [0, 1, 2, 3] := by rfl
  have hg : gridSize ⟨2, 2, 2⟩ = 8 := by rfl
  have hlines : linesRead 8 r0 rest = r0 :: rest := by
    rw [linesRead_take _ _ _ (by rw [hlen]), List.take_of_length_le (by simp [hlen])]
  have hverts : streamVertices ops (parseRequest none).logScale
      { numNodes := ⟨2, 2, 2⟩, coordColumn := ⟨0, 1, 2⟩, dataColumn := 3,
        dataName := some [], sphericalOrder := ⟨0, 1, 2⟩ } (gridSize ⟨2, 2, 2⟩) r0 rest
      = (r0 :: rest).map (fun l =>
        sphericalVertex ops false
          { numNodes := ⟨2, 2, 2⟩, coordColumn := ⟨0, 1, 2⟩, dataColumn := 3,
            dataName := some [], sphericalOrder := ⟨0, 1, 2⟩ }
          ((rowValues ops 4 l).map some)) := by
    rw [streamVertices_eq_map, hg, hlines]
    apply List.map_congr_left
    intro l _
    rw [hm, parseRow_four]
    rfl
  refine ⟨hhead,
    ⟨⟨2, 2, 2⟩, some [],
      streamVertices ops (parseRequest none).logScale
        { numNodes := ⟨2, 2, 2⟩, coordColumn := ⟨0, 1, 2⟩, dataColumn := 3,
          dataName := some [], sphericalOrder := ⟨0, 1, 2⟩ } (gridSize ⟨2, 2, 2⟩) r0 rest⟩,
    by rw [load_of_header ops hhead]; rfl, rfl, ?_, hverts, ?_⟩
  · simp only [hverts, List.length_map, List.length_cons, hlen]
  · simp only [hverts, List.map_map]
    apply List.map_congr_left
    intro l _
    simp [sphericalVertex, vertexValue, slot, rowValues]

/-- C10 (amended) at a concrete file of eight rows: the load succeeds with 8
vertices whose scalars are the TEMP values 10 .. 17 in file order. -/
theorem roundtrip_2x2x2_witness :
    ∃ g : Grid Sym,
      load symOps "grid.dat".toList none
        ["# NODESX=2 NODESY=2 NODESZ=2\n".toList, "# X-LAT, Y-LON, Z-RADIUS\n".toList,
          "# | X | Y | Z | TEMP |\n".toList,
          "0 0 1 10\n".toList, "0 0 2 11\n".toList, "0 1 1 12\n".toList, "0 1 2 13\n".toList,
          "1 0 1 14\n".toList, "1 0 2 15\n".toList, "1 1 1 16\n".toList, "1 1 2 17\n".toList]
        = some (.ok g) ∧
      g.vertices.length = 8 ∧
      g.vertices.map (fun v => v.value)
        = ["10", "11", "12", "13", "14", "15", "16", "17"].map
            (fun t => some (Sym.toFloat (Sym.num t.toList))) := by
  obtain ⟨_, g, hl, _, hlen, _, hval⟩ :=
    roundtrip_2x2x2 symOps "grid.dat".toList "0 0 1 10\n".toList
      ["0 0 2 11\n".toList, "0 1 1 12\n".toList, "0 1 2 13\n".toList,
        "1 0 1 14\n".toList, "1 0 2 15\n".toList, "1 1 1 16\n".toList, "1 1 2 17\n".toList]
      rfl (by decide)
  exact ⟨g, hl, hlen, hval.trans (by rfl)⟩

/-! ## Routing the values of a row -/

theorem rowValues_get {D F : Type} (ops : FloatOps D F) (n : Nat) :
    ∀ (i : Nat) (cPtr : List Char), i < n → (rowValues ops n cPtr)[i]? = some (rowValue ops i cPtr) := by
  induction n with
  | zero => intro i cPtr h; omega
  | succ n ih =>
    intro i cPtr h
    cases i with
    | zero => simp [rowValues, rowValue]
    | succ i => simp only [rowValues, rowValue, List.getElem?_cons_succ]; exact ih i _ (by omega)

theorem rowValues_length {D F : Type} (ops : FloatOps D F) (n : Nat) :
    ∀ (cPtr : List Char), (rowValues ops n cPtr).length = n := by
  induction n with
  | zero => intro cPtr; rfl
  | succ n ih => intro cPtr; simp [rowValues, ih]

theorem parseRow_length {D F : Type} (ops : FloatOps D F) (ms : List Int) :
    ∀ (cPtr : List Char) (cols : List (Option D)),
    (parseRow ops ms cPtr cols).length = cols.length := by
  induction ms with
  | nil => intro cPtr cols; rfl
  | cons m ms ih =>
    intro cPtr cols
    simp only [parseRow]
    rw [ih]
    split <;> simp

theorem slot_set_ne {D : Type} (cols : List (Option D)) (m j : Int) (v : Option D)
    (hm : 0 ≤ m) (hj : 0 ≤ j) (h : m ≠ j) : slot (cols.set m.toNat v) j = slot cols j := by
  unfold slot
  have : m.toNat ≠ j.toNat := by omega
  simp [List.getElem?_set_ne this]

theorem slot_set_eq {D : Type} (cols : List (Option D)) (j : Int) (v : Option D)
    (hl : j.toNat < cols.length) : slot (cols.set j.toNat v) j = v := by
  unfold slot
  simp [List.getElem?_set, hl]

theorem parseRow_keep {D F : Type} (ops : FloatOps D F) (ms : List Int) (j : Int) (hj : 0 ≤ j) :
    ∀ (cPtr : List Char) (cols : List (Option D)), (∀ m ∈ ms, m ≠ j) →
    slot (parseRow ops ms cPtr cols) j = slot cols j := by
  induction ms with
  | nil => intro cPtr cols _; rfl
  | cons m ms ih =>
    intro cPtr cols h
    simp only [parseRow]
    rw [ih _ _ (fun x hx => h x (List.mem_cons_of_mem _ hx))]
    split
    · next hm => exact slot_set_ne _ _ _ _ hm hj (h m (List.mem_cons_self _ _))
    · rfl

theorem parseRow_slot {D F : Type} (ops : FloatOps D F) (ms : List Int) (j : Int) (hj : 0 ≤ j) :
    ∀ (i : Nat) (cPtr : List Char) (cols : List (Option D)), j.toNat < cols.length →
    ms[i]? = some j → (∀ i2, i < i2 → ms[i2]? ≠ some j) →
    slot (parseRow ops ms cPtr cols) j = some (rowValue ops i cPtr) := by
  induction ms with
  | nil => intro i cPtr cols _ h; simp at h
  | cons m ms ih =>
    intro i cPtr cols hl hi hlast
    cases i with
    | zero =>
      simp only [List.getElem?_cons_zero, Option.some.injEq] at hi
      subst hi
      simp only [parseRow, if_pos hj]
      rw [parseRow_keep ops ms m hj]
      · rw [slot_set_eq _ _ _ hl]; rfl
      · intro x hx hxm
        obtain ⟨k, hk⟩ := List.mem_iff_getElem?.mp hx
        exact hlast (k + 1) (by omega) (by simpa [hxm] using hk)
    | succ i =>
      simp only [List.getElem?_cons_succ] at hi
      simp only [parseRow, rowValue]
      apply ih i
      · split <;> simp [hl]
      · exact hi
      · intro i2 h2
        have := hlast (i2 + 1) (by omega)
        simpa using this

theorem numColumns_gt (st : HeaderState) :
    st.coordColumn.i0 < numColumns st ∧ st.coordColumn.i1 < numColumns st ∧
    st.coordColumn.i2 < numColumns st ∧ st.dataColumn < numColumns st := by
  unfold numColumns
  simp only []
  split <;> split <;> split <;> omega

theorem columnMapping_get (st : HeaderState) (i : Nat) (hi : i < (numColumns st).toNat) :
    (columnMapping st)[i]? =
      if st.dataColumn.toNat = i then some 3
      else if st.coordColumn.i2.toNat = i then some 2
      else if st.coordColumn.i1.toNat = i then some 1
      else if st.coordColumn.i0.toNat = i then some 0
      else some (-1) := by
  unfold columnMapping
  simp only [List.getElem?_set, List.length_set, List.length_replicate, List.getElem?_replicate]
  split
  · next h => rw [if_pos (by omega)]
  · split
    · next h => rw [if_pos (by omega)]
    · split
      · next h => rw [if_pos (by omega)]
      · split
        · next h => rw [if_pos (by omega)]
        · rfl

theorem columnMapping_length (st : HeaderState) :
    (columnMapping st).length = (numColumns st).toNat := by
  simp [columnMapping]

theorem list_four {α : Type} (l : List (Option α)) (a b c d : Option α) (h : l.length = 4)
    (h0 : slot l 0 = a) (h1 : slot l 1 = b) (h2 : slot l 2 = c) (h3 : slot l 3 = d) :
    l = [a, b, c, d] := by
  match l, h with
  | [w, x, y, z], _ =>
    simp [slot] at h0 h1 h2 h3
    simp [h0, h1, h2, h3]

/-- With four different assigned columns, the row loop fills the four slots
with the values read for the X, Y, Z and data columns. -/
theorem parseRow_columns {D F : Type} (ops : FloatOps D F) (st : HeaderState) (l : List Char)
    (ha : columnsAssigned st) (hd : columnsDistinct st) :
    parseRow ops (columnMapping st) l (columnsInit D)
      = [some (rowValue ops st.coordColumn.i0.toNat l), some (rowValue ops st.coordColumn.i1.toNat l),
         some (rowValue ops st.coordColumn.i2.toNat l), some (rowValue ops st.dataColumn.toNat l)] := by
  obtain ⟨a0, a1, a2, a3⟩ := ha
  obtain ⟨d01, d02, d03, d12, d13, d23⟩ := hd
  obtain ⟨g0, g1, g2, g3⟩ := numColumns_gt st
  have key : ∀ (j : Int) (c : Int), 0 ≤ j → j.toNat < 4 → 0 ≤ c → c < numColumns st →
      (columnMapping st)[c.toNat]? = some j →
      (∀ i2, i2 < (numColumns st).toNat → (columnMapping st)[i2]? = some j → i2 = c.toNat) →
      slot (parseRow ops (columnMapping st) l (columnsInit D)) j = some (rowValue ops c.toNat l) := by
    intro j c hj hj4 hc hcn hget huniq
    apply parseRow_slot ops _ j hj c.toNat l _ (by simpa [columnsInit] using hj4) hget
    intro i2 hi2 hcontra
    have hlt : i2 < (numColumns st).toNat := by
      have := (List.getElem?_eq_some_iff.mp hcontra).1
      rwa [columnMapping_length] at this
    have := huniq i2 hlt hcontra
    omega
  apply list_four
  · rw [parseRow_length]; rfl
  · apply key 0 _ (by omega) (by decide) a0 g0
    · rw [columnMapping_get st _ (by omega)]
      rw [if_neg (by omega), if_neg (by omega), if_neg (by omega), if_pos rfl]
    · intro i2 hi2 h
      rw [columnMapping_get st _ hi2] at h
      split at h
      · simp at h
      · split at h
        · simp at h
        · split at h
          · simp at h
          · split at h
            · omega
            · simp at h
  · apply key 1 _ (by omega) (by decide) a1 g1
    · rw [columnMapping_get st _ (by omega)]
      rw [if_neg (by omega), if_neg (by omega), if_pos rfl]
    · intro i2 hi2 h
      rw [columnMapping_get st _ hi2] at h
      split at h
      · simp at h
      · split at h
        · simp at h
        · split at h
          · omega
          · split at h
            · simp at h
            · simp at h
  · apply key 2 _ (by omega) (by decide) a2 g2
    · rw [columnMapping_get st _ (by omega)]
      rw [if_neg (by omega), if_pos rfl]
    · intro i2 hi2 h
      rw [columnMapping_get st _ hi2] at h
      split at h
      · simp at h
      · split at h
        · omega
        · split at h
          · simp at h
          · split at h
            · simp at h
            · simp at h
  · apply key 3 _ (by omega) (by decide) a3 g3
    · rw [columnMapping_get st _ (by omega)]
      rw [if_pos rfl]
    · intro i2 hi2 h
      rw [columnMapping_get st _ hi2] at h
      split at h
      · omega
      · split at h
        · simp at h
        · split at h
          · simp at h
          · split at h
            · simp at h
            · simp at h

theorem fieldEffect_separate (req : Request) (k : Int) (t : List Char) (st : HeaderState)
    (hb : columnsBelow k st) (hs : columnsSeparate st) :
    columnsBelow (k + 1) (fieldEffect req k t st) ∧ columnsSeparate (fieldEffect req k t st) := by
  obtain ⟨b0, b1, b2, b3⟩ := hb
  obtain ⟨s01, s02, s03, s12, s13, s23⟩ := hs
  rw [fieldEffect_eq]
  unfold columnsBelow columnsSeparate
  split
  · simp only [Int3.set, if_true]
    refine ⟨⟨by omega, by omega, by omega, by omega⟩, ?_, ?_, ?_, ?_, ?_, ?_⟩ <;> intro h <;> omega
  · split
    · simp only [Int3.set]
      simp only [show ¬ ((1 : Int) = 0) by decide, if_false, if_true]
      refine ⟨⟨by omega, by omega, by omega, by omega⟩, ?_, ?_, ?_, ?_, ?_, ?_⟩ <;> intro h <;> omega
    · split
      · simp only [Int3.set]
        simp only [show ¬ ((2 : Int) = 0) by decide, show ¬ ((2 : Int) = 1) by decide, if_false,
          if_true]
        refine ⟨⟨by omega, by omega, by omega, by omega⟩, ?_, ?_, ?_, ?_, ?_, ?_⟩ <;> intro h <;> omega
      · split
        · refine ⟨⟨by omega, by omega, by omega, by omega⟩, ?_, ?_, ?_, ?_, ?_, ?_⟩ <;> intro h <;> omega
        · split
          · dsimp only
            refine ⟨⟨by omega, by omega, by omega, by omega⟩, ?_, ?_, ?_, ?_, ?_, ?_⟩ <;>
              intro h <;> omega
          · refine ⟨⟨by omega, by omega, by omega, by omega⟩, ?_, ?_, ?_, ?_, ?_, ?_⟩ <;>
              intro h <;> omega

theorem applyFields_separate (req : Request) (ts : List (List Char)) :
    ∀ (k : Int) (st : HeaderState), columnsBelow k st → columnsSeparate st →
    columnsBelow (k + ts.length) (applyFields req k ts st) ∧
      columnsSeparate (applyFields req k ts st) := by
  induction ts with
  | nil => intro k st hb hs; simpa [applyFields] using ⟨hb, hs⟩
  | cons t ts ih =>
    intro k st hb hs
    obtain ⟨hb1, hs1⟩ := fieldEffect_separate req k t st hb hs
    have := ih (k + 1) (fieldEffect req k t st) hb1 hs1
    simp only [applyFields, List.length_cons]
    have e : k + 1 + (ts.length : Int) = k + ((ts.length + 1 : Nat) : Int) := by push_cast; ring
    rw [← e]
    exact this

theorem headerFold_noncolumn (req : Request) (ls : List (List Char)) :
    ∀ (st st0 : HeaderState), (∀ l ∈ ls, ¬ isColumnDirective l) →
    st.numNodes = st0.numNodes → st.sphericalOrder = st0.sphericalOrder →
    headerFold req st ls
      = { st with numNodes := (headerFold req st0 ls).numNodes
                  sphericalOrder := (headerFold req st0 ls).sphericalOrder } := by
  induction ls with
  | nil => intro st st0 _ h1 h2; simp only [headerFold, List.foldl_nil]; rw [← h1, ← h2]
  | cons l ls ih =>
    intro st st0 h h1 h2
    have hl := h l (List.mem_cons_self _ _)
    have e1 := headerLine_noncolumn req st st0 l hl h1 h2
    simp only [headerFold, List.foldl_cons] at ih ⊢
    rw [ih (headerLine req st l) (headerLine req st0 l)
      (fun x hx => h x (List.mem_cons_of_mem _ hx)) (by rw [e1]) (by rw [e1])]
    rw [e1]

theorem headerFold_append (req : Request) (st : HeaderState) (l1 l2 : List (List Char)) :
    headerFold req st (l1 ++ l2) = headerFold req (headerFold req st l1) l2 := by
  simp [headerFold, List.foldl_append]

theorem headerLoop_fold (req : Request) (hs : List (List Char)) :
    ∀ (line : List Char) (st : HeaderState) (row : List Char) (rows : List (List Char)),
    charAt line 0 = '#' → (∀ h ∈ hs, charAt h 0 = '#') → charAt row 0 ≠ '#' →
    headerLoop req (hs ++ row :: rows) line st
      = some (headerFold req st (line :: hs), row, rows) := by
  induction hs with
  | nil =>
    intro line st row rows h1 _ h3
    rw [List.nil_append, headerLoop_step _ _ _ _ _ h1, headerLoop_stop _ _ _ _ h3]
    rfl
  | cons h hs ih =>
    intro line st row rows h1 h2 h3
    rw [List.cons_append, headerLoop_step _ _ _ _ _ h1,
      ih h _ row rows (h2 h (List.mem_cons_self _ _))
        (fun x hx => h2 x (List.mem_cons_of_mem _ hx)) h3]
    rfl

theorem linesRead_forall₂ {R : List Char → List Char → Prop} (n : Nat) :
    ∀ (a b : List Char) (as bs : List (List Char)), List.Forall₂ R (a :: as) (b :: bs) →
    List.Forall₂ R (linesRead n a as) (linesRead n b bs) := by
  induction n with
  | zero => intro a b as bs _; exact List.Forall₂.nil
  | succ n ih =>
    intro a b as bs h
    cases h with
    | cons hab htl =>
      simp only [linesRead]
      refine List.Forall₂.cons hab ?_
      cases htl with
      | nil => exact ih a b [] [] (List.Forall₂.cons hab List.Forall₂.nil)
      | cons hcd htl2 => exact ih _ _ _ _ (List.Forall₂.cons hcd htl2)

theorem map_eq_of_forall₂ {α β γ : Type} {R : α → β → Prop} {f : α → γ} {g : β → γ}
    {l1 : List α} {l2 : List β} (h : List.Forall₂ R l1 l2) (hfg : ∀ a b, R a b → f a = g b) :
    l1.map f = l2.map g := by
  induction h with
  | nil => rfl
  | cons hab _ ih => simp only [List.map_cons, hfg _ _ hab, ih]

theorem makeVertex_congr {D F : Type} (ops : FloatOps D F) (logScale : Bool)
    (st st2 : HeaderState) (columns : List (Option D))
    (h : st.sphericalOrder = st2.sphericalOrder) :
    makeVertex ops logScale st columns = makeVertex ops logScale st2 columns := by
  simp only [makeVertex, sphericalCoordinates, sphericalVertex, h]

/-- Two files whose headers end in states that agree on dimensions, spherical
roles, display name and validation outcome, and whose rows fill the same
`columns`, load to the same result. -/
theorem load_congr {D F : Type} (ops : FloatOps D F) (args0 : List Char)
    (args1 : Option (List Char)) (firstA firstB : List Char) (restA restB : List (List Char))
    (stA stB : HeaderState) (rA rB : List Char) (rsA rsB : List (List Char))
    (hA : headerLoop (parseRequest args1) restA firstA HeaderState.init = some (stA, rA, rsA))
    (hB : headerLoop (parseRequest args1) restB firstB HeaderState.init = some (stB, rB, rsB))
    (hnum : stA.numNodes = stB.numNodes) (hso : stA.sphericalOrder = stB.sphericalOrder)
    (hname : stA.dataName = stB.dataName)
    (hval : validate args0 args1 (parseRequest args1) stA
      = validate args0 args1 (parseRequest args1) stB)
    (hrows : validate args0 args1 (parseRequest args1) stA = .ok () →
      List.Forall₂ (fun la lb =>
        parseRow ops (columnMapping stA) la (columnsInit D)
          = parseRow ops (columnMapping stB) lb (columnsInit D)) (rA :: rsA) (rB :: rsB)) :
    load ops args0 args1 (firstA :: restA) = load ops args0 args1 (firstB :: restB) := by
  cases hv : validate args0 args1 (parseRequest args1) stA with
  | error e => simp only [load, loadHeader, hA, hB, ← hval, hv]
  | ok u =>
    have hhA : loadHeader args0 args1 (firstA :: restA) = some (.ok (stA, rA, rsA)) := by
      simp only [loadHeader, hA, hv]
    have hhB : loadHeader args0 args1 (firstB :: restB) = some (.ok (stB, rB, rsB)) := by
      simp only [loadHeader, hB, ← hval, hv]
    rw [load_of_header ops hhA, load_of_header ops hhB]
    simp only [streamVertices_eq_map, hnum, hname]
    have hr := linesRead_forall₂ (gridSize stB.numNodes) rA rB rsA rsB (hrows hv)
    have hm := map_eq_of_forall₂
      (f := fun l => makeVertex ops (parseRequest args1).logScale stA
        (parseRow ops (columnMapping stA) l (columnsInit D)))
      (g := fun l => makeVertex ops (parseRequest args1).logScale stB
        (parseRow ops (columnMapping stB) l (columnsInit D))) hr
      (fun la lb hab => by
        show makeVertex ops _ stA _ = makeVertex ops _ stB _
        rw [hab]; exact makeVertex_congr ops _ stA stB _ hso)
    rw [hm]

/-! ## Files with one column line -/

theorem headerFold_cons (req : Request) (st : HeaderState) (l : List Char)
    (ls : List (List Char)) :
    headerFold req st (l :: ls) = headerFold req (headerLine req st l) ls := rfl

/-- The state after a header whose only column directive is a line of
well-formed fields: the column roles come from that line alone, applied to
unset roles; dimensions and spherical roles come from the other lines. -/
theorem headerFold_single_column (req : Request) (pre post : List (List Char))
    (lead : List Char) (fs : List ColumnField) (tail : List Char)
    (hpre : ∀ l ∈ pre, ¬ isColumnDirective l) (hpost : ∀ l ∈ post, ¬ isColumnDirective l)
    (hl : isLead lead) (hwf : ∀ f ∈ fs, f.wf) (hc : isClosing tail) :
    ∃ S : HeaderState, S.coordColumn = ⟨-1, -1, -1⟩ ∧ S.dataColumn = -1 ∧
      headerFold req HeaderState.init (pre ++ columnLine lead fs tail :: post)
        = { applyFields req 0 (seenTexts fs tail) S with
            numNodes := (headerFold req HeaderState.init (pre ++ post)).numNodes
            sphericalOrder := (headerFold req HeaderState.init (pre ++ post)).sphericalOrder } := by
  refine ⟨headerFold req HeaderState.init pre, ?_, ?_, ?_⟩
  · rw [headerFold_noncolumn req pre HeaderState.init HeaderState.init hpre rfl rfl]; rfl
  · rw [headerFold_noncolumn req pre HeaderState.init HeaderState.init hpre rfl rfl]; rfl
  · rw [headerFold_append, headerFold_cons, headerLine_columnLine req _ lead fs tail hl hwf hc,
      headerFold_append]
    have hf := applyFields_frame req (seenTexts fs tail) 0 (headerFold req HeaderState.init pre)
    rw [headerFold_noncolumn req post _ (headerFold req HeaderState.init pre) hpost hf.1 hf.2]

theorem validate_congr (args0 : List Char) (args1 : Option (List Char)) (req : Request)
    (st st2 : HeaderState) (hn : st.numNodes = st2.numNodes)
    (h0 : 0 ≤ st.coordColumn.i0 ↔ 0 ≤ st2.coordColumn.i0)
    (h1 : 0 ≤ st.coordColumn.i1 ↔ 0 ≤ st2.coordColumn.i1)
    (h2 : 0 ≤ st.coordColumn.i2 ↔ 0 ≤ st2.coordColumn.i2)
    (h3 : 0 ≤ st.dataColumn ↔ 0 ≤ st2.dataColumn) :
    validate args0 args1 req st = validate args0 args1 req st2 := by
  have hd : st.dataColumn < 0 ↔ st2.dataColumn < 0 := by omega
  unfold validate dimsAndCoordsRead
  simp only [hn, h0, h1, h2, hd]

theorem validate_ok_assigned {args0 : List Char} {args1 : Option (List Char)} {req : Request}
    {st : HeaderState} (h : validate args0 args1 req st = .ok ()) : columnsAssigned st := by
  unfold validate dimsAndCoordsRead at h
  split at h
  · split at h <;> cases h
  · next hd =>
    split at h
    · next hc =>
      simp only [Bool.and_eq_true, decide_eq_true_eq] at hc
      exact ⟨hc.1.1.2, hc.1.2, hc.2, by omega⟩
    · cases h

theorem distinct_of_separate {st : HeaderState} (ha : columnsAssigned st)
    (hs : columnsSeparate st) : columnsDistinct st := by
  obtain ⟨a0, a1, a2, a3⟩ := ha
  obtain ⟨s01, s02, s03, s12, s13, s23⟩ := hs
  refine ⟨?_, ?_, ?_, ?_, ?_, ?_⟩ <;> intro h
  · have := s01 h; omega
  · have := s02 h; omega
  · have := s03 h; omega
  · have := s12 h; omega
  · have := s13 h; omega
  · have := s23 h; omega

theorem headerLoop_file (req : Request) (hs : List (List Char)) (hne : hs ≠ [])
    (hall : ∀ h ∈ hs, charAt h 0 = '#') (row : List Char) (rows : List (List Char))
    (hrow : charAt row 0 ≠ '#') :
    ∃ first rest, hs ++ row :: rows = first :: rest ∧
      headerLoop req rest first HeaderState.init
        = some (headerFold req HeaderState.init hs, row, rows) := by
  cases hs with
  | nil => exact absurd rfl hne
  | cons h hs =>
    exact ⟨h, hs ++ row :: rows, rfl,
      headerLoop_fold req hs h _ row rows (hall h (List.mem_cons_self _ _))
        (fun x hx => hall x (List.mem_cons_of_mem _ hx)) hrow⟩

theorem perm_split {α : Type} {fs : List α} {f : α} (l1 l2 : List α)
    (h : fs.Perm (l1 ++ f :: l2)) :
    ∃ m1 m2, fs = m1 ++ f :: m2 ∧ (m1 ++ m2).Perm (l1 ++ l2) := by
  have hm : f ∈ fs := h.symm.subset (by simp)
  obtain ⟨m1, m2, rfl⟩ := List.append_of_mem hm
  exact ⟨m1, m2, rfl, (List.perm_middle.symm.trans (h.trans List.perm_middle)).cons_inv⟩

theorem seenTexts_split (fa : List ColumnField) (f : ColumnField) (fb : List ColumnField)
    (tail : List Char) :
    seenTexts (fa ++ f :: fb) tail
      = fa.map ColumnField.text ++ f.text
        :: (fb.map ColumnField.text ++ (if tail = [] then [] else [[]])) := by
  simp [seenTexts]

theorem empty_not_axis (a : Nat) : ¬ namesIgnoreCase (axisName a) [] := by
  intro hn
  have := congrArg List.length hn
  rcases a with _ | _ | a <;> simp [axisName] at this

theorem applyFields_seen_coord (req : Request) (st : HeaderState) (a : Nat) (ha : a < 3)
    (fa : List ColumnField) (f : ColumnField) (fb : List ColumnField) (tail : List Char)
    (hname : namesIgnoreCase (axisName a) f.text)
    (hlast : ∀ g ∈ fb, ¬ namesIgnoreCase (axisName a) g.text) :
    (applyFields req 0 (seenTexts (fa ++ f :: fb) tail) st).coordColumn.get a = fa.length := by
  rw [seenTexts_split, applyFields_coord_last req a ha _ _ _ 0 st hname]
  · simp
  · intro x hx
    rcases List.mem_append.mp hx with h | h
    · obtain ⟨g, hg, rfl⟩ := List.mem_map.mp h
      exact hlast g hg
    · split at h
      · simp at h
      · have : x = [] := by simpa using h
        subst this
        exact empty_not_axis a

theorem applyFields_seen_data (req : Request) (st : HeaderState)
    (fa : List ColumnField) (f : ColumnField) (fb : List ColumnField) (tail : List Char)
    (hd : st.dataColumn < 0) (hcand : isCandidate req f.text)
    (hfirst : ∀ g ∈ fa, ¬ isCandidate req g.text) :
    (applyFields req 0 (seenTexts (fa ++ f :: fb) tail) st).dataColumn = fa.length ∧
    (applyFields req 0 (seenTexts (fa ++ f :: fb) tail) st).dataName
      = some (displayName req f.text) := by
  rw [seenTexts_split]
  have := applyFields_data_first req (fa.map ColumnField.text) f.text
    (fb.map ColumnField.text ++ (if tail = [] then [] else [[]])) 0 st (le_refl _) hd
    (by
      intro x hx
      obtain ⟨g, hg, rfl⟩ := List.mem_map.mp hx
      exact hfirst g hg) hcand
  rw [this.1, this.2]
  simp

theorem getElem?_middle {α : Type} (l1 : List α) (a : α) (l2 : List α) :
    (l1 ++ a :: l2)[l1.length]? = some a := by
  rw [List.getElem?_append_right (le_refl _)]; simp

theorem fresh_separate {S : HeaderState} (h1 : S.coordColumn = ⟨-1, -1, -1⟩)
    (h2 : S.dataColumn = -1) : columnsBelow 0 S ∧ columnsSeparate S := by
  unfold columnsBelow columnsSeparate
  rw [h1, h2]
  refine ⟨⟨by decide, by decide, by decide, by decide⟩, ?_, ?_, ?_, ?_, ?_, ?_⟩ <;>
    intro _ <;> decide

/-- The state after a header whose one column line lists, in any order, a
field for X, one for Y, one for Z and one data field. -/
theorem four_columns_state (req : Request) (pre post : List (List Char))
    (lead : List Char) (fs : List ColumnField) (tail : List Char) (fX fY fZ fV : ColumnField)
    (hpre : ∀ l ∈ pre, ¬ isColumnDirective l) (hpost : ∀ l ∈ post, ¬ isColumnDirective l)
    (hl : isLead lead) (hc : isClosing tail)
    (hperm : fs.Perm [fX, fY, fZ, fV])
    (hwf : fX.wf ∧ fY.wf ∧ fZ.wf ∧ fV.wf)
    (hX : namesIgnoreCase "X".toList fX.text) (hY : namesIgnoreCase "Y".toList fY.text)
    (hZ : namesIgnoreCase "Z".toList fZ.text) (hV : isCandidate req fV.text) :
    ∃ (st : HeaderState) (iX iY iZ iV : Nat),
      headerFold req HeaderState.init (pre ++ columnLine lead fs tail :: post) = st ∧
      st.numNodes = (headerFold req HeaderState.init (pre ++ post)).numNodes ∧
      st.sphericalOrder = (headerFold req HeaderState.init (pre ++ post)).sphericalOrder ∧
      st.dataName = some (displayName req fV.text) ∧
      st.coordColumn = ⟨iX, iY, iZ⟩ ∧ st.dataColumn = iV ∧
      fs[iX]? = some fX ∧ fs[iY]? = some fY ∧ fs[iZ]? = some fZ ∧ fs[iV]? = some fV ∧
      columnsDistinct st := by
  have hwfs : ∀ f ∈ fs, f.wf := by
    intro f hf
    have := hperm.subset hf
    simp only [List.mem_cons, List.mem_singleton, List.not_mem_nil, or_false] at this
    rcases this with rfl | rfl | rfl | rfl
    · exact hwf.1
    · exact hwf.2.1
    · exact hwf.2.2.1
    · exact hwf.2.2.2
  obtain ⟨S, hS1, hS2, hfold⟩ :=
    headerFold_single_column req pre post lead fs tail hpre hpost hl hwfs hc
  have hX0 : namesIgnoreCase (axisName 0) fX.text := hX
  have hY1 : namesIgnoreCase (axisName 1) fY.text := hY
  have hZ2 : namesIgnoreCase (axisName 2) fZ.text := hZ
  have nVX : ¬ namesIgnoreCase (axisName 0) fV.text := hV.1
  have nVY : ¬ namesIgnoreCase (axisName 1) fV.text := hV.2.1
  have nVZ : ¬ namesIgnoreCase (axisName 2) fV.text := hV.2.2.1
  have ncX : ¬ isCandidate req fX.text := fun h => h.1 hX
  have ncY : ¬ isCandidate req fY.text := fun h => h.2.1 hY
  have ncZ : ¬ isCandidate req fZ.text := fun h => h.2.2.1 hZ
  obtain ⟨x1, x2, hfx, hpx⟩ := perm_split (f := fX) [] [fY, fZ, fV] hperm
  obtain ⟨y1, y2, hfy, hpy⟩ := perm_split (f := fY) [fX] [fZ, fV] hperm
  obtain ⟨z1, z2, hfz, hpz⟩ := perm_split (f := fZ) [fX, fY] [fV] hperm
  obtain ⟨v1, v2, hfv, hpv⟩ := perm_split (f := fV) [fX, fY, fZ] [] hperm
  have cX : (applyFields req 0 (seenTexts fs tail) S).coordColumn.get 0 = x1.length := by
    rw [hfx]
    apply applyFields_seen_coord req S 0 (by omega) x1 fX x2 tail hX0
    intro g hg
    have := hpx.subset (List.mem_append_right _ hg)
    simp only [List.nil_append, List.mem_cons, List.mem_singleton, List.not_mem_nil,
      or_false] at this
    rcases this with rfl | rfl | rfl
    · exact fun h => axisName_excl (a := 0) (b := 1) (by omega) (by omega) (by omega) h hY1
    · exact fun h => axisName_excl (a := 0) (b := 2) (by omega) (by omega) (by omega) h hZ2
    · exact nVX
  have cY : (applyFields req 0 (seenTexts fs tail) S).coordColumn.get 1 = y1.length := by
    rw [hfy]
    apply applyFields_seen_coord req S 1 (by omega) y1 fY y2 tail hY1
    intro g hg
    have := hpy.subset (List.mem_append_right _ hg)
    simp only [List.cons_append, List.nil_append, List.mem_cons, List.mem_singleton,
      List.not_mem_nil, or_false] at this
    rcases this with rfl | rfl | rfl
    · exact fun h => axisName_excl (a := 1) (b := 0) (by omega) (by omega) (by omega) h hX0
    · exact fun h => axisName_excl (a := 1) (b := 2) (by omega) (by omega) (by omega) h hZ2
    · exact nVY
  have cZ : (applyFields req 0 (seenTexts fs tail) S).coordColumn.get 2 = z1.length := by
    rw [hfz]
    apply applyFields_seen_coord req S 2 (by omega) z1 fZ z2 tail hZ2
    intro g hg
    have := hpz.subset (List.mem_append_right _ hg)
    simp only [List.cons_append, List.nil_append, List.mem_cons, List.mem_singleton,
      List.not_mem_nil, or_false] at this
    rcases this with rfl | rfl | rfl
    · exact fun h => axisName_excl (a := 2) (b := 0) (by omega) (by omega) (by omega) h hX0
    · exact fun h => axisName_excl (a := 2) (b := 1) (by omega) (by omega) (by omega) h hY1
    · exact nVZ
  have cV : (applyFields req 0 (seenTexts fs tail) S).dataColumn = v1.length ∧
      (applyFields req 0 (seenTexts fs tail) S).dataName = some (displayName req fV.text) := by
    rw [hfv]
    apply applyFields_seen_data req S v1 fV v2 tail (by rw [hS2]; decide) hV
    intro g hg
    have := hpv.subset (List.mem_append_left _ hg)
    simp only [List.cons_append, List.nil_append, List.mem_cons, List.mem_singleton,
      List.not_mem_nil, or_false, List.append_nil] at this
    rcases this with rfl | rfl | rfl
    · exact ncX
    · exact ncY
    · exact ncZ
  have hsep := (applyFields_separate req (seenTexts fs tail) 0 S
    (fresh_separate hS1 hS2).1 (fresh_separate hS1 hS2).2).2
  have hcc : (applyFields req 0 (seenTexts fs tail) S).coordColumn
      = ⟨x1.length, y1.length, z1.length⟩ := Int3.ext_get cX cY cZ
  refine ⟨_, x1.length, y1.length, z1.length, v1.length, hfold, rfl, rfl, cV.2, hcc, cV.1,
    by rw [hfx]; exact getElem?_middle _ _ _, by rw [hfy]; exact getElem?_middle _ _ _,
    by rw [hfz]; exact getElem?_middle _ _ _, by rw [hfv]; exact getElem?_middle _ _ _, ?_⟩
  apply distinct_of_separate
  · unfold columnsAssigned
    dsimp only
    rw [hcc, cV.1]
    exact ⟨Int.natCast_nonneg _, Int.natCast_nonneg _, Int.natCast_nonneg _,
      Int.natCast_nonneg _⟩
  · exact hsep

theorem rowValue_of_values {D F : Type} (ops : FloatOps D F) (n : Nat) (l : List Char)
    {α : Type} (fs : List α) (v : α → D) (i : Nat) (f : α)
    (hv : rowValues ops n l = fs.map v) (hi : fs[i]? = some f) :
    rowValue ops i l = v f := by
  have hlen : fs.length = n := by
    have := congrArg List.length hv
    rw [rowValues_length, List.length_map] at this
    exact this.symm
  have hlt : i < n := by
    rw [← hlen]; exact (List.getElem?_eq_some_iff.mp hi).1
  have h1 := rowValues_get ops n i l hlt
  rw [hv, List.getElem?_map, hi] at h1
  simpa using h1.symm

theorem four_columns_row {D F : Type} (ops : FloatOps D F) (st : HeaderState)
    (fs : List ColumnField) (fX fY fZ fV : ColumnField) (iX iY iZ iV : Nat) (l : List Char)
    (v : ColumnField → D)
    (hcc : st.coordColumn = ⟨iX, iY, iZ⟩) (hdc : st.dataColumn = iV)
    (hX : fs[iX]? = some fX) (hY : fs[iY]? = some fY) (hZ : fs[iZ]? = some fZ)
    (hV : fs[iV]? = some fV) (hd : columnsDistinct st)
    (hv : rowValues ops 4 l = fs.map v) :
    parseRow ops (columnMapping st) l (columnsInit D)
      = [some (v fX), some (v fY), some (v fZ), some (v fV)] := by
  have ha : columnsAssigned st := by
    unfold columnsAssigned
    rw [hcc, hdc]
    exact ⟨Int.natCast_nonneg _, Int.natCast_nonneg _, Int.natCast_nonneg _,
      Int.natCast_nonneg _⟩
  rw [parseRow_columns ops st l ha hd, hcc, hdc]
  simp only [Int.toNat_ofNat]
  rw [rowValue_of_values ops 4 l fs v iX fX hv hX, rowValue_of_values ops 4 l fs v iY fY hv hY,
    rowValue_of_values ops 4 l fs v iZ fZ hv hZ, rowValue_of_values ops 4 l fs v iV fV hv hV]

/-- C8: two files with the same header lines around one column line and
matching data rows, the first listing the four columns X, Y, Z and the data
column V in any order with every row in that same order, the second in the
canonical order `| X | Y | Z | V |`, fill the same X, Y, Z, DATA slots for
every row and load to the same result. -/
theorem column_order_independent {D F : Type} (ops : FloatOps D F) (args0 : List Char)
    (args1 : Option (List Char)) (pre post : List (List Char))
    (leadA tailA leadB tailB : List Char) (fsA : List ColumnField)
    (fX fY fZ fV : ColumnField) (rA rB : List Char) (rsA rsB : List (List Char))
    (hpre : ∀ l ∈ pre, charAt l 0 = '#' ∧ ¬ isColumnDirective l)
    (hpost : ∀ l ∈ post, charAt l 0 = '#' ∧ ¬ isColumnDirective l)
    (hlA : isLead leadA) (hcA : isClosing tailA) (hlB : isLead leadB) (hcB : isClosing tailB)
    (hperm : fsA.Perm [fX, fY, fZ, fV])
    (hwf : fX.wf ∧ fY.wf ∧ fZ.wf ∧ fV.wf)
    (hX : namesIgnoreCase "X".toList fX.text) (hY : namesIgnoreCase "Y".toList fY.text)
    (hZ : namesIgnoreCase "Z".toList fZ.text)
    (hV : isCandidate (parseRequest args1) fV.text)
    (hrA : charAt rA 0 ≠ '#') (hrB : charAt rB 0 ≠ '#')
    (hrows : List.Forall₂
      (fun la lb => ∃ v : ColumnField → D,
        rowValues ops 4 la = fsA.map v ∧ rowValues ops 4 lb = [fX, fY, fZ, fV].map v)
      (rA :: rsA) (rB :: rsB)) :
    List.Forall₂
      (fun la lb =>
        parseRow ops (columnMapping (headerFold (parseRequest args1) HeaderState.init
            (pre ++ columnLine leadA fsA tailA :: post))) la (columnsInit D)
          = parseRow ops (columnMapping (headerFold (parseRequest args1) HeaderState.init
            (pre ++ columnLine leadB [fX, fY, fZ, fV] tailB :: post))) lb (columnsInit D))
      (rA :: rsA) (rB :: rsB) ∧
    load ops args0 args1 (pre ++ columnLine leadA fsA tailA :: post ++ rA :: rsA)
      = load ops args0 args1
          (pre ++ columnLine leadB [fX, fY, fZ, fV] tailB :: post ++ rB :: rsB) := by
  obtain ⟨stA, aX, aY, aZ, aV, hfA, hnA, hsA, hdA, hccA, hdcA, hAX, hAY, hAZ, hAV, hdistA⟩ :=
    four_columns_state (parseRequest args1) pre post leadA fsA tailA fX fY fZ fV
      (fun l hl => (hpre l hl).2) (fun l hl => (hpost l hl).2) hlA hcA hperm hwf hX hY hZ hV
  obtain ⟨stB, bX, bY, bZ, bV, hfB, hnB, hsB, hdB, hccB, hdcB, hBX, hBY, hBZ, hBV, hdistB⟩ :=
    four_columns_state (parseRequest args1) pre post leadB [fX, fY, fZ, fV] tailB fX fY fZ fV
      (fun l hl => (hpre l hl).2) (fun l hl => (hpost l hl).2) hlB hcB (List.Perm.refl _)
      hwf hX hY hZ hV
  have hslots : List.Forall₂
      (fun la lb =>
        parseRow ops (columnMapping stA) la (columnsInit D)
          = parseRow ops (columnMapping stB) lb (columnsInit D))
      (rA :: rsA) (rB :: rsB) := by
    refine List.Forall₂.imp ?_ hrows
    rintro la lb ⟨v, hva, hvb⟩
    rw [four_columns_row ops stA fsA fX fY fZ fV aX aY aZ aV la v hccA hdcA hAX hAY hAZ hAV
        hdistA hva,
      four_columns_row ops stB [fX, fY, fZ, fV] fX fY fZ fV bX bY bZ bV lb v hccB hdcB hBX hBY
        hBZ hBV hdistB hvb]
  have hallA : ∀ h ∈ pre ++ columnLine leadA fsA tailA :: post, charAt h 0 = '#' := by
    intro h hh
    rcases List.mem_append.mp hh with h1 | h1
    · exact (hpre h h1).1
    · rcases List.mem_cons.mp h1 with h2 | h2
      · rw [h2]; rfl
      · exact (hpost h h2).1
  have hallB : ∀ h ∈ pre ++ columnLine leadB [fX, fY, fZ, fV] tailB :: post,
      charAt h 0 = '#' := by
    intro h hh
    rcases List.mem_append.mp hh with h1 | h1
    · exact (hpre h h1).1
    · rcases List.mem_cons.mp h1 with h2 | h2
      · rw [h2]; rfl
      · exact (hpost h h2).1
  obtain ⟨firstA, restA, heA, hloopA⟩ := headerLoop_file (parseRequest args1) _ (by simp) hallA
    rA rsA hrA
  obtain ⟨firstB, restB, heB, hloopB⟩ := headerLoop_file (parseRequest args1) _ (by simp) hallB
    rB rsB hrB
  rw [hfA, hfB]
  refine ⟨hslots, ?_⟩
  rw [heA, heB]
  rw [hfA] at hloopA
  rw [hfB] at hloopB
  apply load_congr ops args0 args1 firstA firstB restA restB stA stB rA rB rsA rsB hloopA hloopB
    (hnA.trans hnB.symm) (hsA.trans hsB.symm) (hdA.trans hdB.symm)
  · apply validate_congr _ _ _ _ _ (hnA.trans hnB.symm)
    · rw [hccA, hccB]; exact ⟨fun _ => Int.natCast_nonneg _, fun _ => Int.natCast_nonneg _⟩
    · rw [hccA, hccB]; exact ⟨fun _ => Int.natCast_nonneg _, fun _ => Int.natCast_nonneg _⟩
    · rw [hccA, hccB]; exact ⟨fun _ => Int.natCast_nonneg _, fun _ => Int.natCast_nonneg _⟩
    · rw [hdcA, hdcB]; exact ⟨fun _ => Int.natCast_nonneg _, fun _ => Int.natCast_nonneg _⟩
  · intro _; exact hslots

/-! ## NODE columns -/

theorem fieldEffect_shift (req : Request) (k0 k : Int) (t : List Char) (st st2 : HeaderState)
    (h0 : 0 ≤ k0) (hk : k0 ≤ k) (h : columnsShifted k0 st st2) :
    columnsShifted k0 (fieldEffect req k t st) (fieldEffect req (k + 1) t st2) := by
  obtain ⟨e1, e2, e3, e4, e5, e6, e7⟩ := h
  have hkk : shiftIndex k0 k = k + 1 := by unfold shiftIndex; rw [if_pos hk]
  have hd : st2.dataColumn < 0 ↔ st.dataColumn < 0 := by
    rw [e7]; unfold shiftIndex; split <;> omega
  rw [fieldEffect_eq, fieldEffect_eq]
  unfold columnsShifted
  split
  · dsimp only [Int3.set]
    simp only [if_true]
    exact ⟨e1, e2, e3, hkk.symm, e5, e6, e7⟩
  · split
    · dsimp only [Int3.set]
      simp only [show ¬ ((1 : Int) = 0) by decide, if_false, if_true]
      exact ⟨e1, e2, e3, e4, hkk.symm, e6, e7⟩
    · split
      · dsimp only [Int3.set]
        simp only [show ¬ ((2 : Int) = 0) by decide, show ¬ ((2 : Int) = 1) by decide, if_false,
          if_true]
        exact ⟨e1, e2, e3, e4, e5, hkk.symm, e7⟩
      · split
        · exact ⟨e1, e2, e3, e4, e5, e6, e7⟩
        · by_cases hc : st.dataColumn < 0 ∧ requestAdmits req t
          · rw [if_pos hc, if_pos ⟨hd.mpr hc.1, hc.2⟩]
            exact ⟨e1, e2, rfl, e4, e5, e6, hkk.symm⟩
          · rw [if_neg hc, if_neg (fun h => hc ⟨hd.mp h.1, h.2⟩)]
            exact ⟨e1, e2, e3, e4, e5, e6, e7⟩

theorem applyFields_shift (req : Request) (k0 : Int) (h0 : 0 ≤ k0) (ts : List (List Char)) :
    ∀ (k : Int) (st st2 : HeaderState), k0 ≤ k → columnsShifted k0 st st2 →
    columnsShifted k0 (applyFields req k ts st) (applyFields req (k + 1) ts st2) := by
  induction ts with
  | nil => intro k st st2 _ h; exact h
  | cons t ts ih =>
    intro k st st2 hk h
    simp only [applyFields]
    exact ih (k + 1) _ _ (by omega) (fieldEffect_shift req k0 k t st st2 h0 hk h)

theorem shifted_self {k0 : Int} {st : HeaderState} (h : columnsBelow k0 st) :
    columnsShifted k0 st st := by
  obtain ⟨b0, b1, b2, b3⟩ := h
  unfold columnsShifted shiftIndex
  refine ⟨rfl, rfl, rfl, ?_, ?_, ?_, ?_⟩ <;> rw [if_neg (by omega)]

theorem fieldEffect_node (req : Request) (k : Int) (t : List Char) (st : HeaderState)
    (h : namesIgnoreCase "NODE".toList t) : fieldEffect req k t st = st := by
  have hX : ¬ namesIgnoreCase "X".toList t := fun hx => axisName_not_node (a := 0) hx h
  have hY : ¬ namesIgnoreCase "Y".toList t := fun hx => axisName_not_node (a := 1) hx h
  have hZ : ¬ namesIgnoreCase "Z".toList t := fun hx => axisName_not_node (a := 2) hx h
  rw [fieldEffect_eq, if_neg hX, if_neg hY, if_neg hZ, if_pos h]

/-- Putting a NODE field into a column line shifts the column indices behind
it by one and changes nothing else. -/
theorem applyFields_insert_node (req : Request) (S : HeaderState)
    (fa fb : List ColumnField) (fN : ColumnField) (tail : List Char)
    (hb : columnsBelow 0 S) (hs : columnsSeparate S)
    (hN : namesIgnoreCase "NODE".toList fN.text) :
    columnsShifted fa.length (applyFields req 0 (seenTexts (fa ++ fb) tail) S)
      (applyFields req 0 (seenTexts (fa ++ fN :: fb) tail) S) := by
  have e1 : seenTexts (fa ++ fb) tail
      = fa.map ColumnField.text ++ (fb.map ColumnField.text ++ (if tail = [] then [] else [[]])) := by
    simp [seenTexts]
  rw [e1, seenTexts_split]
  generalize fb.map ColumnField.text ++ (if tail = [] then [] else [[]]) = tb
  rw [applyFields_append req _ 0 tb, applyFields_append req _ 0 (fN.text :: tb)]
  simp only [applyFields, List.length_map, Int.zero_add]
  rw [fieldEffect_node req _ _ _ hN]
  apply applyFields_shift req _ (Int.natCast_nonneg _) _ _ _ _ (le_refl _)
  apply shifted_self
  have := (applyFields_separate req (fa.map ColumnField.text) 0 S hb hs).1
  simpa using this

theorem headerFold_pre_fresh (req : Request) (pre : List (List Char))
    (hpre : ∀ l ∈ pre, ¬ isColumnDirective l) :
    (headerFold req HeaderState.init pre).coordColumn = ⟨-1, -1, -1⟩ ∧
      (headerFold req HeaderState.init pre).dataColumn = -1 := by
  rw [headerFold_noncolumn req pre HeaderState.init HeaderState.init hpre rfl rfl]
  exact ⟨rfl, rfl⟩

theorem headerFold_column_explicit (req : Request) (pre post : List (List Char))
    (lead : List Char) (fs : List ColumnField) (tail : List Char)
    (hpost : ∀ l ∈ post, ¬ isColumnDirective l)
    (hl : isLead lead) (hwf : ∀ f ∈ fs, f.wf) (hc : isClosing tail) :
    headerFold req HeaderState.init (pre ++ columnLine lead fs tail :: post)
      = { applyFields req 0 (seenTexts fs tail) (headerFold req HeaderState.init pre) with
          numNodes := (headerFold req HeaderState.init (pre ++ post)).numNodes
          sphericalOrder := (headerFold req HeaderState.init (pre ++ post)).sphericalOrder } := by
  rw [headerFold_append, headerFold_cons, headerLine_columnLine req _ lead fs tail hl hwf hc,
    headerFold_append]
  have hf := applyFields_frame req (seenTexts fs tail) 0 (headerFold req HeaderState.init pre)
  rw [headerFold_noncolumn req post _ (headerFold req HeaderState.init pre) hpost hf.1 hf.2]

theorem shifted_rowValue {D F : Type} (ops : FloatOps D F) (k0 n : Nat) (c c2 : Int)
    (l l2 : List Char) (hc : 0 ≤ c) (hn : c < n + 1) (h2 : c2 = shiftIndex k0 c)
    (hrow : ∀ i, i ≤ n → rowValue ops (if k0 ≤ i then i + 1 else i) l2 = rowValue ops i l) :
    rowValue ops c2.toNat l2 = rowValue ops c.toNat l := by
  rw [← hrow c.toNat (by omega)]
  congr 1
  rw [h2]
  unfold shiftIndex
  split <;> split <;> omega

theorem seenTexts_length_le (fs : List ColumnField) (tail : List Char) :
    (seenTexts fs tail).length ≤ fs.length + 1 := by
  unfold seenTexts
  split <;> simp

/-- C9: a field that is exactly NODE (any letter case) leaves the parse state
as it is, whatever the request and the state, so it never becomes a coordinate
column or the data column; and a file with a NODE field put into its column
line at any position, with some value at that position of every data row,
loads to the same result as the file without it. -/
theorem node_column_ignored {D F : Type} (ops : FloatOps D F) (args0 : List Char)
    (args1 : Option (List Char)) (pre post : List (List Char)) (lead tail : List Char)
    (fa fb : List ColumnField) (fN : ColumnField) (r r2 : List Char) (rs rs2 : List (List Char))
    (hpre : ∀ l ∈ pre, charAt l 0 = '#' ∧ ¬ isColumnDirective l)
    (hpost : ∀ l ∈ post, charAt l 0 = '#' ∧ ¬ isColumnDirective l)
    (hl : isLead lead) (hc : isClosing tail)
    (hwf : ∀ f ∈ fa ++ fb, f.wf) (hNwf : fN.wf)
    (hN : namesIgnoreCase "NODE".toList fN.text)
    (hr : charAt r 0 ≠ '#') (hr2 : charAt r2 0 ≠ '#')
    (hrows : List.Forall₂
      (fun l2 l => ∀ i, i ≤ (fa ++ fb).length →
        rowValue ops (if fa.length ≤ i then i + 1 else i) l2 = rowValue ops i l)
      (r2 :: rs2) (r :: rs)) :
    (∀ (req : Request) (k : Int) (rest : List Char) (st : HeaderState),
      (∀ c, rest.head? = some c → isspace c = false) →
      columnBody req k ('|' :: (fN.pre ++ (fN.text ++ (fN.post ++ rest)))) st = (st, rest)) ∧
    load ops args0 args1 (pre ++ columnLine lead (fa ++ fN :: fb) tail :: post ++ r2 :: rs2)
      = load ops args0 args1 (pre ++ columnLine lead (fa ++ fb) tail :: post ++ r :: rs) := by
  constructor
  · intro req k rest st hrest
    rw [columnBody_field req k fN rest st hNwf hrest, fieldEffect_node req k _ st hN]
  have hwf2 : ∀ f ∈ fa ++ fN :: fb, f.wf := by
    intro f hf
    rcases List.mem_append.mp hf with h | h
    · exact hwf f (List.mem_append_left _ h)
    · rcases List.mem_cons.mp h with h | h
      · rw [h]; exact hNwf
      · exact hwf f (List.mem_append_right _ h)
  have hpre2 : ∀ l ∈ pre, ¬ isColumnDirective l := fun l h => (hpre l h).2
  have hpost2 : ∀ l ∈ post, ¬ isColumnDirective l := fun l h => (hpost l h).2
  obtain ⟨hS1, hS2⟩ := headerFold_pre_fresh (parseRequest args1) pre hpre2
  obtain ⟨hbel, hsep⟩ := fresh_separate hS1 hS2
  have hF := headerFold_column_explicit (parseRequest args1) pre post lead (fa ++ fb) tail
    hpost2 hl hwf hc
  have hF2 := headerFold_column_explicit (parseRequest args1) pre post lead (fa ++ fN :: fb) tail
    hpost2 hl hwf2 hc
  have hsh := applyFields_insert_node (parseRequest args1)
    (headerFold (parseRequest args1) HeaderState.init pre) fa fb fN tail hbel hsep hN
  have hsepC := (applyFields_separate (parseRequest args1) (seenTexts (fa ++ fb) tail) 0 _
    hbel hsep).2
  have hbelC := (applyFields_separate (parseRequest args1) (seenTexts (fa ++ fb) tail) 0 _
    hbel hsep).1
  have hlen := seenTexts_length_le (fa ++ fb) tail
  have hbnd : ∀ c : Int, c < 0 + ((seenTexts (fa ++ fb) tail).length : Int) →
      c < ((fa ++ fb).length : Nat) + 1 := by
    intro c h; omega
  have hsepC2 := (applyFields_separate (parseRequest args1) (seenTexts (fa ++ fN :: fb) tail) 0 _
    hbel hsep).2
  obtain ⟨_, _, e3, e4, e5, e6, e7⟩ := hsh
  have hall : ∀ (fs : List ColumnField), ∀ h ∈ pre ++ columnLine lead fs tail :: post,
      charAt h 0 = '#' := by
    intro fs h hh
    rcases List.mem_append.mp hh with h1 | h1
    · exact (hpre h h1).1
    · rcases List.mem_cons.mp h1 with h2 | h2
      · rw [h2]; rfl
      · exact (hpost h h2).1
  obtain ⟨first, rest, he, hloop⟩ := headerLoop_file (parseRequest args1) _ (by simp)
    (hall (fa ++ fb)) r rs hr
  obtain ⟨first2, rest2, he2, hloop2⟩ := headerLoop_file (parseRequest args1) _ (by simp)
    (hall (fa ++ fN :: fb)) r2 rs2 hr2
  rw [he, he2]
  have hk0 : (0 : Int) ≤ (fa.length : Int) := Int.natCast_nonneg _
  have sgn : ∀ c c2 : Int, c2 = shiftIndex fa.length c → (0 ≤ c2 ↔ 0 ≤ c) := by
    intro c c2 h; rw [h]; unfold shiftIndex; split <;> omega
  apply load_congr ops args0 args1 first2 first rest2 rest _ _ r2 r rs2 rs hloop2 hloop
  · rw [hF2, hF]
  · rw [hF2, hF]
  · rw [hF2, hF]; exact e3
  · apply validate_congr
    · rw [hF2, hF]
    · rw [hF2, hF]; exact sgn _ _ e4
    · rw [hF2, hF]; exact sgn _ _ e5
    · rw [hF2, hF]; exact sgn _ _ e6
    · rw [hF2, hF]; exact sgn _ _ e7
  · intro hv
    have ha2 := validate_ok_assigned hv
    have ha : columnsAssigned (headerFold (parseRequest args1) HeaderState.init
        (pre ++ columnLine lead (fa ++ fb) tail :: post)) := by
      rw [hF2] at ha2
      rw [hF]
      obtain ⟨a0, a1, a2, a3⟩ := ha2
      exact ⟨(sgn _ _ e4).mp a0, (sgn _ _ e5).mp a1, (sgn _ _ e6).mp a2, (sgn _ _ e7).mp a3⟩
    have hd2 : columnsDistinct (headerFold (parseRequest args1) HeaderState.init
        (pre ++ columnLine lead (fa ++ fN :: fb) tail :: post)) := by
      apply distinct_of_separate ha2
      rw [hF2]; exact hsepC2
    have hd : columnsDistinct (headerFold (parseRequest args1) HeaderState.init
        (pre ++ columnLine lead (fa ++ fb) tail :: post)) := by
      apply distinct_of_separate ha
      rw [hF]; exact hsepC
    refine List.Forall₂.imp ?_ hrows
    intro l2 l hrel
    rw [parseRow_columns ops _ l2 ha2 hd2, parseRow_columns ops _ l ha hd]
    obtain ⟨a0, a1, a2, a3⟩ := ha
    obtain ⟨b0, b1, b2, b3⟩ := hbelC
    rw [shifted_rowValue ops fa.length (fa ++ fb).length _ _ l l2 a0
        (by rw [hF]; exact hbnd _ b0) (by rw [hF2, hF]; exact e4) hrel,
      shifted_rowValue ops fa.length (fa ++ fb).length _ _ l l2 a1
        (by rw [hF]; exact hbnd _ b1) (by rw [hF2, hF]; exact e5) hrel,
      shifted_rowValue ops fa.length (fa ++ fb).length _ _ l l2 a2
        (by rw [hF]; exact hbnd _ b2) (by rw [hF2, hF]; exact e6) hrel,
      shifted_rowValue ops fa.length (fa ++ fb).length _ _ l l2 a3
        (by rw [hF]; exact hbnd _ b3) (by rw [hF2, hF]; exact e7) hrel]

/-! ## Order independence and NODE columns on concrete files -/

/-- C8 at the header `| TEMP | X | Y | Z |` with rows `4 1 2 3`, `8 5 6 7`
against the canonical `| X | Y | Z | TEMP |` with rows `1 2 3 4`, `5 6 7 8`:
the two files load to the same result. -/
theorem column_order_independent_witness :
    load symOps "grid.dat".toList none
        ["# NODESX=1 NODESY=1 NODESZ=2\n".toList, "# | TEMP | X | Y | Z |\n".toList,
          "4 1 2 3\n".toList, "8 5 6 7\n".toList]
      = load symOps "grid.dat".toList none
        ["# NODESX=1 NODESY=1 NODESZ=2\n".toList, "# | X | Y | Z | TEMP |\n".toList,
          "1 2 3 4\n".toList, "5 6 7 8\n".toList] :=
  (column_order_independent symOps "grid.dat".toList none
    ["# NODESX=1 NODESY=1 NODESZ=2\n".toList] [] [' '] "|\n".toList [' '] "|\n".toList
    [⟨[' '], "TEMP".toList, [' ']⟩, ⟨[' '], "X".toList, [' ']⟩, ⟨[' '], "Y".toList, [' ']⟩,
      ⟨[' '], "Z".toList, [' ']⟩]
    ⟨[' '], "X".toList, [' ']⟩ ⟨[' '], "Y".toList, [' ']⟩ ⟨[' '], "Z".toList, [' ']⟩
    ⟨[' '], "TEMP".toList, [' ']⟩
    "4 1 2 3\n".toList "1 2 3 4\n".toList ["8 5 6 7\n".toList] ["5 6 7 8\n".toList]
    (by decide) (by decide) (by decide) (by decide) (by decide) (by decide)
    (by decide) (by decide) (by decide) (by decide) (by decide) (by decide)
    (by decide) (by decide)
    (List.Forall₂.cons
      ⟨fun f => Sym.num (if f.text = "X".toList then "1".toList
          else if f.text = "Y".toList then "2".toList
          else if f.text = "Z".toList then "3".toList else "4".toList), by rfl, by rfl⟩
      (List.Forall₂.cons
        ⟨fun f => Sym.num (if f.text = "X".toList then "5".toList
            else if f.text = "Y".toList then "6".toList
            else if f.text = "Z".toList then "7".toList else "8".toList), by rfl, by rfl⟩
        List.Forall₂.nil))).2

/-- C9 at the header `| X | NODE | Y | Z | TEMP |` with rows `1 99 2 3 4`,
`5 98 6 7 8`, against the same file without the
NODE column: both loads end the same way. -/
theorem node_column_ignored_witness :
    load symOps "grid.dat".toList none
        ["# NODESX=1 NODESY=1 NODESZ=2\n".toList, "# | X | NODE | Y | Z | TEMP |\n".toList,
          "1 99 2 3 4\n".toList, "5 98 6 7 8\n".toList]
      = load symOps "grid.dat".toList none
        ["# NODESX=1 NODESY=1 NODESZ=2\n".toList, "# | X | Y | Z | TEMP |\n".toList,
          "1 2 3 4\n".toList, "5 6 7 8\n".toList] :=
  (node_column_ignored symOps "grid.dat".toList none
    ["# NODESX=1 NODESY=1 NODESZ=2\n".toList] [] [' '] "|\n".toList
    [⟨[' '], "X".toList, [' ']⟩]
    [⟨[' '], "Y".toList, [' ']⟩, ⟨[' '], "Z".toList, [' ']⟩, ⟨[' '], "TEMP".toList, [' ']⟩]
    ⟨[' '], "NODE".toList, [' ']⟩
    "1 2 3 4\n".toList "1 99 2 3 4\n".toList ["5 6 7 8\n".toList] ["5 98 6 7 8\n".toList]
    (by decide) (by decide) (by decide) (by decide) (by decide) (by decide) (by decide)
    (by decide) (by decide)
    (List.Forall₂.cons (by decide) (List.Forall₂.cons (by decide) List.Forall₂.nil))).2

/-! ## The request token -/

theorem charAt_zero_iff (t : List Char) (c : Char) (hc : c ≠ NUL) :
    charAt t 0 = c ↔ t.head? = some c := by
  cases t with
  | nil => simp [charAt]; exact fun h => hc h.symm
  | cons a s => simp [charAt]

theorem log_keyword_iff (t : List Char) :
    strncasecmp0 t "log(".toList 4 = true ↔ namesIgnoreCase "log(".toList (t.take 4) := by
  unfold namesIgnoreCase
  rcases t with _ | ⟨a, _ | ⟨b, _ | ⟨c, _ | ⟨d, r⟩⟩⟩⟩ <;>
    simp [strncasecmp0, and_assoc]

/-- C19: the request token.  A second argument `t` that starts with `-` requests
nothing; one whose first four characters are `log(` up to letter case requests
the log transform of the name between that keyword and the first `)` (or the
end of `t`); any other `t` requests the name `t` without transform; no second
argument requests nothing. -/
theorem request_token_parsing (t : List Char) :
    parseRequest (some t)
      = (if t.head? = some '-' then { logScale := false, varStart := none }
         else if namesIgnoreCase "log(".toList (t.take 4) then
           { logScale := true, varStart := some ((t.drop 4).takeWhile (fun c => c != ')')) }
         else { logScale := false, varStart := some t }) ∧
    parseRequest none = { logScale := false, varStart := none } := by
  refine ⟨?_, rfl⟩
  have hd : charAt t 0 = '-' ↔ t.head? = some '-' := charAt_zero_iff t '-' (by decide)
  by_cases h : t.head? = some '-'
  · rw [if_pos h]; exact parseRequest_dash (hd.2 h)
  · rw [if_neg h]
    have h1 : charAt t 0 ≠ '-' := fun e => h (hd.1 e)
    by_cases h2 : namesIgnoreCase "log(".toList (t.take 4)
    · rw [if_pos h2]; exact parseRequest_log h1 ((log_keyword_iff t).2 h2)
    · rw [if_neg h2]; exact parseRequest_bare h1 (fun e => h2 ((log_keyword_iff t).1 e))

/-! ## Lines without a directive -/

theorem headerLine_comment (req : Request) (st : HeaderState) (line : List Char)
    (h : isCommentLine line) : headerLine req st line = st := by
  obtain ⟨h1, h2, h3⟩ := h
  apply headerLine_of_fuel (f := 1)
  simp only [headerLineFuel, h1, h2, if_neg h3]
  simp

theorem headerFold_filter_comments (req : Request) (hs : List (List Char)) :
    ∀ st : HeaderState,
    headerFold req st hs = headerFold req st (hs.filter (fun l => decide (¬ isCommentLine l))) := by
  induction hs with
  | nil => intro st; rfl
  | cons l ls ih =>
    intro st
    by_cases h : isCommentLine l
    · rw [headerFold_cons, headerLine_comment req st l h, ih st]
      rw [List.filter_cons_of_neg (by simpa using h)]
    · rw [List.filter_cons_of_pos (by simpa using h), headerFold_cons, headerFold_cons, ih]

theorem loadHeader_fold (args0 : List Char) (args1 : Option (List Char))
    (hs : List (List Char)) (hall : ∀ h ∈ hs, charAt h 0 = '#') (row : List Char)
    (rows : List (List Char)) (hrow : charAt row 0 ≠ '#') :
    loadHeader args0 args1 (hs ++ row :: rows)
      = match validate args0 args1 (parseRequest args1)
            (headerFold (parseRequest args1) HeaderState.init hs) with
        | .error e => some (.error e)
        | .ok _ => some (.ok (headerFold (parseRequest args1) HeaderState.init hs, row, rows)) := by
  cases hs with
  | nil =>
    simp only [List.nil_append, loadHeader, headerLoop_stop _ _ _ _ hrow]
    rfl
  | cons l ls =>
    have h1 : charAt l 0 = '#' := hall l (List.mem_cons_self _ _)
    have h2 : ∀ h ∈ ls, charAt h 0 = '#' := fun h hh => hall h (List.mem_cons_of_mem _ hh)
    simp only [List.cons_append, loadHeader,
      headerLoop_fold (parseRequest args1) ls l HeaderState.init row rows h1 h2 hrow]

/-- C18: a `#` line that carries no directive leaves the parse state as it is;
two headers that differ only in such lines give the same outcome of the header
half, with the same first data row, and the same outcome of `load`. -/
theorem comment_lines_ignored {D F : Type} (ops : FloatOps D F) (args0 : List Char)
    (args1 : Option (List Char)) (hs hs2 : List (List Char)) (row : List Char)
    (rows : List (List Char))
    (hall : ∀ h ∈ hs, charAt h 0 = '#') (hall2 : ∀ h ∈ hs2, charAt h 0 = '#')
    (hrow : charAt row 0 ≠ '#')
    (hsame : hs.filter (fun l => decide (¬ isCommentLine l))
      = hs2.filter (fun l => decide (¬ isCommentLine l))) :
    (∀ (req : Request) (st : HeaderState) (line : List Char),
      isCommentLine line → headerLine req st line = st) ∧
    loadHeader args0 args1 (hs ++ row :: rows) = loadHeader args0 args1 (hs2 ++ row :: rows) ∧
    load ops args0 args1 (hs ++ row :: rows) = load ops args0 args1 (hs2 ++ row :: rows) ∧
    (∀ st l r, loadHeader args0 args1 (hs ++ row :: rows) = some (.ok (st, l, r)) →
      l = row ∧ r = rows) := by
  have hh : loadHeader args0 args1 (hs ++ row :: rows)
      = loadHeader args0 args1 (hs2 ++ row :: rows) := by
    rw [loadHeader_fold args0 args1 hs hall row rows hrow,
      loadHeader_fold args0 args1 hs2 hall2 row rows hrow,
      headerFold_filter_comments _ hs, headerFold_filter_comments _ hs2, hsame]
  refine ⟨headerLine_comment, hh, ?_, ?_⟩
  · unfold load; rw [hh]
  · intro st l r h
    rw [loadHeader_fold args0 args1 hs hall row rows hrow] at h
    split at h
    · cases h
    · simp only [Option.some.injEq, Except.ok.injEq, Prod.mk.injEq] at h
      exact ⟨h.2.1.symm, h.2.2.symm⟩

theorem comment_lines_ignored_witness :
    load symOps "f".toList none
        (["# NODESX=1 NODESY=1 NODESZ=1\n".toList, "# made by hand\n".toList,
          "# | X | Y | Z | T\n".toList, "#\n".toList] ++ "0 0 0 5\n".toList :: [])
      = load symOps "f".toList none
        (["# NODESX=1 NODESY=1 NODESZ=1\n".toList, "# | X | Y | Z | T\n".toList]
          ++ "0 0 0 5\n".toList :: []) :=
  (comment_lines_ignored symOps "f".toList none
    ["# NODESX=1 NODESY=1 NODESZ=1\n".toList, "# made by hand\n".toList,
      "# | X | Y | Z | T\n".toList, "#\n".toList]
    ["# NODESX=1 NODESY=1 NODESZ=1\n".toList, "# | X | Y | Z | T\n".toList]
    "0 0 0 5\n".toList [] (by decide) (by decide) (by decide) (by decide)).2.2.1

/-! ## Tokens of the spherical directive -/

theorem axisDash_length {text : List Char} (h : isAxisDash text = true) : 2 ≤ text.length := by
  rcases text with _ | ⟨a, _ | ⟨b, r⟩⟩
  · simp [isAxisDash, charAt] at h
    rcases h with (h | h) | h <;> exact absurd h (by decide)
  · simp [isAxisDash, charAt] at h
    exact absurd h.2 (by decide)
  · simp

theorem isAxisDash_append {text : List Char} (tail : List Char) (h : isAxisDash text = true) :
    isAxisDash (text ++ tail) = true := by
  have h2 := axisDash_length h
  rcases text with _ | ⟨a, _ | ⟨b, r⟩⟩
  · simp at h2
  · simp at h2
  · simpa [isAxisDash, charAt] using h

theorem roleSlot_range {text : List Char} (h : isAxisDash text = true) :
    0 ≤ roleSlot text ∧ roleSlot text ≤ 2 := by
  simp only [isAxisDash, Bool.and_eq_true, Bool.or_eq_true, beq_iff_eq] at h
  unfold roleSlot
  rcases h.1 with (h | h) | h <;> rw [h] <;> decide

theorem dropWhile_token {t : RoleToken} (rest : List Char) (hwf : t.wf)
    (hsr : t.sep ≠ [] ∨ rest = []) :
    (t.text ++ (t.sep ++ rest)).dropWhile (fun c => c != ',' && !isspace c) = t.sep ++ rest := by
  obtain ⟨_, h2, h3⟩ := hwf
  rw [List.dropWhile_append_of_pos h2]
  rcases hs : t.sep with _ | ⟨c, cs⟩
  · rcases hsr with h | h
    · exact absurd hs h
    · subst h; rfl
  · by_cases hc : c = ','
    · subst hc; simp
    · have : isspace c = true := by
        unfold isSeparator at h3
        rw [hs] at h3
        simp only [List.head?_cons, Option.some.injEq, hc, if_false] at h3
        exact h3 c (List.mem_cons_self _ _)
      simp [this]

theorem skip_separator {t : RoleToken} (rest : List Char) (hwf : t.wf)
    (hsr : t.sep ≠ [] ∨ rest = [])
    (hrest : ∀ c, rest.head? = some c → isspace c = false) :
    (if charAt (t.sep ++ rest) 0 = ',' then (t.sep ++ rest).drop 1 else t.sep ++ rest).dropWhile
      isspace = rest := by
  obtain ⟨_, _, h3⟩ := hwf
  unfold isSeparator at h3
  rcases hs : t.sep with _ | ⟨c, cs⟩
  · rcases hsr with h | h
    · exact absurd hs h
    · subst h; simp [charAt]
  · rw [hs] at h3
    by_cases hc : c = ','
    · subst hc
      simp only [List.head?_cons, if_true, List.drop_succ_cons, List.drop_zero] at h3
      simp only [List.cons_append, charAt, List.getD_cons_zero, if_true, List.drop_succ_cons,
        List.drop_zero]
      exact dropWhile_gap h3 hrest
    · simp only [List.head?_cons, Option.some.injEq, hc, if_false] at h3
      simp only [List.cons_append, charAt, List.getD_cons_zero, hc, if_false]
      exact dropWhile_gap (g := c :: cs) h3 hrest

theorem names_take3 (name text tail : List Char) (hn : name.length = 3) (k : Nat)
    (hk : text.length = k + 3) (more : List Char) :
    strncasecmp0 (text ++ tail) (name ++ more) 3 = true
      ↔ namesIgnoreCase name (text.take 3) := by
  rw [strncasecmp0_append_left text _ tail 3 (by omega),
    strncasecmp0_append_right text name more 3 (by omega)]
  have h1 : text = text.take 3 ++ text.drop 3 := (List.take_append_drop 3 text).symm
  have hl : (text.take 3).length = 3 := by simp; omega
  rw [← names_iff name (text.take 3) 3 hn]
  constructor
  · intro h
    refine ⟨hl, ?_⟩
    rw [h1, strncasecmp0_append_left _ _ _ 3 (by omega)] at h
    exact h
  · rintro ⟨_, h⟩
    rw [h1, strncasecmp0_append_left _ _ _ 3 (by omega)]
    exact h

theorem sphericalBody_token (t : RoleToken) (rest : List Char) (st : HeaderState)
    (hwf : t.wf) (hsr : t.sep ≠ [] ∨ rest = [])
    (hrest : ∀ c, rest.head? = some c → isspace c = false) :
    sphericalBody (t.text ++ (t.sep ++ rest)) st = (roleAssign st t.text, rest) := by
  have h2 := axisDash_length hwf.1
  have hend := dropWhile_token rest hwf hsr
  have hskip := skip_separator rest hwf hsr hrest
  have hlen : (t.text ++ (t.sep ++ rest)).length - (t.sep ++ rest).length = t.text.length := by
    simp only [List.length_append]; omega
  have hdrop : (t.text ++ (t.sep ++ rest)).drop 2 = t.text.drop 2 ++ (t.sep ++ rest) :=
    List.drop_append_of_le_length h2
  have hc0 : charAt (t.text ++ (t.sep ++ rest)) 0 = charAt t.text 0 := by
    rcases ht : t.text with _ | ⟨a, r⟩
    · rw [ht] at h2; simp at h2
    · rfl
  have hlat : t.text.length = 5 → (strncasecmp0 (t.text.drop 2 ++ (t.sep ++ rest)) "LAT".toList 3
      = true ↔ namesIgnoreCase "LAT".toList ((t.text.drop 2).take 3)) := fun h =>
    names_take3 "LAT".toList (t.text.drop 2) _ rfl 0 (by simp; omega) []
  have hlon : t.text.length = 5 → (strncasecmp0 (t.text.drop 2 ++ (t.sep ++ rest)) "LON".toList 3
      = true ↔ namesIgnoreCase "LON".toList ((t.text.drop 2).take 3)) := fun h =>
    names_take3 "LON".toList (t.text.drop 2) _ rfl 0 (by simp; omega) []
  have hrad : t.text.length = 8 → (strncasecmp0 (t.text.drop 2 ++ (t.sep ++ rest))
      "RADIUS".toList 3 = true ↔ namesIgnoreCase "RAD".toList ((t.text.drop 2).take 3)) := fun h =>
    names_take3 "RAD".toList (t.text.drop 2) _ rfl 3 (by simp; omega) "IUS".toList
  simp only [sphericalBody, hend, hskip, hlen, hdrop, hc0]
  unfold roleAssign roleSlot
  have e58 : ((5 : Nat) = 8) = False := eq_false (by decide)
  have e85 : ((8 : Nat) = 5) = False := eq_false (by decide)
  by_cases h5 : t.text.length = 5
  · by_cases ha : namesIgnoreCase "LAT".toList ((t.text.drop 2).take 3)
    · simp only [h5, e58, (hlat h5).2 ha, ha, Bool.false_eq_true, true_and, false_and, if_true, if_false, and_self]
    · have ha2 : ¬ strncasecmp0 (t.text.drop 2 ++ (t.sep ++ rest)) "LAT".toList 3 = true :=
        fun e => ha ((hlat h5).1 e)
      by_cases hb : namesIgnoreCase "LON".toList ((t.text.drop 2).take 3)
      · simp only [h5, e58, ha, ha2, (hlon h5).2 hb, hb, Bool.false_eq_true, true_and, false_and, if_true, if_false,
          and_false, and_self]
      · have hb2 : ¬ strncasecmp0 (t.text.drop 2 ++ (t.sep ++ rest)) "LON".toList 3 = true :=
          fun e => hb ((hlon h5).1 e)
        simp only [h5, e58, ha, ha2, hb, hb2, Bool.false_eq_true, true_and, false_and, if_true, if_false, and_false,
          and_self]
  · by_cases h8 : t.text.length = 8
    · by_cases hr : namesIgnoreCase "RAD".toList ((t.text.drop 2).take 3)
      · simp only [h8, e85, (hrad h8).2 hr, hr, Bool.false_eq_true, true_and, false_and, if_true, if_false, and_self]
      · have hr2 : ¬ strncasecmp0 (t.text.drop 2 ++ (t.sep ++ rest)) "RADIUS".toList 3 = true :=
          fun e => hr ((hrad h8).1 e)
        simp only [h8, e85, hr, hr2, Bool.false_eq_true, true_and, false_and, if_true, if_false, and_false, and_self]
    · simp only [h5, h8, false_and, if_false]

theorem axisDash_head {text : List Char} (h : isAxisDash text = true) :
    ∃ c cs, text = c :: cs ∧ (c == '#' || isspace c) = false ∧ tolower c ≠ tolower 'N' := by
  rcases text with _ | ⟨a, r⟩
  · have := axisDash_length h; simp at this
  · refine ⟨a, r, rfl, ?_, ?_⟩
    · simp only [isAxisDash, charAt, List.getD_cons_zero, Bool.and_eq_true, Bool.or_eq_true,
        beq_iff_eq] at h
      have hu := toupper_toNat a
      have : (toupper a).toNat = 88 ∨ (toupper a).toNat = 89 ∨ (toupper a).toNat = 90 := by
        rcases h.1 with (h | h) | h <;> rw [h] <;> decide
      have hs : isspace a = false := by
        rw [isspace_false_iff]; split at hu <;> omega
      have hh : (a == '#') = false := by
        simp only [beq_eq_false_iff_ne, ne_eq, char_eq_iff]
        have : '#'.toNat = 35 := rfl
        split at hu <;> omega
      simp [hs, hh]
    · simp only [isAxisDash, charAt, List.getD_cons_zero, Bool.and_eq_true, Bool.or_eq_true,
        beq_iff_eq] at h
      have hu := toupper_toNat a
      have hl := tolower_toNat a
      have : (toupper a).toNat = 88 ∨ (toupper a).toNat = 89 ∨ (toupper a).toNat = 90 := by
        rcases h.1 with (h | h) | h <;> rw [h] <;> decide
      rw [Ne, char_eq_iff]
      have hn : (tolower 'N').toNat = 110 := by decide
      rw [hn, hl]
      split at hu <;> split <;> omega

theorem roleTokens_head {ts : List RoleToken} (hw : tokensWf ts) :
    ∀ c, (roleTokens ts).head? = some c → isspace c = false := by
  intro c hc
  cases ts with
  | nil => simp [roleTokens] at hc
  | cons t ts =>
    obtain ⟨a, r, ht, h1, _⟩ := axisDash_head hw.1.1
    simp only [roleTokens, ht, List.cons_append, List.head?_cons, Option.some.injEq] at hc
    subst hc
    simp only [Bool.or_eq_false_iff] at h1
    exact h1.2

theorem sphericalLoop_tokens (ts : List RoleToken) :
    ∀ (st : HeaderState) (fuel : Nat), ts ≠ [] → tokensWf ts → ts.length ≤ fuel →
    sphericalLoop fuel (roleTokens ts) st
      = some (applyRoles st (ts.map RoleToken.text)) := by
  induction ts with
  | nil => intro st fuel h; exact absurd rfl h
  | cons t ts ih =>
    intro st fuel _ hw hf
    obtain ⟨hwt, hsep, hws⟩ := hw
    cases fuel with
    | zero => simp at hf
    | succ fuel =>
      have hsr : t.sep ≠ [] ∨ roleTokens ts = [] := by
        rcases hsep with h | h
        · exact Or.inl h
        · subst h; exact Or.inr rfl
      have hb := sphericalBody_token t (roleTokens ts) st hwt hsr (roleTokens_head hws)
      simp only [sphericalLoop, roleTokens, hb]
      cases ts with
      | nil =>
        have h0 : isAxisDash [] = false := by decide
        simp only [roleTokens, h0, Bool.false_eq_true, if_false]
        rfl
      | cons t2 ts2 =>
        have h2 : isAxisDash (roleTokens (t2 :: ts2)) = true :=
          isAxisDash_append _ hws.1.1
        rw [if_pos h2]
        rw [ih (roleAssign st t.text) fuel (by simp) hws (by simpa using hf)]
        rfl

theorem headerLine_roleLine (req : Request) (st : HeaderState) (lead : List Char)
    (ts : List RoleToken) (hl : isLead lead) (hne : ts ≠ []) (hw : tokensWf ts) :
    headerLine req st (roleLine lead ts) = applyRoles st (ts.map RoleToken.text) := by
  cases ts with
  | nil => exact absurd rfl hne
  | cons t ts =>
    obtain ⟨a, r, ht, h1, h2⟩ := axisDash_head hw.1.1
    have hskip : skipHash (roleLine lead (t :: ts)) = roleTokens (t :: ts) := by
      apply skipHash_lead hl
      intro c hc
      simp only [roleTokens, ht, List.cons_append, List.head?_cons, Option.some.injEq] at hc
      subst hc; exact h1
    have hn : strncasecmp0 (roleTokens (t :: ts)) "NODES".toList 5 = false := by
      simp only [roleTokens, ht, List.cons_append]
      show (tolower a == tolower 'N' && _) = false
      simp [h2]
    have hax : isAxisDash (roleTokens (t :: ts)) = true := isAxisDash_append _ hw.1.1
    apply headerLine_of_fuel (f := (t :: ts).length)
    simp only [headerLineFuel, hskip, hn, hax, if_true, Bool.false_eq_true, if_false]
    exact sphericalLoop_tokens (t :: ts) st _ (by simp) hw (Nat.le_refl _)

theorem roleAssign_entries (st : HeaderState) (text : List Char)
    (h : isAxisDash text = true) (k : Nat) :
    (roleAssign st text).sphericalOrder.get k = st.sphericalOrder.get k ∨
      (0 ≤ (roleAssign st text).sphericalOrder.get k ∧
        (roleAssign st text).sphericalOrder.get k ≤ 2) := by
  have hr := roleSlot_range h
  unfold roleAssign
  split
  · rcases k with _ | _ | k <;> simp [Int3.set, Int3.get, hr]
  · split
    · rcases k with _ | _ | k <;> simp [Int3.set, Int3.get, hr]
    · split
      · rcases k with _ | _ | k <;> simp [Int3.set, Int3.get, hr]
      · exact Or.inl rfl

/-- C15: a token of an `<AXIS>-<ROLE>` line, delimited by a comma or white
space, with axis slot = letter - `X`: it sets the latitude role iff it has 5
characters of which characters 2..4 are `LAT` in any letter case, the longitude
role iff it has 5 characters with `LON` there, the radius role iff it has 8
characters with `RAD` there, and nothing otherwise (`roleAssign`); the slot lies
in 0..2, so every entry it assigns does; a line of such tokens makes these
assignments left to right. -/
theorem role_token_assignment (req : Request) (st : HeaderState) (lead : List Char)
    (ts : List RoleToken) (t : RoleToken) (rest : List Char)
    (hl : isLead lead) (hne : ts ≠ []) (hw : tokensWf ts)
    (hwf : t.wf) (hsr : t.sep ≠ [] ∨ rest = [])
    (hrest : ∀ c, rest.head? = some c → isspace c = false) :
    sphericalBody (t.text ++ (t.sep ++ rest)) st = (roleAssign st t.text, rest) ∧
    (0 ≤ roleSlot t.text ∧ roleSlot t.text ≤ 2) ∧
    (∀ k, (roleAssign st t.text).sphericalOrder.get k = st.sphericalOrder.get k ∨
      (0 ≤ (roleAssign st t.text).sphericalOrder.get k ∧
        (roleAssign st t.text).sphericalOrder.get k ≤ 2)) ∧
    headerLine req st (roleLine lead ts) = applyRoles st (ts.map RoleToken.text) :=
  ⟨sphericalBody_token t rest st hwf hsr hrest, roleSlot_range hwf.1,
    roleAssign_entries st t.text hwf.1, headerLine_roleLine req st lead ts hl hne hw⟩

theorem role_token_assignment_witness :
    sphericalBody ("Z-RADxyz".toList ++ (", ".toList ++ "y-Lat\n".toList)) HeaderState.init
        = (roleAssign HeaderState.init "Z-RADxyz".toList, "y-Lat\n".toList) ∧
    roleAssign HeaderState.init "Z-RADxyz".toList
        = { HeaderState.init with sphericalOrder := ⟨-1, -1, 2⟩ } ∧
    headerLine (parseRequest none) HeaderState.init
        (roleLine " ".toList [⟨"X-LON".toList, ",".toList⟩, ⟨"y-lat".toList, " ".toList⟩,
          ⟨"Z-Radial".toList, "\n".toList⟩])
      = { HeaderState.init with sphericalOrder := ⟨1, 0, 2⟩ } :=
  have h := role_token_assignment (parseRequest none) HeaderState.init " ".toList
    [⟨"X-LON".toList, ",".toList⟩, ⟨"y-lat".toList, " ".toList⟩,
      ⟨"Z-Radial".toList, "\n".toList⟩]
    ⟨"Z-RADxyz".toList, ", ".toList⟩ "y-Lat\n".toList
    (by decide) (by decide) (by decide) (by decide) (by decide) (by decide)
  ⟨h.1, by decide, h.2.2.2.trans (by decide)⟩

/-! ## A closing bar in the column line -/

theorem empty_text_candidate : isCandidate (parseRequest none) [] := by decide

/-- C13: with no variable requested, a column line whose fields are only X, Y,
Z and NODE and which ends in a closing bar does resolve a data column: the
empty text behind the closing bar is taken, its index is the number of fields
and the variable name is empty; validation then rests on dimensions and
coordinate columns alone, so `load` does not fail with the invalid-header
error. -/
theorem closing_bar_is_data_column (args0 : List Char) (st : HeaderState) (lead : List Char)
    (fs : List ColumnField) (tail : List Char)
    (hl : isLead lead) (hwf : ∀ f ∈ fs, f.wf) (hc : isClosing tail) (ht : tail ≠ [])
    (hd : st.dataColumn < 0)
    (hnames : ∀ f ∈ fs, namesIgnoreCase "X".toList f.text ∨ namesIgnoreCase "Y".toList f.text ∨
      namesIgnoreCase "Z".toList f.text ∨ namesIgnoreCase "NODE".toList f.text) :
    (headerLine (parseRequest none) st (columnLine lead fs tail)).dataColumn = fs.length ∧
    (headerLine (parseRequest none) st (columnLine lead fs tail)).dataName = some [] ∧
    (dimsAndCoordsRead (headerLine (parseRequest none) st (columnLine lead fs tail)) = true →
      validate args0 none (parseRequest none)
        (headerLine (parseRequest none) st (columnLine lead fs tail)) = .ok ()) := by
  rw [headerLine_columnLine _ st lead fs tail hl hwf hc]
  have hseen : seenTexts fs tail = fs.map ColumnField.text ++ [] :: [] := by
    simp [seenTexts, ht]
  have hno : ∀ x ∈ fs.map ColumnField.text, ¬ isCandidate (parseRequest none) x := by
    intro x hx
    obtain ⟨f, hf, rfl⟩ := List.mem_map.1 hx
    intro hcand
    rcases hnames f hf with h | h | h | h
    · exact hcand.1 h
    · exact hcand.2.1 h
    · exact hcand.2.2.1 h
    · exact hcand.2.2.2.1 h
  have h := applyFields_data_first (parseRequest none) (fs.map ColumnField.text) [] [] 0 st
    (le_refl _) hd hno empty_text_candidate
  rw [hseen]
  have hcol : (applyFields (parseRequest none) 0 (fs.map ColumnField.text ++ [] :: []) st).dataColumn
      = fs.length := by
    rw [h.1]; simp
  refine ⟨hcol, h.2, ?_⟩
  intro hv
  unfold validate
  rw [if_neg (by rw [hcol]; omega), if_pos hv]

set_option maxRecDepth 8000 in
theorem closing_bar_is_data_column_witness :
    (headerLine (parseRequest none) HeaderState.init
      (columnLine " ".toList
        [⟨" ".toList, "X".toList, " ".toList⟩, ⟨" ".toList, "Y".toList, " ".toList⟩,
          ⟨" ".toList, "Z".toList, " ".toList⟩] "|\n".toList)).dataColumn = 3 ∧
    load symOps "f".toList none
        ["# NODESX=1 NODESY=1 NODESZ=1\n".toList, "# | X | Y | Z |\n".toList, "7 8 9\n".toList]
      = some (.ok
          { numNodes := ⟨1, 1, 1⟩
            variableName := some []
            vertices := [⟨some (Sym.toFloat (Sym.num "7".toList)),
              some (Sym.toFloat (Sym.num "8".toList)), some (Sym.toFloat (Sym.num "9".toList)),
              some (Sym.toFloat (Sym.num []))⟩] }) :=
  ⟨(closing_bar_is_data_column "f".toList HeaderState.init " ".toList
      [⟨" ".toList, "X".toList, " ".toList⟩, ⟨" ".toList, "Y".toList, " ".toList⟩,
        ⟨" ".toList, "Z".toList, " ".toList⟩] "|\n".toList
      (by decide) (by decide) (by decide) (by decide) (by decide) (by decide)).1,
    by rfl⟩

/-! ## The spherical position -/

/-- C12: the position in spherical mode, with the `double` operations read as
the operations on real numbers and `toFloat` the final narrowing: for latitude,
longitude and radius taken from the `columns` slots that `sphericalOrder`
names, the position is the narrowing of
`(r cos(lat) cos(lon), r cos(lat) sin(lon), r sin(lat))` with
`r = 6378140 (1 - sin(lat)^2 / 298.247) radius / 1000`. -/
theorem spherical_position_formula {F : Type} (strtod : List Char → ℝ × List Char)
    (log10 : ℝ → ℝ) (toFloat : ℝ → F) (logScale : Bool) (st : HeaderState)
    (columns : List (Option ℝ)) (lat lon radius : ℝ)
    (hmode : sphericalCoordinates st = true)
    (hlat : slot columns st.sphericalOrder.i0 = some lat)
    (hlon : slot columns st.sphericalOrder.i1 = some lon)
    (hrad : slot columns st.sphericalOrder.i2 = some radius) :
    (makeVertex
        { strtod := strtod, lit := fun q => (q : ℝ), sin := Real.sin, cos := Real.cos,
          sqr := fun x => x * x, log10 := log10, mul := fun x y => x * y,
          sub := fun x y => x - y, div := fun x y => x / y, toFloat := toFloat }
        logScale st columns).pos0
      = some (toFloat (6378140 * (1 - 1 / 298.247 * Real.sin lat ^ 2) * radius * (1 / 1000)
          * Real.cos lat * Real.cos lon)) ∧
    (makeVertex
        { strtod := strtod, lit := fun q => (q : ℝ), sin := Real.sin, cos := Real.cos,
          sqr := fun x => x * x, log10 := log10, mul := fun x y => x * y,
          sub := fun x y => x - y, div := fun x y => x / y, toFloat := toFloat }
        logScale st columns).pos1
      = some (toFloat (6378140 * (1 - 1 / 298.247 * Real.sin lat ^ 2) * radius * (1 / 1000)
          * Real.cos lat * Real.sin lon)) ∧
    (makeVertex
        { strtod := strtod, lit := fun q => (q : ℝ), sin := Real.sin, cos := Real.cos,
          sqr := fun x => x * x, log10 := log10, mul := fun x y => x * y,
          sub := fun x y => x - y, div := fun x y => x / y, toFloat := toFloat }
        logScale st columns).pos2
      = some (toFloat (6378140 * (1 - 1 / 298.247 * Real.sin lat ^ 2) * radius * (1 / 1000)
          * Real.sin lat)) := by
  have ha : ((6378.14e3 : ℚ) : ℝ) = 6378140 := by norm_num
  have hf : ((298.247 : ℚ) : ℝ) = 298.247 := by norm_num
  have hs : ((1.0e-3 : ℚ) : ℝ) = 1 / 1000 := by norm_num
  have h1 : ((1.0 : ℚ) : ℝ) = 1 := by norm_num
  simp only [makeVertex, hmode, if_true, sphericalVertex, hlat, hlon, hrad, Option.map_some',
    Option.bind_some, Option.some_bind, ha, hf, hs, h1, pow_two]
  exact ⟨trivial, trivial, trivial⟩

theorem spherical_position_formula_witness :
    (makeVertex
        { strtod := fun s => ((0 : ℝ), s), lit := fun q => (q : ℝ), sin := Real.sin,
          cos := Real.cos, sqr := fun x => x * x, log10 := fun x => x, mul := fun x y => x * y,
          sub := fun x y => x - y, div := fun x y => x / y, toFloat := fun x => x }
        false { HeaderState.init with sphericalOrder := ⟨1, 0, 2⟩ }
        [some (3 : ℝ), some 4, some 5, some 6]).pos2
      = some (6378140 * (1 - 1 / 298.247 * Real.sin 4 ^ 2) * 5 * (1 / 1000) * Real.sin 4) :=
  (spherical_position_formula (fun s => ((0 : ℝ), s)) (fun x => x) (fun x => x) false
    { HeaderState.init with sphericalOrder := ⟨1, 0, 2⟩ } [some (3 : ℝ), some 4, some 5, some 6]
    4 3 5 rfl rfl rfl rfl).2.2

/-! ## Progress output -/

theorem multiples_in_window {P v m : Nat} (hv : P ∣ v) (hm : P ∣ m) (h1 : v ≤ m)
    (h2 : m < v + P) : m = v := by
  have hd : P ∣ m - v := Nat.dvd_sub' hm hv
  have h0 : m - v = 0 := Nat.eq_zero_of_dvd_of_lt hd (by omega)
  omega

theorem progressLoop_spec (P total : Nat) (hP : 0 < P) (hP32 : P < 2 ^ 32) (ht : total ≠ 0)
    (n : Nat) :
    ∀ (v m : Nat), v ≤ m → m < v + P → P ∣ m →
    progressLoop P total n (v % 2 ^ 32) (m % 2 ^ 32)
      = some ((List.range n).map (fun i => updateAt P total (v + i))) := by
  have e32 : (2 : Nat) ^ 32 = 4294967296 := by norm_num
  induction n with
  | zero => intro v m _ _ _; rfl
  | succ n ih =>
    intro v m h1 h2 hm
    rw [List.range_succ_eq_map, List.map_cons, List.map_map]
    unfold progressLoop
    by_cases hvm : v = m
    · subst hvm
      rw [if_pos rfl, if_neg ht]
      have hn := ih (v + 1) (v + P) (by omega) (by omega) (Dvd.dvd.add hm (dvd_refl P))
      have e1 : (v % 2 ^ 32 + 1) % 2 ^ 32 = (v + 1) % 2 ^ 32 := by rw [e32]; omega
      have e2 : (v % 2 ^ 32 + P) % 2 ^ 32 = (v + P) % 2 ^ 32 := by rw [e32]; omega
      rw [e1, e2, hn]
      have hu : updateAt P total (v + 0) = some (v % 2 ^ 32 * 100 % 2 ^ 32 / total) := by
        simp [updateAt, hm]
      rw [hu, Option.map_some']
      congr 2
      apply List.map_congr_left
      intro i _
      simp only [Function.comp, Nat.succ_eq_add_one]
      congr 1; omega
    · have hne : ¬ v % 2 ^ 32 = m % 2 ^ 32 := by rw [e32] at hP32 ⊢; omega
      rw [if_neg hne]
      have hn := ih (v + 1) m (by omega) (by omega) hm
      have e1 : (v % 2 ^ 32 + 1) % 2 ^ 32 = (v + 1) % 2 ^ 32 := by rw [e32]; omega
      rw [e1, hn]
      have hu : updateAt P total (v + 0) = none := by
        have : ¬ P ∣ v := fun hv => hvm (multiples_in_window hv hm h1 h2).symm
        simp [updateAt, this]
      rw [hu, Option.map_some']
      congr 2
      apply List.map_congr_left
      intro i _
      simp only [Function.comp, Nat.succ_eq_add_one]
      congr 1; omega

theorem progressOutput_eq (numNodes : Int3) (hP : 0 < tickSize numNodes)
    (ht : totalNumNodes numNodes ≠ 0) :
    progressOutput numNodes
      = some ((List.range (gridSize numNodes)).map
          (fun i => updateAt (tickSize numNodes) (totalNumNodes numNodes) (i + 1))) := by
  have h32 : tickSize numNodes < 2 ^ 32 := by
    unfold tickSize toUInt32
    have := Int.emod_lt_of_pos (numNodes.i1 * numNodes.i2) (show (0 : Int) < 2 ^ 32 by norm_num)
    have h0 := Int.emod_nonneg (numNodes.i1 * numNodes.i2) (show (2 : Int) ^ 32 ≠ 0 by norm_num)
    omega
  have h := progressLoop_spec (tickSize numNodes) (totalNumNodes numNodes) hP h32 ht
    (gridSize numNodes) 1 (tickSize numNodes) hP (by omega) (dvd_refl _)
  have e1 : 1 % 2 ^ 32 = 1 := by norm_num
  rw [e1, Nat.mod_eq_of_lt h32] at h
  unfold progressOutput
  rw [h]
  congr 1
  apply List.map_congr_left
  intro i _
  congr 1; omega

theorem range_map_get (f : Nat → Option Nat) (n v : Nat) (h1 : 1 ≤ v) (h2 : v ≤ n) :
    ((List.range n).map (fun i => f (i + 1)))[v - 1]? = some (f v) := by
  rw [List.getElem?_map, List.getElem?_range (by omega)]
  simp only [Option.map_some']
  congr 2; omega

theorem toUInt32_small {x : Int} (h0 : 0 ≤ x) (h1 : x < 2 ^ 32) : toUInt32 x = x.toNat := by
  unfold toUInt32
  rw [Int.emod_eq_of_lt h0 h1]

theorem progressLoop_isSome (tick total : Nat) (ht : total ≠ 0) (n : Nat) :
    ∀ (vc nt : Nat), (progressLoop tick total n vc nt).isSome = true := by
  induction n with
  | zero => intro vc nt; rfl
  | succ n ih =>
    intro vc nt
    unfold progressLoop
    by_cases hvn : vc = nt
    · rw [if_pos hvn, if_neg ht, Option.isSome_map']
      exact ih _ _
    · rw [if_neg hvn, Option.isSome_map']
      exact ih _ _

theorem progressOutput_isSome (numNodes : Int3)
    (h0 : 0 ≤ numNodes.i0 * numNodes.i1 * numNodes.i2)
    (hN : numNodes.i0 * numNodes.i1 * numNodes.i2 < 2 ^ 32) :
    (progressOutput numNodes).isSome = true := by
  unfold progressOutput
  have htot : totalNumNodes numNodes = gridSize numNodes := toUInt32_small h0 hN
  by_cases hz : gridSize numNodes = 0
  · rw [hz]; rfl
  · exact progressLoop_isSome _ _ (by rw [htot]; exact hz) _ _ _

theorem updates_count (P total : Nat) (n : Nat) :
    (((List.range n).map (fun i => updateAt P total (i + 1))).filter Option.isSome).length
      = n / P := by
  induction n with
  | zero => simp
  | succ n ih =>
    rw [List.range_succ, List.map_append, List.filter_append, List.length_append, ih,
      Nat.succ_div]
    congr 1
    by_cases h : P ∣ n + 1
    · simp [updateAt, h]
    · simp [updateAt, h]

/-- C17: the progress cadence for positive dimensions whose product, the
number of vertices, is below 2^32: the loop prints its updates without fault,
one entry per vertex; an update is emitted after the `v`-th vertex (1-based)
iff `v` is a multiple of `dimensions[1]*dimensions[2]`; exactly `dimensions[0]`
updates are emitted, and one is emitted after the final vertex. -/
theorem progress_cadence (numNodes : Int3) (h0 : 0 < numNodes.i0) (h1 : 0 < numNodes.i1)
    (h2 : 0 < numNodes.i2) (hN : numNodes.i0 * numNodes.i1 * numNodes.i2 < 2 ^ 32) :
    ∃ out, progressOutput numNodes = some out ∧ out.length = gridSize numNodes ∧
    (∀ v, 1 ≤ v → v ≤ gridSize numNodes →
      ((∃ p, out[v - 1]? = some (some p)) ↔ (numNodes.i1 * numNodes.i2).toNat ∣ v)) ∧
    (out.filter Option.isSome).length = numNodes.i0.toNat ∧
    (∃ p, out[gridSize numNodes - 1]? = some (some p)) := by
  have hpos : 0 < numNodes.i1 * numNodes.i2 := Int.mul_pos h1 h2
  have hNpos : 0 < numNodes.i0 * numNodes.i1 * numNodes.i2 := by
    rw [mul_assoc]; exact Int.mul_pos h0 hpos
  have hP : numNodes.i1 * numNodes.i2 < 2 ^ 32 := by
    have : numNodes.i1 * numNodes.i2 ≤ numNodes.i0 * (numNodes.i1 * numNodes.i2) :=
      le_mul_of_one_le_left (le_of_lt hpos) h0
    rw [← mul_assoc] at this
    omega
  have ht : tickSize numNodes = (numNodes.i1 * numNodes.i2).toNat :=
    toUInt32_small (le_of_lt hpos) hP
  have htot : totalNumNodes numNodes = gridSize numNodes :=
    toUInt32_small (le_of_lt hNpos) hN
  have htp : 0 < tickSize numNodes := by rw [ht]; omega
  have hg : gridSize numNodes = numNodes.i0.toNat * (numNodes.i1 * numNodes.i2).toNat := by
    unfold gridSize
    rw [mul_assoc]
    obtain ⟨a, ha⟩ := Int.eq_ofNat_of_zero_le (le_of_lt h0)
    obtain ⟨b, hb⟩ := Int.eq_ofNat_of_zero_le (le_of_lt hpos)
    rw [ha, hb]
    norm_cast
  have hgpos : 0 < gridSize numNodes := by
    rw [hg]; exact Nat.mul_pos (by omega) (by omega)
  have hiff : ∀ v, 1 ≤ v → v ≤ gridSize numNodes →
      ((∃ p, ((List.range (gridSize numNodes)).map
          (fun i => updateAt (tickSize numNodes) (totalNumNodes numNodes) (i + 1)))[v - 1]?
            = some (some p))
        ↔ (numNodes.i1 * numNodes.i2).toNat ∣ v) := by
    intro v hv1 hv2
    rw [range_map_get (updateAt (tickSize numNodes) (totalNumNodes numNodes)) _ v hv1 hv2, ← ht]
    unfold updateAt
    by_cases hd : tickSize numNodes ∣ v
    · simp [hd]
    · simp [hd]
  refine ⟨_, progressOutput_eq numNodes htp (by rw [htot]; omega), by simp, hiff, ?_, ?_⟩
  · rw [updates_count, hg, ht]
    exact Nat.mul_div_cancel _ (by omega)
  · exact (hiff (gridSize numNodes) (by omega) (le_refl _)).2
      (by rw [hg]; exact Dvd.intro_left _ rfl)

theorem progress_cadence_witness :
    ∃ out, progressOutput ⟨2, 3, 4⟩ = some out ∧ out.length = gridSize ⟨2, 3, 4⟩ ∧
    (∀ v, 1 ≤ v → v ≤ gridSize ⟨2, 3, 4⟩ →
      ((∃ p, out[v - 1]? = some (some p)) ↔ ((3 : Int) * 4).toNat ∣ v)) ∧
    (out.filter Option.isSome).length = (2 : Int).toNat ∧
    (∃ p, out[gridSize ⟨2, 3, 4⟩ - 1]? = some (some p)) :=
  progress_cadence ⟨2, 3, 4⟩ (by decide) (by decide) (by decide) (by decide)

/-- C17, as stated, fails: for dimensions (1, 65536, 65537) the product
`dimensions[1]*dimensions[2]` is 4295032832, which is 65536 as `unsigned int`;
an update is emitted after vertex 65536, which is not a multiple of the
product. -/
theorem cadence_wraps_for_large_slabs :
    ∃ out, progressOutput ⟨1, 65536, 65537⟩ = some out ∧
    out[65536 - 1]? = some (some 100) ∧
    ¬ ((65536 * 65537 : Int).toNat ∣ 65536) ∧ 65536 ≤ gridSize ⟨1, 65536, 65537⟩ := by
  have ht : tickSize ⟨1, 65536, 65537⟩ = 65536 := by decide
  have hg : gridSize ⟨1, 65536, 65537⟩ = 4295032832 := by decide
  refine ⟨_, progressOutput_eq ⟨1, 65536, 65537⟩ (by rw [ht]; decide) (by decide), ?_,
    by decide, by rw [hg]; decide⟩
  rw [range_map_get _ _ 65536 (by decide) (by rw [hg]; decide)]
  decide

/-- C20: for a 351 x 351 x 351 grid, whose 43243551 vertices fit in 32 bits,
the product `vertexCounter*100` wraps: the update after slab 348 prints 99, the
update after slab 349 prints 0 and the last update prints 0, not 100. -/
theorem percentage_wraps_on_large_grid :
    gridSize ⟨351, 351, 351⟩ = 43243551 ∧
    ∃ out, progressOutput ⟨351, 351, 351⟩ = some out ∧
    out[348 * 123201 - 1]? = some (some 99) ∧
    out[349 * 123201 - 1]? = some (some 0) ∧
    out[43243551 - 1]? = some (some 0) := by
  have ht : tickSize ⟨351, 351, 351⟩ = 123201 := by decide
  have hg : gridSize ⟨351, 351, 351⟩ = 43243551 := by decide
  have hp : 0 < tickSize ⟨351, 351, 351⟩ := by rw [ht]; decide
  refine ⟨hg, _, progressOutput_eq ⟨351, 351, 351⟩ hp (by decide), ?_, ?_, ?_⟩
  · rw [range_map_get _ _ (348 * 123201) (by decide) (by rw [hg]; decide)]
    decide
  · rw [range_map_get _ _ (349 * 123201) (by decide) (by rw [hg]; decide)]
    decide
  · rw [range_map_get _ _ 43243551 (by decide) (le_of_eq hg.symm)]
    decide

/-! ## The column mapping -/

theorem count_unique : ∀ (l : List Int) (i : Nat) (j : Int), l[i]? = some j →
    (∀ k, k ≠ i → l[k]? ≠ some j) → l.count j = 1 := by
  intro l
  induction l with
  | nil => intro i j h; simp at h
  | cons a t ih =>
    intro i j h hu
    cases i with
    | zero =>
      simp only [List.getElem?_cons_zero, Option.some.injEq] at h
      subst h
      have hz : t.count a = 0 := by
        rw [List.count_eq_zero]
        intro hm
        obtain ⟨k, hk, hk2⟩ := List.getElem_of_mem hm
        have := hu (k + 1) (by omega)
        rw [List.getElem?_cons_succ, List.getElem?_eq_getElem hk, hk2] at this
        exact this rfl
      rw [List.count_cons_self, hz]
    | succ i =>
      rw [List.getElem?_cons_succ] at h
      have ha : a ≠ j := by
        intro e
        have := hu 0 (by omega)
        rw [List.getElem?_cons_zero, e] at this
        exact this rfl
      rw [List.count_cons_of_ne ha.symm]
      apply ih i j h
      intro k hk
      have := hu (k + 1) (by omega)
      rwa [List.getElem?_cons_succ] at this

theorem numColumns_eq_max (st : HeaderState) :
    numColumns st
      = max (max (max st.coordColumn.i0 st.coordColumn.i1) st.coordColumn.i2) st.dataColumn + 1 := by
  unfold numColumns
  simp only
  split <;> split <;> split <;> omega

theorem columnMapping_count (st : HeaderState) (ha : columnsAssigned st)
    (hd : columnsDistinct st) :
    (columnMapping st).count 0 = 1 ∧ (columnMapping st).count 1 = 1 ∧
    (columnMapping st).count 2 = 1 ∧ (columnMapping st).count 3 = 1 := by
  obtain ⟨a0, a1, a2, a3⟩ := ha
  obtain ⟨d01, d02, d03, d12, d13, d23⟩ := hd
  obtain ⟨g0, g1, g2, g3⟩ := numColumns_gt st
  have key : ∀ (c : Int) (j : Int), 0 ≤ c → c < numColumns st →
      (columnMapping st)[c.toNat]? = some j → j ≠ -1 →
      (∀ k, k < (numColumns st).toNat → (columnMapping st)[k]? = some j → k = c.toNat) →
      (columnMapping st).count j = 1 := by
    intro c j _ _ hget _ huniq
    apply count_unique _ c.toNat j hget
    intro k hk hkj
    have hlt : k < (numColumns st).toNat := by
      rw [← columnMapping_length]
      by_contra hge
      rw [List.getElem?_eq_none (by omega)] at hkj
      exact absurd hkj (by simp)
    exact hk (huniq k hlt hkj)
  refine ⟨key st.coordColumn.i0 0 a0 g0 ?_ (by decide) ?_,
    key st.coordColumn.i1 1 a1 g1 ?_ (by decide) ?_,
    key st.coordColumn.i2 2 a2 g2 ?_ (by decide) ?_,
    key st.dataColumn 3 a3 g3 ?_ (by decide) ?_⟩
  all_goals first
    | (rw [columnMapping_get st _ (by omega)]
       repeat (first | rw [if_pos (by omega)] | rw [if_neg (by omega)]))
    | (intro k hk hkj
       rw [columnMapping_get st k hk] at hkj
       repeat' split at hkj
       all_goals first | omega | (simp at hkj))

/-- C16: for a header that passes validation and whose four columns are four
different columns (as they are when the header has one column line): the
column mapping has length `max(coordColumn[0..2], dataColumn)+1`, sends
`coordColumn[0]`, `coordColumn[1]`, `coordColumn[2]` to slots 0, 1, 2 (X, Y, Z)
and `dataColumn` to slot 3 (DATA), every other index to -1 (ignored); each of
the four slots occurs exactly once in the mapping, and after the row loop all
four slots hold the values read for their columns. -/
theorem column_mapping_routes {D F : Type} (ops : FloatOps D F) (args0 : List Char)
    (args1 : Option (List Char)) (st : HeaderState) (l : List Char)
    (hv : validate args0 args1 (parseRequest args1) st = .ok ())
    (hd : columnsDistinct st) :
    ((columnMapping st).length : Int)
      = max (max (max st.coordColumn.i0 st.coordColumn.i1) st.coordColumn.i2) st.dataColumn + 1 ∧
    (columnMapping st)[st.coordColumn.i0.toNat]? = some 0 ∧
    (columnMapping st)[st.coordColumn.i1.toNat]? = some 1 ∧
    (columnMapping st)[st.coordColumn.i2.toNat]? = some 2 ∧
    (columnMapping st)[st.dataColumn.toNat]? = some 3 ∧
    (∀ i, i < (columnMapping st).length → i ≠ st.coordColumn.i0.toNat →
      i ≠ st.coordColumn.i1.toNat → i ≠ st.coordColumn.i2.toNat → i ≠ st.dataColumn.toNat →
      (columnMapping st)[i]? = some (-1)) ∧
    ((columnMapping st).count 0 = 1 ∧ (columnMapping st).count 1 = 1 ∧
      (columnMapping st).count 2 = 1 ∧ (columnMapping st).count 3 = 1) ∧
    parseRow ops (columnMapping st) l (columnsInit D)
      = [some (rowValue ops st.coordColumn.i0.toNat l), some (rowValue ops st.coordColumn.i1.toNat l),
         some (rowValue ops st.coordColumn.i2.toNat l), some (rowValue ops st.dataColumn.toNat l)] := by
  have ha := validate_ok_assigned hv
  obtain ⟨a0, a1, a2, a3⟩ := ha
  obtain ⟨d01, d02, d03, d12, d13, d23⟩ := hd
  obtain ⟨g0, g1, g2, g3⟩ := numColumns_gt st
  refine ⟨?_, ?_, ?_, ?_, ?_, ?_, columnMapping_count st ⟨a0, a1, a2, a3⟩
    ⟨d01, d02, d03, d12, d13, d23⟩, parseRow_columns ops st l ⟨a0, a1, a2, a3⟩
    ⟨d01, d02, d03, d12, d13, d23⟩⟩
  · rw [columnMapping_length, ← numColumns_eq_max]
    omega
  · rw [columnMapping_get st _ (by omega)]
    repeat (first | rw [if_pos (by omega)] | rw [if_neg (by omega)])
  · rw [columnMapping_get st _ (by omega)]
    repeat (first | rw [if_pos (by omega)] | rw [if_neg (by omega)])
  · rw [columnMapping_get st _ (by omega)]
    repeat (first | rw [if_pos (by omega)] | rw [if_neg (by omega)])
  · rw [columnMapping_get st _ (by omega), if_pos rfl]
  · intro i hi n0 n1 n2 n3
    rw [columnMapping_length] at hi
    rw [columnMapping_get st i hi, if_neg (by omega), if_neg (by omega), if_neg (by omega),
      if_neg (by omega)]

set_option maxRecDepth 8000 in
theorem column_mapping_routes_witness :
    (columnMapping (headerFold (parseRequest none) HeaderState.init
        ["# NODESX=1 NODESY=1 NODESZ=1\n".toList, "# | NODE | Z | T | Y | X\n".toList])).count 0 = 1 ∧
    parseRow symOps (columnMapping (headerFold (parseRequest none) HeaderState.init
        ["# NODESX=1 NODESY=1 NODESZ=1\n".toList, "# | NODE | Z | T | Y | X\n".toList]))
        "1 30 5 20 10\n".toList (columnsInit Sym)
      = [some (Sym.num "10".toList), some (Sym.num "20".toList), some (Sym.num "30".toList),
          some (Sym.num "5".toList)] :=
  have h := column_mapping_routes symOps "f".toList none
    (headerFold (parseRequest none) HeaderState.init
      ["# NODESX=1 NODESY=1 NODESZ=1\n".toList, "# | NODE | Z | T | Y | X\n".toList])
    "1 30 5 20 10\n".toList (by rfl) (by decide)
  ⟨h.2.2.2.2.2.2.1.1, h.2.2.2.2.2.2.2.trans (by decide)⟩

set_option maxRecDepth 8000 in
/-- C16, as stated, fails: the header `collidingHeader` passes validation with
`coordColumn = (0, 0, 1)` and `dataColumn = 2`; its mapping is `[1, 2, 3]`, so
`coordColumn[0]` is sent to slot 1, not to slot 0, and slot 0 (X) is written by
no column. -/
theorem colliding_columns_mapping :
    validate "f".toList none (parseRequest none)
        (headerFold (parseRequest none) HeaderState.init collidingHeader) = .ok () ∧
    (headerFold (parseRequest none) HeaderState.init collidingHeader).coordColumn = ⟨0, 0, 1⟩ ∧
    (headerFold (parseRequest none) HeaderState.init collidingHeader).dataColumn = 2 ∧
    columnMapping (headerFold (parseRequest none) HeaderState.init collidingHeader) = [1, 2, 3] ∧
    (columnMapping (headerFold (parseRequest none) HeaderState.init collidingHeader)).count 0
      = 0 := by
  refine ⟨by rfl, by decide, by decide, by decide, by decide⟩

set_option maxRecDepth 8000 in
/-- C11, as stated, fails: the file made of `collidingHeader` and the row
`7 8 9` passes validation without spherical roles and has its one row, but the
first position component comes from a `columns` slot that was never written,
not from `row[coordColumn[0]]`. -/
theorem colliding_columns_vertex :
    load symOps "f".toList none (collidingHeader ++ ["7 8 9\n".toList])
      = some (.ok
          { numNodes := ⟨1, 1, 1⟩
            variableName := some []
            vertices := [⟨none, some (Sym.toFloat (Sym.num "7".toList)),
              some (Sym.toFloat (Sym.num "8".toList)),
              some (Sym.toFloat (Sym.num "9".toList))⟩] }) := by
  rfl

/-! ## The vertices in Cartesian mode -/

theorem headerLoop_split (req : Request) (rest : List (List Char)) :
    ∀ (line : List Char) (st s : HeaderState) (row : List Char) (rows : List (List Char)),
    headerLoop req rest line st = some (s, row, rows) →
    ∃ hs, line :: rest = hs ++ row :: rows ∧ (∀ h ∈ hs, charAt h 0 = '#') ∧
      charAt row 0 ≠ '#' := by
  induction rest with
  | nil =>
    intro line st s row rows h
    unfold headerLoop at h
    split at h
    · cases h
    · next hne =>
      simp only [Option.some.injEq, Prod.mk.injEq] at h
      obtain ⟨_, h2, h3⟩ := h
      subst h2; subst h3
      exact ⟨[], rfl, by simp, hne⟩
  | cons l rest ih =>
    intro line st s row rows h
    unfold headerLoop at h
    split at h
    · next he =>
      obtain ⟨hs, e, hall, hrow⟩ := ih l _ s row rows h
      refine ⟨line :: hs, by rw [e]; rfl, ?_, hrow⟩
      intro x hx
      rcases List.mem_cons.1 hx with hx | hx
      · subst hx; exact he
      · exact hall x hx
    · next hne =>
      simp only [Option.some.injEq, Prod.mk.injEq] at h
      obtain ⟨_, h2, h3⟩ := h
      subst h2; subst h3
      exact ⟨[], rfl, by simp, hne⟩

theorem gridSize_eq_product {args0 : List Char} {args1 : Option (List Char)} {req : Request}
    {st : HeaderState} (h : validate args0 args1 req st = .ok ()) :
    (gridSize st.numNodes : Int) = st.numNodes.i0 * st.numNodes.i1 * st.numNodes.i2 := by
  have hd : dimsAndCoordsRead st = true := by
    unfold validate at h
    split at h
    · split at h <;> cases h
    · split at h
      · assumption
      · cases h
  simp only [dimsAndCoordsRead, Bool.and_eq_true, decide_eq_true_eq] at hd
  obtain ⟨⟨⟨⟨⟨h0, h1⟩, h2⟩, _⟩, _⟩, _⟩ := hd
  unfold gridSize
  exact Int.toNat_of_nonneg (mul_nonneg (mul_nonneg h0 h1) h2)

/-- C11: for a file whose header passes validation without a full set of
spherical roles, whose four columns are four different columns, whose product
`dimensions[0]*dimensions[1]*dimensions[2]` is below 2^32, and which has at
least that many lines from the first line not starting with `#` on: `load`
returns a grid, with exactly that many vertices; vertex `i`
is built from line `i` of those lines; its position is the narrowing of the
values read for `coordColumn[0]`, `coordColumn[1]`, `coordColumn[2]`, and its
scalar that of the value read for `dataColumn`, or of its base-10 logarithm
when the log transform is requested. -/
theorem cartesian_grid_rows {D F : Type} (ops : FloatOps D F) (args0 : List Char)
    (args1 : Option (List Char)) (file : List (List Char)) (st : HeaderState) (row : List Char)
    (rows : List (List Char))
    (hh : loadHeader args0 args1 file = some (.ok (st, row, rows)))
    (hc : sphericalCoordinates st = false) (hd : columnsDistinct st)
    (hN : st.numNodes.i0 * st.numNodes.i1 * st.numNodes.i2 < 2 ^ 32)
    (hn : gridSize st.numNodes ≤ rows.length + 1) :
    (∃ hs, file = hs ++ row :: rows ∧ (∀ h ∈ hs, charAt h 0 = '#') ∧ charAt row 0 ≠ '#') ∧
    ∃ g, load ops args0 args1 file = some (.ok g) ∧ g.numNodes = st.numNodes ∧
      (g.vertices.length : Int) = st.numNodes.i0 * st.numNodes.i1 * st.numNodes.i2 ∧
      g.vertices = ((row :: rows).take (gridSize st.numNodes)).map (fun l =>
        { pos0 := some (ops.toFloat (rowValue ops st.coordColumn.i0.toNat l))
          pos1 := some (ops.toFloat (rowValue ops st.coordColumn.i1.toNat l))
          pos2 := some (ops.toFloat (rowValue ops st.coordColumn.i2.toNat l))
          value :=
            if (parseRequest args1).logScale then
              some (ops.toFloat (ops.log10 (rowValue ops st.dataColumn.toNat l)))
            else some (ops.toFloat (rowValue ops st.dataColumn.toNat l)) }) := by
  obtain ⟨first, rest, hfile, hloop, hv⟩ := loadHeader_ok_inv hh
  have ha := validate_ok_assigned hv
  refine ⟨?_, ?_⟩
  · rw [hfile]; exact headerLoop_split _ rest first _ st row rows hloop
  · have hverts : streamVertices ops (parseRequest args1).logScale st (gridSize st.numNodes) row rows
        = ((row :: rows).take (gridSize st.numNodes)).map (fun l =>
          { pos0 := some (ops.toFloat (rowValue ops st.coordColumn.i0.toNat l))
            pos1 := some (ops.toFloat (rowValue ops st.coordColumn.i1.toNat l))
            pos2 := some (ops.toFloat (rowValue ops st.coordColumn.i2.toNat l))
            value :=
              if (parseRequest args1).logScale then
                some (ops.toFloat (ops.log10 (rowValue ops st.dataColumn.toNat l)))
              else some (ops.toFloat (rowValue ops st.dataColumn.toNat l)) }) := by
      rw [streamVertices_eq_map, linesRead_take _ _ _ hn]
      apply List.map_congr_left
      intro l _
      rw [parseRow_columns ops st l ha hd]
      simp only [makeVertex, hc, Bool.false_eq_true, if_false, cartesianVertex, vertexValue, slot]
      cases (parseRequest args1).logScale <;> rfl
    refine ⟨⟨st.numNodes, st.dataName,
      streamVertices ops (parseRequest args1).logScale st (gridSize st.numNodes) row rows⟩,
      ?_, rfl, ?_, hverts⟩
    · have h0 : 0 ≤ st.numNodes.i0 * st.numNodes.i1 * st.numNodes.i2 := by
        rw [← gridSize_eq_product hv]; exact Int.natCast_nonneg _
      obtain ⟨out, hout⟩ := Option.isSome_iff_exists.mp (progressOutput_isSome st.numNodes h0 hN)
      rw [load_of_header ops hh, hout]
      rfl
    · show ((streamVertices ops (parseRequest args1).logScale st (gridSize st.numNodes) row
        rows).length : Int) = _
      rw [hverts, List.length_map, List.length_take, ← gridSize_eq_product hv]
      simp only [List.length_cons]
      congr 1
      omega

set_option maxRecDepth 8000 in
theorem cartesian_grid_rows_witness :
    ∃ g, load symOps "f".toList (some "log(t)".toList)
        ["# NODESX=1 NODESY=1 NODESZ=2\n".toList, "# | Y | X | T | Z\n".toList,
          "1 2 3 4\n".toList, "5 6 7 8\n".toList, "9 9 9 9\n".toList] = some (.ok g) ∧
      g.numNodes = ⟨1, 1, 2⟩ ∧ (g.vertices.length : Int) = 1 * 1 * 2 ∧
      g.vertices
        = [⟨some (Sym.toFloat (Sym.num "2".toList)), some (Sym.toFloat (Sym.num "1".toList)),
            some (Sym.toFloat (Sym.num "4".toList)),
            some (Sym.toFloat (Sym.log10 (Sym.num "3".toList)))⟩,
           ⟨some (Sym.toFloat (Sym.num "6".toList)), some (Sym.toFloat (Sym.num "5".toList)),
            some (Sym.toFloat (Sym.num "8".toList)),
            some (Sym.toFloat (Sym.log10 (Sym.num "7".toList)))⟩] :=
  (cartesian_grid_rows symOps "f".toList (some "log(t)".toList)
    ["# NODESX=1 NODESY=1 NODESZ=2\n".toList, "# | Y | X | T | Z\n".toList,
      "1 2 3 4\n".toList, "5 6 7 8\n".toList, "9 9 9 9\n".toList]
    { numNodes := ⟨1, 1, 2⟩, coordColumn := ⟨1, 0, 3⟩, dataColumn := 2,
      dataName := some "Log(T)".toList, sphericalOrder := ⟨-1, -1, -1⟩ }
    "1 2 3 4\n".toList ["5 6 7 8\n".toList, "9 9 9 9\n".toList]
    (by rfl) (by rfl) (by decide) (by decide) (by decide)).2

/-! ## Directives act on separate locals -/

theorem HeaderState.ext5 {a b : HeaderState} (h1 : a.numNodes = b.numNodes)
    (h2 : a.coordColumn = b.coordColumn) (h3 : a.dataColumn = b.dataColumn)
    (h4 : a.dataName = b.dataName) (h5 : a.sphericalOrder = b.sphericalOrder) : a = b := by
  cases a; cases b; simp only at h1 h2 h3 h4 h5; subst h1; subst h2; subst h3; subst h4; subst h5
  rfl

theorem headerLine_nodes_indep (req : Request) (st st0 : HeaderState) (line : List Char)
    (hk : isNodesDirective line) (h1 : st.numNodes = st0.numNodes) :
    headerLine req st line = { st with numNodes := (headerLine req st0 line).numNodes } := by
  obtain ⟨s, hs⟩ := Option.isSome_iff_exists.mp (headerLineFuel_isSome req st line)
  obtain ⟨s0, hs0⟩ := Option.isSome_iff_exists.mp (headerLineFuel_isSome req st0 line)
  rw [headerLine_of_fuel hs, headerLine_of_fuel hs0]
  simp only [headerLineFuel] at hs hs0
  have hk2 : strncasecmp0 (skipHash line) "NODES".toList 5 = true := hk
  rw [if_pos hk2] at hs hs0
  rw [nodesLoop_indep _ _ st st0 h1, hs0] at hs
  cases hs
  rfl

theorem headerLine_role_indep (req : Request) (st st0 : HeaderState) (line : List Char)
    (hk : isRoleDirective line) (h1 : st.sphericalOrder = st0.sphericalOrder) :
    headerLine req st line
      = { st with sphericalOrder := (headerLine req st0 line).sphericalOrder } := by
  obtain ⟨s, hs⟩ := Option.isSome_iff_exists.mp (headerLineFuel_isSome req st line)
  obtain ⟨s0, hs0⟩ := Option.isSome_iff_exists.mp (headerLineFuel_isSome req st0 line)
  rw [headerLine_of_fuel hs, headerLine_of_fuel hs0]
  simp only [headerLineFuel] at hs hs0
  rw [if_neg (by rw [hk.1]; decide), if_pos hk.2] at hs hs0
  rw [sphericalLoop_indep _ _ st st0 h1, hs0] at hs
  cases hs
  rfl

theorem columnBody_indep (req : Request) (k : Int) (cPtr : List Char) (st st0 : HeaderState)
    (hc : st.coordColumn = st0.coordColumn) (hd : st.dataColumn = st0.dataColumn)
    (hn : st.dataName = st0.dataName) :
    columnBody req k cPtr st
      = ({ st with coordColumn := (columnBody req k cPtr st0).1.coordColumn
                   dataColumn := (columnBody req k cPtr st0).1.dataColumn
                   dataName := (columnBody req k cPtr st0).1.dataName },
          (columnBody req k cPtr st0).2) := by
  obtain ⟨n, c, d, nm, so⟩ := st
  obtain ⟨n0, c0, d0, nm0, so0⟩ := st0
  simp only at hc hd hn
  subst hc; subst hd; subst hn
  simp only [columnBody]
  split_ifs <;> rfl

theorem columnLoop_indep (req : Request) (fuel : Nat) :
    ∀ (k : Int) (cPtr : List Char) (st st0 : HeaderState),
    st.coordColumn = st0.coordColumn → st.dataColumn = st0.dataColumn →
    st.dataName = st0.dataName →
    columnLoop req fuel k cPtr st
      = (columnLoop req fuel k cPtr st0).map (fun r =>
          { st with coordColumn := r.coordColumn, dataColumn := r.dataColumn,
                    dataName := r.dataName }) := by
  induction fuel with
  | zero => intro k cPtr st st0 _ _ _; rfl
  | succ n ih =>
    intro k cPtr st st0 hc hd hn
    simp only [columnLoop]
    rw [columnBody_indep req k cPtr st st0 hc hd hn]
    simp only
    split
    · exact ih (k + 1) (columnBody req k cPtr st0).2
        { st with coordColumn := (columnBody req k cPtr st0).1.coordColumn
                  dataColumn := (columnBody req k cPtr st0).1.dataColumn
                  dataName := (columnBody req k cPtr st0).1.dataName }
        (columnBody req k cPtr st0).1 rfl rfl rfl
    · rfl

theorem headerLine_column_indep (req : Request) (st st0 : HeaderState) (line : List Char)
    (hk : isColumnDirective line) (hc : st.coordColumn = st0.coordColumn)
    (hd : st.dataColumn = st0.dataColumn) (hn : st.dataName = st0.dataName) :
    headerLine req st line
      = { st with coordColumn := (headerLine req st0 line).coordColumn
                  dataColumn := (headerLine req st0 line).dataColumn
                  dataName := (headerLine req st0 line).dataName } := by
  obtain ⟨s, hs⟩ := Option.isSome_iff_exists.mp (headerLineFuel_isSome req st line)
  obtain ⟨s0, hs0⟩ := Option.isSome_iff_exists.mp (headerLineFuel_isSome req st0 line)
  rw [headerLine_of_fuel hs, headerLine_of_fuel hs0]
  simp only [headerLineFuel] at hs hs0
  rw [if_neg (by rw [hk.1]; decide), if_neg (by rw [hk.2.1]; decide), if_pos hk.2.2] at hs hs0
  rw [columnLoop_indep req _ _ _ st st0 hc hd hn, hs0] at hs
  cases hs
  rfl

theorem line_kinds (line : List Char) :
    isNodesDirective line ∨ isRoleDirective line ∨ isColumnDirective line ∨
      isCommentLine line := by
  unfold isNodesDirective isRoleDirective isColumnDirective isCommentLine
  cases h1 : strncasecmp0 (skipHash line) "NODES".toList 5
  · cases h2 : isAxisDash (skipHash line)
    · by_cases h3 : charAt (skipHash line) 0 = '|'
      · exact Or.inr (Or.inr (Or.inl ⟨rfl, rfl, h3⟩))
      · exact Or.inr (Or.inr (Or.inr ⟨rfl, rfl, h3⟩))
    · exact Or.inr (Or.inl ⟨rfl, rfl⟩)
  · exact Or.inl rfl

theorem nodes_frame (req : Request) (z : HeaderState) (a : List Char)
    (ha : isNodesDirective a) :
    (headerLine req z a).coordColumn = z.coordColumn ∧
    (headerLine req z a).dataColumn = z.dataColumn ∧
    (headerLine req z a).dataName = z.dataName ∧
    (headerLine req z a).sphericalOrder = z.sphericalOrder := by
  rw [headerLine_nodes_indep req z z a ha rfl]
  exact ⟨rfl, rfl, rfl, rfl⟩

theorem role_frame (req : Request) (z : HeaderState) (a : List Char)
    (ha : isRoleDirective a) :
    (headerLine req z a).numNodes = z.numNodes ∧
    (headerLine req z a).coordColumn = z.coordColumn ∧
    (headerLine req z a).dataColumn = z.dataColumn ∧
    (headerLine req z a).dataName = z.dataName := by
  rw [headerLine_role_indep req z z a ha rfl]
  exact ⟨rfl, rfl, rfl, rfl⟩

theorem column_frame (req : Request) (z : HeaderState) (a : List Char)
    (ha : isColumnDirective a) :
    (headerLine req z a).numNodes = z.numNodes ∧
    (headerLine req z a).sphericalOrder = z.sphericalOrder := by
  rw [headerLine_column_indep req z z a ha rfl rfl rfl]
  exact ⟨rfl, rfl⟩

theorem commute_nodes_role (req : Request) (a b : List Char) (ha : isNodesDirective a)
    (hb : isRoleDirective b) (z : HeaderState) :
    headerLine req (headerLine req z a) b = headerLine req (headerLine req z b) a := by
  obtain ⟨a1, a2, a3, a4⟩ := nodes_frame req z a ha
  obtain ⟨b1, b2, b3, b4⟩ := role_frame req z b hb
  rw [headerLine_role_indep req (headerLine req z a) z b hb a4,
    headerLine_nodes_indep req (headerLine req z b) z a ha b1]
  exact HeaderState.ext5 rfl (a1.trans b2.symm) (a2.trans b3.symm) (a3.trans b4.symm) rfl

theorem commute_nodes_column (req : Request) (a b : List Char) (ha : isNodesDirective a)
    (hb : isColumnDirective b) (z : HeaderState) :
    headerLine req (headerLine req z a) b = headerLine req (headerLine req z b) a := by
  obtain ⟨a1, a2, a3, a4⟩ := nodes_frame req z a ha
  obtain ⟨b1, b2⟩ := column_frame req z b hb
  rw [headerLine_column_indep req (headerLine req z a) z b hb a1 a2 a3,
    headerLine_nodes_indep req (headerLine req z b) z a ha b1]
  exact HeaderState.ext5 rfl rfl rfl rfl (a4.trans b2.symm)

theorem commute_role_column (req : Request) (a b : List Char) (ha : isRoleDirective a)
    (hb : isColumnDirective b) (z : HeaderState) :
    headerLine req (headerLine req z a) b = headerLine req (headerLine req z b) a := by
  obtain ⟨a1, a2, a3, a4⟩ := role_frame req z a ha
  obtain ⟨b1, b2⟩ := column_frame req z b hb
  rw [headerLine_column_indep req (headerLine req z a) z b hb a2 a3 a4,
    headerLine_role_indep req (headerLine req z b) z a ha b2]
  exact HeaderState.ext5 (a1.trans b1.symm) rfl rfl rfl rfl

theorem headerLine_commute (req : Request) (x y : List Char)
    (h1 : ¬ (isNodesDirective x ∧ isNodesDirective y))
    (h2 : ¬ (isRoleDirective x ∧ isRoleDirective y))
    (h3 : ¬ (isColumnDirective x ∧ isColumnDirective y)) (z : HeaderState) :
    headerLine req (headerLine req z x) y = headerLine req (headerLine req z y) x := by
  rcases line_kinds x with hx | hx | hx | hx
  · rcases line_kinds y with hy | hy | hy | hy
    · exact absurd ⟨hx, hy⟩ h1
    · exact commute_nodes_role req x y hx hy z
    · exact commute_nodes_column req x y hx hy z
    · rw [headerLine_comment req _ y hy, headerLine_comment req _ y hy]
  · rcases line_kinds y with hy | hy | hy | hy
    · exact (commute_nodes_role req y x hy hx z).symm
    · exact absurd ⟨hx, hy⟩ h2
    · exact commute_role_column req x y hx hy z
    · rw [headerLine_comment req _ y hy, headerLine_comment req _ y hy]
  · rcases line_kinds y with hy | hy | hy | hy
    · exact (commute_nodes_column req y x hy hx z).symm
    · exact (commute_role_column req y x hy hx z).symm
    · exact absurd ⟨hx, hy⟩ h3
    · rw [headerLine_comment req _ y hy, headerLine_comment req _ y hy]
  · rw [headerLine_comment req _ x hx, headerLine_comment req _ x hx]

theorem two_le_filter {α : Type} (p : α → Bool) (l : List α) (x y : α) (hx : x ∈ l)
    (hy : y ∈ l) (hne : x ≠ y) (px : p x = true) (py : p y = true) :
    2 ≤ (l.filter p).length := by
  have mx : x ∈ l.filter p := List.mem_filter.2 ⟨hx, px⟩
  have my : y ∈ l.filter p := List.mem_filter.2 ⟨hy, py⟩
  rcases hl : l.filter p with _ | ⟨a, _ | ⟨b, t⟩⟩
  · rw [hl] at mx; simp at mx
  · rw [hl] at mx my
    simp only [List.mem_singleton] at mx my
    exact absurd (mx.trans my.symm) hne
  · simp

theorem headerFold_perm (req : Request) (st : HeaderState) (hs hs2 : List (List Char))
    (hperm : hs.Perm hs2)
    (h1 : (hs.filter (fun l => decide (isNodesDirective l))).length ≤ 1)
    (h2 : (hs.filter (fun l => decide (isRoleDirective l))).length ≤ 1)
    (h3 : (hs.filter (fun l => decide (isColumnDirective l))).length ≤ 1) :
    headerFold req st hs = headerFold req st hs2 := by
  unfold headerFold
  apply List.Perm.foldl_eq' hperm
  intro x hx y hy z
  by_cases hxy : x = y
  · subst hxy; rfl
  · apply headerLine_commute req x y
    · rintro ⟨px, py⟩
      have := two_le_filter (fun l => decide (isNodesDirective l)) hs x y hx hy hxy
        (by simpa using px) (by simpa using py)
      omega
    · rintro ⟨px, py⟩
      have := two_le_filter (fun l => decide (isRoleDirective l)) hs x y hx hy hxy
        (by simpa using px) (by simpa using py)
      omega
    · rintro ⟨px, py⟩
      have := two_le_filter (fun l => decide (isColumnDirective l)) hs x y hx hy hxy
        (by simpa using px) (by simpa using py)
      omega

/-! ## Directives in any order, fields spread over lines -/

theorem nodesCells_head {es : List (NodesField × List Char)} (hw : nodesCellsWf es) :
    ∀ c, (nodesCells es).head? = some c → (c == '#' || isspace c) = false := by
  intro c hc
  cases es with
  | nil => simp [nodesCells] at hc
  | cons p es =>
    obtain ⟨a, r, ht, hl⟩ := text_head hw.1 (p.2 ++ nodesCells es)
    simp only [nodesCells, ht, List.head?_cons, Option.some.injEq] at hc
    subst hc
    exact letter_not_lead hl

theorem nodesLoop_cells (es : List (NodesField × List Char)) :
    ∀ (st : HeaderState) (fuel : Nat), es ≠ [] → nodesCellsWf es → es.length ≤ fuel →
    nodesLoop fuel (nodesCells es) st = some (applyNodes st (es.map Prod.fst)) := by
  induction es with
  | nil => intro st fuel h; exact absurd rfl h
  | cons p es ih =>
    intro st fuel _ hw hf
    obtain ⟨hwf, hax, hg, hsep, hws⟩ := hw
    cases fuel with
    | zero => simp at hf
    | succ fuel =>
      have hgr : p.2 ≠ [] ∨ nodesCells es = [] := by
        rcases hsep with h | h
        · exact Or.inl h
        · subst h; exact Or.inr rfl
      have hrest : ∀ c, (nodesCells es).head? = some c → isspace c = false := by
        intro c hc
        have := nodesCells_head hws c hc
        simp only [Bool.or_eq_false_iff] at this
        exact this.2
      have hb := nodesBody_field p.1 p.2 (nodesCells es) st hwf hax hg hgr hrest
      simp only [nodesLoop, nodesCells, hb]
      cases es with
      | nil =>
        have h0 : strncasecmp0 [] "NODES".toList 5 = false := by decide
        simp only [nodesCells, h0, Bool.false_eq_true, if_false]
        rfl
      | cons q es2 =>
        have h2 : strncasecmp0 (nodesCells (q :: es2)) "NODES".toList 5 = true :=
          text_nodes hws.1 _
        rw [if_pos h2]
        rw [ih (nodesAssign st p.1) fuel (by simp) hws (by simpa using hf)]
        rfl

theorem headerLine_nodesFieldsLine (req : Request) (st : HeaderState) (lead : List Char)
    (es : List (NodesField × List Char)) (hl : isLead lead) (hne : es ≠ [])
    (hw : nodesCellsWf es) :
    headerLine req st (nodesFieldsLine lead es) = applyNodes st (es.map Prod.fst) := by
  have hskip : skipHash (nodesFieldsLine lead es) = nodesCells es :=
    skipHash_lead hl (nodesCells_head hw)
  have hn : strncasecmp0 (nodesCells es) "NODES".toList 5 = true := by
    cases es with
    | nil => exact absurd rfl hne
    | cons p es => exact text_nodes hw.1 _
  apply headerLine_of_fuel (f := es.length)
  simp only [headerLineFuel, hskip, hn, if_true]
  exact nodesLoop_cells es st _ hne hw (Nat.le_refl _)

theorem headerFold_nodes_parts (req : Request)
    (parts : List (List Char × List (NodesField × List Char))) :
    ∀ (st : HeaderState), (∀ p ∈ parts, isLead p.1 ∧ p.2 ≠ [] ∧ nodesCellsWf p.2) →
    headerFold req st (parts.map (fun p => nodesFieldsLine p.1 p.2))
      = applyNodes st (parts.map (fun p => p.2.map Prod.fst)).flatten := by
  induction parts with
  | nil => intro st _; rfl
  | cons p ps ih =>
    intro st h
    obtain ⟨h1, h2, h3⟩ := h p (List.mem_cons_self _ _)
    rw [List.map_cons, headerFold_cons, headerLine_nodesFieldsLine req st p.1 p.2 h1 h2 h3,
      ih _ (fun q hq => h q (List.mem_cons_of_mem _ hq))]
    simp only [applyNodes, List.map_cons, List.flatten_cons, List.foldl_append]

theorem headerFold_role_parts (req : Request) (parts : List (List Char × List RoleToken)) :
    ∀ (st : HeaderState), (∀ p ∈ parts, isLead p.1 ∧ p.2 ≠ [] ∧ tokensWf p.2) →
    headerFold req st (parts.map (fun p => roleLine p.1 p.2))
      = applyRoles st (parts.map (fun p => p.2.map RoleToken.text)).flatten := by
  induction parts with
  | nil => intro st _; rfl
  | cons p ps ih =>
    intro st h
    obtain ⟨h1, h2, h3⟩ := h p (List.mem_cons_self _ _)
    rw [List.map_cons, headerFold_cons, headerLine_roleLine req st p.1 p.2 h1 h2 h3,
      ih _ (fun q hq => h q (List.mem_cons_of_mem _ hq))]
    simp only [applyRoles, List.map_cons, List.flatten_cons, List.foldl_append]

/-- C14: directives in any order.  Two headers that are permutations of each
other, with at most one `NODES` line, one `<AXIS>-<ROLE>` line and one column
line among any number of lines without directive, leave the same parse state
and give the same outcome of `load`; and `NODES` fields, or `<AXIS>-<ROLE>`
tokens, spread over several consecutive lines leave the same state as the same
fields, or tokens, on one line. -/
theorem directives_any_order {D F : Type} (ops : FloatOps D F) (args0 : List Char)
    (args1 : Option (List Char)) (hs hs2 : List (List Char)) (row : List Char)
    (rows : List (List Char)) (st : HeaderState)
    (nodeParts : List (List Char × List (NodesField × List Char))) (nodeLead : List Char)
    (nodeFields : List (NodesField × List Char))
    (roleParts : List (List Char × List RoleToken)) (roleLead : List Char)
    (tokens : List RoleToken)
    (hall : ∀ h ∈ hs, charAt h 0 = '#') (hrow : charAt row 0 ≠ '#') (hperm : hs.Perm hs2)
    (h1 : (hs.filter (fun l => decide (isNodesDirective l))).length ≤ 1)
    (h2 : (hs.filter (fun l => decide (isRoleDirective l))).length ≤ 1)
    (h3 : (hs.filter (fun l => decide (isColumnDirective l))).length ≤ 1)
    (hnp : ∀ p ∈ nodeParts, isLead p.1 ∧ p.2 ≠ [] ∧ nodesCellsWf p.2)
    (hnl : isLead nodeLead) (hnn : nodeFields ≠ []) (hnw : nodesCellsWf nodeFields)
    (hns : nodeFields.map Prod.fst = (nodeParts.map (fun p => p.2.map Prod.fst)).flatten)
    (hrp : ∀ p ∈ roleParts, isLead p.1 ∧ p.2 ≠ [] ∧ tokensWf p.2)
    (hrl : isLead roleLead) (hrn : tokens ≠ []) (hrw : tokensWf tokens)
    (hrs : tokens.map RoleToken.text
      = (roleParts.map (fun p => p.2.map RoleToken.text)).flatten) :
    headerFold (parseRequest args1) st hs = headerFold (parseRequest args1) st hs2 ∧
    load ops args0 args1 (hs ++ row :: rows) = load ops args0 args1 (hs2 ++ row :: rows) ∧
    headerFold (parseRequest args1) st (nodeParts.map (fun p => nodesFieldsLine p.1 p.2))
      = headerLine (parseRequest args1) st (nodesFieldsLine nodeLead nodeFields) ∧
    headerFold (parseRequest args1) st (roleParts.map (fun p => roleLine p.1 p.2))
      = headerLine (parseRequest args1) st (roleLine roleLead tokens) := by
  have hall2 : ∀ h ∈ hs2, charAt h 0 = '#' := fun h hh => hall h (hperm.mem_iff.2 hh)
  refine ⟨headerFold_perm _ st hs hs2 hperm h1 h2 h3, ?_, ?_, ?_⟩
  · unfold load
    rw [loadHeader_fold args0 args1 hs hall row rows hrow,
      loadHeader_fold args0 args1 hs2 hall2 row rows hrow,
      headerFold_perm _ HeaderState.init hs hs2 hperm h1 h2 h3]
  · rw [headerFold_nodes_parts _ nodeParts st hnp,
      headerLine_nodesFieldsLine _ st nodeLead nodeFields hnl hnn hnw, hns]
  · rw [headerFold_role_parts _ roleParts st hrp,
      headerLine_roleLine _ st roleLead tokens hrl hrn hrw, hrs]

set_option maxRecDepth 8000 in
theorem directives_any_order_witness :
    load symOps "f".toList none
        (["# NODESX=2 NODESY=1 NODESZ=1\n".toList, "# X-LON, Y-LAT, Z-RADIUS\n".toList,
          "# by hand\n".toList, "# | X | Y | Z | T\n".toList] ++ "1 2 3 4\n".toList :: [])
      = load symOps "f".toList none
        (["# NODESX=2 NODESY=1 NODESZ=1\n".toList, "# X-LON, Y-LAT, Z-RADIUS\n".toList,
          "# by hand\n".toList, "# | X | Y | Z | T\n".toList].reverse
          ++ "1 2 3 4\n".toList :: []) ∧
    headerFold (parseRequest none) HeaderState.init
        ([(" ".toList, [(⟨"NODES".toList, 'X', [2]⟩, " ".toList),
            (⟨"NODES".toList, 'Y', [3]⟩, "\n".toList)]),
          (" ".toList, [(⟨"nodes".toList, 'z', [4]⟩, "\n".toList)])].map
          (fun p => nodesFieldsLine p.1 p.2))
      = headerLine (parseRequest none) HeaderState.init
          (nodesFieldsLine " ".toList [(⟨"NODES".toList, 'X', [2]⟩, " ".toList),
            (⟨"NODES".toList, 'Y', [3]⟩, "  ".toList), (⟨"nodes".toList, 'z', [4]⟩, "\n".toList)]) ∧
    headerFold (parseRequest none) HeaderState.init
        ([(" ".toList, [⟨"X-LON".toList, "\n".toList⟩]),
          ("# ".toList, [⟨"Y-LAT".toList, ", ".toList⟩, ⟨"Z-RADIUS".toList, "\n".toList⟩])].map
          (fun p => roleLine p.1 p.2))
      = headerLine (parseRequest none) HeaderState.init
          (roleLine " ".toList [⟨"X-LON".toList, ",".toList⟩, ⟨"Y-LAT".toList, " ".toList⟩,
            ⟨"Z-RADIUS".toList, "\n".toList⟩]) :=
  (directives_any_order symOps "f".toList none
    ["# NODESX=2 NODESY=1 NODESZ=1\n".toList, "# X-LON, Y-LAT, Z-RADIUS\n".toList,
      "# by hand\n".toList, "# | X | Y | Z | T\n".toList]
    ["# NODESX=2 NODESY=1 NODESZ=1\n".toList, "# X-LON, Y-LAT, Z-RADIUS\n".toList,
      "# by hand\n".toList, "# | X | Y | Z | T\n".toList].reverse
    "1 2 3 4\n".toList [] HeaderState.init
    [(" ".toList, [(⟨"NODES".toList, 'X', [2]⟩, " ".toList),
        (⟨"NODES".toList, 'Y', [3]⟩, "\n".toList)]),
      (" ".toList, [(⟨"nodes".toList, 'z', [4]⟩, "\n".toList)])]
    " ".toList [(⟨"NODES".toList, 'X', [2]⟩, " ".toList),
      (⟨"NODES".toList, 'Y', [3]⟩, "  ".toList), (⟨"nodes".toList, 'z', [4]⟩, "\n".toList)]
    [(" ".toList, [⟨"X-LON".toList, "\n".toList⟩]),
      ("# ".toList, [⟨"Y-LAT".toList, ", ".toList⟩, ⟨"Z-RADIUS".toList, "\n".toList⟩])]
    " ".toList [⟨"X-LON".toList, ",".toList⟩, ⟨"Y-LAT".toList, " ".toList⟩,
      ⟨"Z-RADIUS".toList, "\n".toList⟩]
    (by decide) (by decide) (List.reverse_perm _).symm (by decide) (by decide) (by decide)
    (by decide) (by decide) (by decide) (by decide) (by decide)
    (by decide) (by decide) (by decide) (by decide) (by decide)).2


/-! ## Header errors -/

/-- C3: for a file whose header lines `hs` are followed by a line `row` that
does not start with `#`, with `st` the state after the header: a requested
variable that was not found (`dataColumn` still unset) makes `load` end with
the variable-not-found error carrying the second argument as given and the
file name, whatever the dimensions and coordinate columns are; the second
argument is the searched name itself unless the `log(` form was used, where the
searched name is what stands between `log(` and the first `)`.  With no
request, or with the data column found, any unset dimension, coordinate column
or data column makes `load` end with the invalid-header error carrying the
file name.  In both cases the result is the error, not a grid. -/
theorem load_header_errors {D F : Type} (ops : FloatOps D F) (args0 : List Char)
    (args1 : Option (List Char)) (hs : List (List Char)) (row : List Char)
    (rows : List (List Char)) (st : HeaderState)
    (hall : ∀ h ∈ hs, charAt h 0 = '#') (hrow : charAt row 0 ≠ '#')
    (hst : st = headerFold (parseRequest args1) HeaderState.init hs) :
    ((parseRequest args1).varStart ≠ none → st.dataColumn < 0 →
      ∃ t, args1 = some t ∧
        load ops args0 args1 (hs ++ row :: rows) = some (.error (.variableNotFound t args0)) ∧
        ((parseRequest args1).logScale = false → (parseRequest args1).varStart = some t) ∧
        ((parseRequest args1).logScale = true →
          (parseRequest args1).varStart = some ((t.drop 4).takeWhile (fun c => c != ')')))) ∧
    (((parseRequest args1).varStart = none ∨ 0 ≤ st.dataColumn) →
      (st.numNodes.i0 < 0 ∨ st.numNodes.i1 < 0 ∨ st.numNodes.i2 < 0 ∨ st.coordColumn.i0 < 0
        ∨ st.coordColumn.i1 < 0 ∨ st.coordColumn.i2 < 0 ∨ st.dataColumn < 0) →
      load ops args0 args1 (hs ++ row :: rows) = some (.error (.invalidHeader args0))) := by
  have hload : ∀ e, validate args0 args1 (parseRequest args1) st = .error e →
      load ops args0 args1 (hs ++ row :: rows) = some (.error e) := by
    intro e he
    unfold load
    rw [loadHeader_fold args0 args1 hs hall row rows hrow, ← hst, he]
  constructor
  · intro hv hd
    cases args1 with
    | none => exact absurd rfl hv
    | some t =>
      refine ⟨t, rfl, ?_, ?_, ?_⟩
      · apply hload
        simp only [validate, if_pos hd, if_pos hv, Option.getD_some]
      · intro hlog
        by_cases h1 : charAt t 0 = '-'
        · rw [parseRequest_dash h1] at hv; exact absurd rfl hv
        · by_cases h2 : strncasecmp0 t "log(".toList 4 = true
          · rw [parseRequest_log h1 h2] at hlog; cases hlog
          · rw [parseRequest_bare h1 h2]
      · intro hlog
        by_cases h1 : charAt t 0 = '-'
        · rw [parseRequest_dash h1] at hv; exact absurd rfl hv
        · by_cases h2 : strncasecmp0 t "log(".toList 4 = true
          · rw [parseRequest_log h1 h2]
          · rw [parseRequest_bare h1 h2] at hlog; cases hlog
  · intro hv hm
    apply hload
    unfold validate
    by_cases hd : st.dataColumn < 0
    · rw [if_pos hd]
      rcases hv with hv | hv
      · simp [hv]
      · omega
    · rw [if_neg hd]
      have : dimsAndCoordsRead st = false := by
        unfold dimsAndCoordsRead
        simp only [Bool.and_eq_false_iff, decide_eq_false_iff_not, not_le]
        omega
      simp [this]

set_option maxRecDepth 8000 in
/-- C3 at a file whose column header lacks the requested `VISC` (and which
declares no dimensions): the variable-not-found error with `VISC` and the file
name. -/
theorem load_header_errors_witness :
    load symOps "grid.dat".toList (some "VISC".toList)
        (["# | X | Y | Z | TEMP |\n".toList] ++ "1 2 3 4\n".toList :: [])
      = some (.error (.variableNotFound "VISC".toList "grid.dat".toList)) := by
  obtain ⟨t, ht, hload, _⟩ :=
    (load_header_errors symOps "grid.dat".toList (some "VISC".toList)
      ["# | X | Y | Z | TEMP |\n".toList] "1 2 3 4\n".toList []
      (headerFold (parseRequest (some "VISC".toList)) HeaderState.init
        ["# | X | Y | Z | TEMP |\n".toList])
      (by decide) (by decide) rfl).1 (by decide) (by decide)
  cases ht
  exact hload

set_option maxRecDepth 8000 in
/-- C3, as stated, fails twice.  With the request `log(VISC)` and a header
that lacks `VISC`, the searched name is `VISC` but the variable-not-found error
carries the whole second argument `log(VISC)`.  And for a file that ends inside
its header no error is produced: the header loop never ends. -/
theorem log_request_error_carries_token :
    load symOps "grid.dat".toList (some "log(VISC)".toList)
        ["# | X | Y | Z | TEMP |\n".toList, "1 2 3 4\n".toList]
      = some (.error (.variableNotFound "log(VISC)".toList "grid.dat".toList)) ∧
    (parseRequest (some "log(VISC)".toList)).varStart = some "VISC".toList ∧
    load symOps "grid.dat".toList (some "VISC".toList) ["# | X | Y | Z | TEMP |\n".toList]
      = none := by
  refine ⟨by rfl, by rfl, by rfl⟩

end CitcomtFile
